import Mathlib

/-!
# The PNG transcoder of `src/file/png_format.cpp`

A shallow embedding of `PngFormat::onLoad` and `PngFormat::onSave`.

* Bytes and packed pixels are natural numbers; the width of the C type is
  made explicit with `% 2 ^ w` at the places where a value is stored.
* libpng is a black box.  What it reports to `onLoad` (header fields, palette,
  transparency chunk, the rows delivered by successive `png_read_row` calls,
  a fatal error through `longjmp`) is the record `PngReader`; what `onSave`
  hands to it is collected in the record `PngFile`.
* A row buffer or an image line is a list.  Reading past the end of one is
  undefined behaviour in C and is the result `none` here.
-/

namespace PngFormat

/-! ## Constants of `png.h` -/

/-- Value of `PNG_COLOR_TYPE_GRAY` in `png.h`. -/
def PNG_COLOR_TYPE_GRAY : Nat := 0

/-- Value of `PNG_COLOR_TYPE_RGB` in `png.h`. -/
def PNG_COLOR_TYPE_RGB : Nat := 2

/-- Value of `PNG_COLOR_TYPE_PALETTE` in `png.h`. -/
def PNG_COLOR_TYPE_PALETTE : Nat := 3

/-- Value of `PNG_COLOR_TYPE_GRAY_ALPHA` in `png.h`. -/
def PNG_COLOR_TYPE_GRAY_ALPHA : Nat := 4

/-- Value of `PNG_COLOR_TYPE_RGB_ALPHA` in `png.h`. -/
def PNG_COLOR_TYPE_RGB_ALPHA : Nat := 6

/-- Value of `PNG_MAX_PALETTE_LENGTH`; `onSave` refuses to compile unless it is 256. -/
def PNG_MAX_PALETTE_LENGTH : Nat := 256

/-- Value of `PNG_INTERLACE_NONE` in `png.h`. -/
def PNG_INTERLACE_NONE : Nat := 0

/-- The libpng palette entry `png_color`: three `png_byte` fields. -/
structure png_color where
  red : Nat
  green : Nat
  blue : Nat
deriving DecidableEq, Repr

/-! ## Pixel packing (`raster/image.h`) -/

/-- Modelled from the spec: the macro `_rgba` of `raster/image.h`, which is not
under `src/`.  An RGBA pixel is one 32-bit value with the channels packed
red, green, blue, alpha, eight bits each, red in the lowest byte. -/
def _rgba (r g b a : Nat) : Nat :=
  ((r <<< 0) ||| (g <<< 8) ||| (b <<< 16) ||| (a <<< 24)) % 2 ^ 32

/-- Modelled from the spec: the macro `_rgba_getr` of `raster/image.h`. -/
def _rgba_getr (c : Nat) : Nat := (c >>> 0) &&& 0xff

/-- Modelled from the spec: the macro `_rgba_getg` of `raster/image.h`. -/
def _rgba_getg (c : Nat) : Nat := (c >>> 8) &&& 0xff

/-- Modelled from the spec: the macro `_rgba_getb` of `raster/image.h`. -/
def _rgba_getb (c : Nat) : Nat := (c >>> 16) &&& 0xff

/-- Modelled from the spec: the macro `_rgba_geta` of `raster/image.h`. -/
def _rgba_geta (c : Nat) : Nat := (c >>> 24) &&& 0xff

/-- Modelled from the spec: the macro `_graya` of `raster/image.h`, which is not
under `src/`.  A GrayAlpha pixel is one 16-bit value, luminance in the low
byte and alpha in the high byte. -/
def _graya (v a : Nat) : Nat :=
  ((v <<< 0) ||| (a <<< 8)) % 2 ^ 16

/-- Modelled from the spec: the macro `_graya_getv` of `raster/image.h`. -/
def _graya_getv (c : Nat) : Nat := (c >>> 0) &&& 0xff

/-- Modelled from the spec: the macro `_graya_geta` of `raster/image.h`. -/
def _graya_geta (c : Nat) : Nat := (c >>> 8) &&& 0xff

/-! ## Images and the file operation -/

/-- The `imgtype` tag of an `Image` (`IMAGE_RGB`, `IMAGE_GRAYSCALE`,
`IMAGE_INDEXED` of `raster/image.h`). -/
inductive ImgType where
  | IMAGE_RGB
  | IMAGE_GRAYSCALE
  | IMAGE_INDEXED
deriving DecidableEq, Repr

/-- The fields of `Image` that the transcoder uses: `imgtype`, `w`, `h` and the
line table `line`, where `line[y]` holds the packed pixels of row `y`
(32-bit for `IMAGE_RGB`, 16-bit for `IMAGE_GRAYSCALE`, 8-bit for
`IMAGE_INDEXED`). -/
structure Image where
  imgtype : ImgType
  w : Nat
  h : Nat
  line : List (List Nat)
deriving DecidableEq, Repr

/-! ## The C type `float` -/

/-- Round a rational to the nearest integer, a tie going to the even
neighbour: the rounding of IEEE 754 in its default mode. -/
def round_half_even (x : ℚ) : ℤ :=
  if x - ⌊x⌋ < 1 / 2 then ⌊x⌋
  else if 1 / 2 < x - ⌊x⌋ then ⌊x⌋ + 1
  else if ⌊x⌋ % 2 = 0 then ⌊x⌋ else ⌊x⌋ + 1

/-- The `float` nearest to a positive rational `x`: with `e = ⌊log₂ x⌋`, so
that `2^e ≤ x < 2^(e+1)`, the 24-bit significand `x / 2^(e-23)` is rounded
to an integer, ties to even. -/
def round_binary32 (x : ℚ) : ℚ :=
  (round_half_even (x * 2 ^ (23 - Int.log 2 x)) : ℚ) * 2 ^ (Int.log 2 x - 23)

/-- The C type `float`, its values read as rationals: `to_float x` is the
result of a conversion or of an arithmetic operation whose exact result is
`x`.  `float` is IEEE 754 binary32 (24 significant bits) in the default
rounding mode, round to nearest with ties to even, and each operation
rounds to `float` (`FLT_EVAL_METHOD` 0).  The exponent range is not
modelled: the values of the progress computation lie between `2^-63` and
`2^32`, far from overflow (`2^128`) and from the subnormal numbers (below
`2^-126`). -/
def to_float (x : ℚ) : ℚ :=
  if 0 < x then round_binary32 x
  else if x < 0 then -round_binary32 (-x)
  else 0

/-! ## Progress reports and the file operation -/

/-- The operands of one `fop_progress` call,
`fop_progress(fop, (float)((float)pass + (float)(y+1) / (float)(height)) / (float)number_passes)`. -/
structure Progress where
  pass : Nat
  y : Nat
  height : Nat
  number_passes : Nat
deriving DecidableEq, Repr

/-- The `float` that a `fop_progress` call reports (`png_format.cpp`, lines
309-311 and 519-521): the four integers are converted to `float`, then the
division `(float)(y+1) / (float)(height)`, the addition of `(float)pass` and
the division by `(float)number_passes` are carried out in `float`, each
rounding its result.  The cast around the sum is applied to a value that is
a `float` already.  A call is made only for `y < height` and
`pass < number_passes`, so no division is by zero. -/
def Progress.value (p : Progress) : ℚ :=
  to_float (to_float (to_float (p.pass : ℚ) +
      to_float (to_float ((p.y + 1 : ℕ) : ℚ) / to_float (p.height : ℚ))) /
    to_float (p.number_passes : ℚ))

/-- The part of `FileOp` that `onLoad` and `onSave` read and write, together
with the position in the row stream of the codec.
* `has_alpha` is `fop->seq.has_alpha`;
* `image` is `fop->seq.image` (`none` for a null pointer);
* `palette` is `fop->seq.palette`, entry `c` as a triple (r, g, b);
* `errors` are the messages passed to `fop_error`, oldest first;
* `progress` are the operands of the `fop_progress` calls, oldest first;
* `image_requests` counts the calls of `fop_sequence_image`;
* `rows_read` counts the rows obtained from `png_read_row`. -/
structure FileOp where
  has_alpha : Bool
  image : Option Image
  palette : Nat → Nat × Nat × Nat
  errors : List String
  progress : List Progress
  image_requests : Nat
  rows_read : Nat

/-- Modelled from the spec: `fop_error` of `file/file.cpp`, which is not under
`src/`; it records a diagnostic message on the file operation. -/
def fop_error (fop : FileOp) (msg : String) : FileOp :=
  { fop with errors := fop.errors ++ [msg] }

/-- Modelled from the spec: `fop_progress` of `file/file.cpp`, which is not
under `src/`; it reports a fraction to the progress callback. -/
def fop_progress (fop : FileOp) (p : Progress) : FileOp :=
  { fop with progress := fop.progress ++ [p] }

/-- Modelled from the spec: `fop_sequence_set_color` of `file/file.cpp`, which
is not under `src/`; it sets entry `index` of the canonical palette. -/
def fop_sequence_set_color (fop : FileOp) (index r g b : Nat) : FileOp :=
  { fop with palette := fun i => if i = index then (r, g, b) else fop.palette i }

/-- Modelled from the spec: `fop_sequence_get_color` of `file/file.cpp`, which
is not under `src/`; it reads entry `index` of the canonical palette. -/
def fop_sequence_get_color (fop : FileOp) (index : Nat) : Nat × Nat × Nat :=
  fop.palette index

/-- What libpng and the host application present to one run of `onLoad`.
* `fopen_ok`, `create_read_struct_ok`, `create_info_struct_ok`: the three
  set-up calls succeed;
* `read_info_ok`: the header calls (`png_read_info` to
  `png_read_update_info`) return instead of leaving through `longjmp`;
* `width`, `height`, `color_type`: the fields of `info_ptr`;
* `number_passes`: the result of `png_set_interlace_handling`;
* `plte`: the palette of `png_get_PLTE`, `none` when that call returns 0;
* `trns`: the `num_trans` bytes of `png_get_tRNS` (empty without a chunk);
* `read_row k`: the row buffer after the call number `k` of `png_read_row`,
  `none` when that call leaves through `longjmp`;
* `sequence_image_ok`, `image_fill`: whether `fop_sequence_image` returns an
  image, and the pixel that the fresh image holds at row `y`, column `x`;
* `is_stop k`: the answer of `fop_is_stop` when consulted after row number
  `k` of the stream. -/
structure PngReader where
  fopen_ok : Bool
  create_read_struct_ok : Bool
  create_info_struct_ok : Bool
  read_info_ok : Bool
  width : Nat
  height : Nat
  color_type : Nat
  number_passes : Nat
  plte : Option (List png_color)
  trns : List Nat
  read_row : Nat → Option (List Nat)
  sequence_image_ok : Bool
  image_fill : Nat → Nat → Nat
  is_stop : Nat → Bool

/-- Modelled from the spec: `fop_sequence_image` of `file/file.cpp`, which is
not under `src/`.  It allocates the canonical image of the requested type
and size (`h` lines of `w` pixels) and stores it in `fop->seq.image`, or
returns a null pointer. -/
def fop_sequence_image (png : PngReader) (fop : FileOp) (imgtype : ImgType) (w h : Nat) :
    Option Image × FileOp :=
  if png.sequence_image_ok then
    let image : Image :=
      { imgtype := imgtype, w := w, h := h,
        line := (List.range h).map (fun y => (List.range w).map (fun x => png.image_fill y x)) }
    (some image, { fop with image := some image, image_requests := fop.image_requests + 1 })
  else
    (none, { fop with image_requests := fop.image_requests + 1 })

/-! ## `onLoad`: one row -/

/-- The `RGB_ALPHA` branch of the row loop of `onLoad`: for each of `width`
pixels read four bytes and pack them with `_rgba`. -/
def load_row_RGB_ALPHA : Nat → List Nat → Option (List Nat)
  | 0, _ => some []
  | w + 1, r :: g :: b :: a :: src =>
    (load_row_RGB_ALPHA w src).map (fun dst => _rgba r g b a :: dst)
  | _ + 1, _ => none

/-- The `RGB` branch of the row loop of `onLoad`: three bytes per pixel, alpha 255. -/
def load_row_RGB : Nat → List Nat → Option (List Nat)
  | 0, _ => some []
  | w + 1, r :: g :: b :: src =>
    (load_row_RGB w src).map (fun dst => _rgba r g b 255 :: dst)
  | _ + 1, _ => none

/-- The `GRAY_ALPHA` branch of the row loop of `onLoad`: two bytes per pixel. -/
def load_row_GRAY_ALPHA : Nat → List Nat → Option (List Nat)
  | 0, _ => some []
  | w + 1, k :: a :: src =>
    (load_row_GRAY_ALPHA w src).map (fun dst => _graya k a :: dst)
  | _ + 1, _ => none

/-- The `GRAY` branch of the row loop of `onLoad`: one byte per pixel, alpha 255. -/
def load_row_GRAY : Nat → List Nat → Option (List Nat)
  | 0, _ => some []
  | w + 1, k :: src =>
    (load_row_GRAY w src).map (fun dst => _graya k 255 :: dst)
  | _ + 1, _ => none

/-- The `PALETTE` branch of the row loop of `onLoad`: one index byte per pixel;
an index whose `trans_entries` flag is set is written as 0.  The store is
into a `uint8_t`. -/
def load_row_PALETTE (trans_entries : List Bool) : Nat → List Nat → Option (List Nat)
  | 0, _ => some []
  | w + 1, c :: src =>
    (load_row_PALETTE trans_entries w src).map (fun dst =>
      (if !trans_entries.isEmpty && trans_entries.getD c false then 0 else c % 2 ^ 8) :: dst)
  | _ + 1, _ => none

/-- The chain of `if (info_ptr->color_type == ...)` in the row loop of `onLoad`:
`row` is the buffer filled by `png_read_row`, `dst` the current content of
`image->line[y]`; the result is the content of the line afterwards.  Each
branch writes `width` pixels, which is the whole line of the image that
`onLoad` allocated; with no matching branch nothing is written. -/
def load_row (color_type : Nat) (trans_entries : List Bool) (width : Nat) (row dst : List Nat) :
    Option (List Nat) :=
  if color_type = PNG_COLOR_TYPE_RGB_ALPHA then load_row_RGB_ALPHA width row
  else if color_type = PNG_COLOR_TYPE_RGB then load_row_RGB width row
  else if color_type = PNG_COLOR_TYPE_GRAY_ALPHA then load_row_GRAY_ALPHA width row
  else if color_type = PNG_COLOR_TYPE_GRAY then load_row_GRAY width row
  else if color_type = PNG_COLOR_TYPE_PALETTE then load_row_PALETTE trans_entries width row
  else some dst

/-! ## `onLoad` -/

/-- The switch on `info_ptr->color_type` that picks the type of the output
image.  The two alpha cases set `fop->seq.has_alpha` and fall through; the
result is `none` in the `default` case. -/
def onLoad_imgtype (color_type : Nat) (fop : FileOp) : Option (ImgType × FileOp) :=
  if color_type = PNG_COLOR_TYPE_RGB_ALPHA then
    some (ImgType.IMAGE_RGB, { fop with has_alpha := true })
  else if color_type = PNG_COLOR_TYPE_RGB then
    some (ImgType.IMAGE_RGB, fop)
  else if color_type = PNG_COLOR_TYPE_GRAY_ALPHA then
    some (ImgType.IMAGE_GRAYSCALE, { fop with has_alpha := true })
  else if color_type = PNG_COLOR_TYPE_GRAY then
    some (ImgType.IMAGE_GRAYSCALE, fop)
  else if color_type = PNG_COLOR_TYPE_PALETTE then
    some (ImgType.IMAGE_INDEXED, fop)
  else
    none

/-- The loop `for (c = 0; c < num_palette; c++)` of `onLoad`: copy the source
palette into the canonical palette, starting at index `c`. -/
def read_palette : List png_color → Nat → FileOp → FileOp
  | [], _, fop => fop
  | e :: palette, c, fop =>
    read_palette palette (c + 1) (fop_sequence_set_color fop c e.red e.green e.blue)

/-- The loop `for (; c < 256; c++)` of `onLoad` with `n` iterations left: set
the entries from `c` on to black. -/
def fill_palette : Nat → Nat → FileOp → FileOp
  | 0, _, fop => fop
  | n + 1, c, fop => fill_palette n (c + 1) (fop_sequence_set_color fop c 0 0 0)

/-- The loop over the `num_trans` bytes of the transparency chunk: each value
inside the bounds of `trans_entries` is flagged and sets
`fop->seq.has_alpha`. -/
def read_trans : List Nat → List Bool × FileOp → List Bool × FileOp
  | [], st => st
  | j :: rest, (trans_entries, fop) =>
    if 0 ≤ j ∧ j < trans_entries.length then
      read_trans rest (trans_entries.set j true, { fop with has_alpha := true })
    else
      read_trans rest (trans_entries, fop)

/-- The block `if (color_type == PNG_COLOR_TYPE_PALETTE && png_get_PLTE(...))`
of `onLoad`: read the palette and the transparent entries.  The table
`trans_entries` starts as 256 times `false`. -/
def onLoad_palette (png : PngReader) (fop : FileOp) : List Bool × FileOp :=
  let trans_entries := List.replicate 256 false
  if png.color_type = PNG_COLOR_TYPE_PALETTE then
    match png.plte with
    | some palette =>
      let fop := read_palette palette 0 fop
      let fop := fill_palette (256 - palette.length) palette.length fop
      read_trans png.trns (trans_entries, fop)
    | none => (trans_entries, fop)
  else
    (trans_entries, fop)

/-- How a loop of `onLoad` or `onSave` ends: it runs to its end (or to its
`break`), libpng leaves through `longjmp`, or a buffer is read past its end. -/
inductive Run (σ : Type) where
  | done (s : σ)
  | longjmp (s : σ)
  | undefined

/-- The loop `for (y = 0; y < height; y++)` of `onLoad` for one pass, with `n`
iterations left and the next row being `y`: read a row, transcode it into
`image->line[y]`, report progress, and `break` when `fop_is_stop` says so. -/
def onLoad_rows (png : PngReader) (trans_entries : List Bool) (pass : Nat) :
    Nat → Nat → FileOp → Run FileOp
  | 0, _, fop => Run.done fop
  | n + 1, y, fop =>
    match png.read_row fop.rows_read with
    | none => Run.longjmp fop
    | some row =>
      match fop.image with
      | none => Run.undefined
      | some image =>
        match load_row png.color_type trans_entries png.width row (image.line.getD y []) with
        | none => Run.undefined
        | some pixels =>
          let k := fop.rows_read
          let fop := { fop with
            rows_read := fop.rows_read + 1,
            image := some { image with line := image.line.set y pixels } }
          let fop := fop_progress fop
            { pass := pass, y := y, height := png.height, number_passes := png.number_passes }
          if png.is_stop k then Run.done fop
          else onLoad_rows png trans_entries pass n (y + 1) fop

/-- The loop `for (pass = 0; pass < number_passes; pass++)` of `onLoad`, with
`n` passes left and the next pass being `pass`.  The `break` of the row loop
leaves the row loop only: the next pass starts at row 0. -/
def onLoad_passes (png : PngReader) (trans_entries : List Bool) :
    Nat → Nat → FileOp → Run FileOp
  | 0, _, fop => Run.done fop
  | n + 1, pass, fop =>
    match onLoad_rows png trans_entries pass png.height 0 fop with
    | Run.done fop => onLoad_passes png trans_entries n (pass + 1) fop
    | Run.longjmp fop => Run.longjmp fop
    | Run.undefined => Run.undefined

/-- The body of the `setjmp` branch of `onLoad`, entered when libpng reports a
fatal error: `report_png_error` has recorded the libpng message, and the
branch records its own. -/
def onLoad_longjmp (fop : FileOp) : FileOp :=
  fop_error (fop_error fop "libpng: %s\n") "Error reading PNG file\n"

/-- `PngFormat::onLoad`.  The result is the returned `bool` and the file
operation afterwards, or `none` when a row buffer is read past its end. -/
def onLoad (png : PngReader) (fop : FileOp) : Option (Bool × FileOp) :=
  if !png.fopen_ok then some (false, fop)
  else if !png.create_read_struct_ok then
    some (false, fop_error fop "png_create_read_struct\n")
  else if !png.create_info_struct_ok then
    some (false, fop_error fop "png_create_info_struct\n")
  else if !png.read_info_ok then
    some (false, onLoad_longjmp fop)
  else
    match onLoad_imgtype png.color_type fop with
    | none => some (false, fop_error fop "Color type not supported\n)")
    | some (imgtype, fop) =>
      match fop_sequence_image png fop imgtype png.width png.height with
      | (none, fop) => some (false, fop_error fop "file_sequence_image %dx%d\n")
      | (some _, fop) =>
        let (trans_entries, fop) := onLoad_palette png fop
        match onLoad_passes png trans_entries png.number_passes 0 fop with
        | Run.done fop => some (true, fop)
        | Run.longjmp fop => some (false, onLoad_longjmp fop)
        | Run.undefined => none

/-! ## `onSave`: one row -/

/-- The `RGB_ALPHA` branch of the row loop of `onSave`: for each of `width`
pixels write the four channel bytes. -/
def save_row_RGB_ALPHA : Nat → List Nat → Option (List Nat)
  | 0, _ => some []
  | w + 1, c :: src =>
    (save_row_RGB_ALPHA w src).map (fun dst =>
      _rgba_getr c :: _rgba_getg c :: _rgba_getb c :: _rgba_geta c :: dst)
  | _ + 1, [] => none

/-- The `RGB` branch of the row loop of `onSave`: three channel bytes per pixel. -/
def save_row_RGB : Nat → List Nat → Option (List Nat)
  | 0, _ => some []
  | w + 1, c :: src =>
    (save_row_RGB w src).map (fun dst =>
      _rgba_getr c :: _rgba_getg c :: _rgba_getb c :: dst)
  | _ + 1, [] => none

/-- The `GRAY_ALPHA` branch of the row loop of `onSave`: two bytes per pixel. -/
def save_row_GRAY_ALPHA : Nat → List Nat → Option (List Nat)
  | 0, _ => some []
  | w + 1, c :: src =>
    (save_row_GRAY_ALPHA w src).map (fun dst => _graya_getv c :: _graya_geta c :: dst)
  | _ + 1, [] => none

/-- The `GRAY` branch of the row loop of `onSave`: one byte per pixel. -/
def save_row_GRAY : Nat → List Nat → Option (List Nat)
  | 0, _ => some []
  | w + 1, c :: src =>
    (save_row_GRAY w src).map (fun dst => _graya_getv c :: dst)
  | _ + 1, [] => none

/-- The `PALETTE` branch of the row loop of `onSave`: the index byte is copied. -/
def save_row_PALETTE : Nat → List Nat → Option (List Nat)
  | 0, _ => some []
  | w + 1, c :: src =>
    (save_row_PALETTE w src).map (fun dst => c :: dst)
  | _ + 1, [] => none

/-- The chain of `if (info_ptr->color_type == ...)` in the row loop of `onSave`:
`src` is `image->line[y]`, the result is the row buffer handed to
`png_write_rows`.  With no matching branch the buffer was never written and
its content is indeterminate. -/
def save_row (color_type : Nat) (width : Nat) (src : List Nat) : Option (List Nat) :=
  if color_type = PNG_COLOR_TYPE_RGB_ALPHA then save_row_RGB_ALPHA width src
  else if color_type = PNG_COLOR_TYPE_RGB then save_row_RGB width src
  else if color_type = PNG_COLOR_TYPE_GRAY_ALPHA then save_row_GRAY_ALPHA width src
  else if color_type = PNG_COLOR_TYPE_GRAY then save_row_GRAY width src
  else if color_type = PNG_COLOR_TYPE_PALETTE then save_row_PALETTE width src
  else none

/-! ## `onSave` -/

/-- The two queries that `onSave` makes of the sprite of the document:
`needAlpha()` and whether `getBackgroundLayer()` is non-null. -/
structure Sprite where
  needAlpha : Bool
  hasBackgroundLayer : Bool
deriving DecidableEq, Repr

/-- The arguments of `png_set_IHDR`. -/
structure png_IHDR where
  width : Nat
  height : Nat
  bit_depth : Nat
  color_type : Nat
  interlace_type : Nat
deriving DecidableEq, Repr

/-- What `onSave` has handed to libpng: the header of `png_set_IHDR`, the
palette of `png_set_PLTE`, the transparency bytes of `png_set_tRNS` (`none`
when the call was not made) and the rows of `png_write_rows`, oldest first. -/
structure PngFile where
  ihdr : Option png_IHDR
  plte : Option (List png_color)
  trns : Option (List Nat)
  rows : List (List Nat)
deriving DecidableEq, Repr

/-- How libpng answers one run of `onSave`: the three set-up calls succeed or
not, `png_write_info` returns or leaves through `longjmp`, and so does the
call number `k` of `png_write_rows`. -/
structure PngWriter where
  fopen_ok : Bool
  create_write_struct_ok : Bool
  create_info_struct_ok : Bool
  write_info_ok : Bool
  write_row_ok : Nat → Bool

/-- The switch on `image->imgtype` of `onSave` that picks the color type. -/
def onSave_color_type (imgtype : ImgType) (sprite : Sprite) : Nat :=
  match imgtype with
  | ImgType.IMAGE_RGB =>
    if sprite.needAlpha then PNG_COLOR_TYPE_RGB_ALPHA else PNG_COLOR_TYPE_RGB
  | ImgType.IMAGE_GRAYSCALE =>
    if sprite.needAlpha then PNG_COLOR_TYPE_GRAY_ALPHA else PNG_COLOR_TYPE_GRAY
  | ImgType.IMAGE_INDEXED => PNG_COLOR_TYPE_PALETTE

/-- The loop `for (c = 0; c < PNG_MAX_PALETTE_LENGTH; c++)` of `onSave` with
`n` iterations left: entry `c` of the libpng palette receives the channels
of canonical entry `c`, each stored into a `png_byte`. -/
def write_palette (fop : FileOp) : Nat → Nat → List png_color
  | 0, _ => []
  | n + 1, c =>
    let (r, g, b) := fop_sequence_get_color fop c
    { red := r % 2 ^ 8, green := g % 2 ^ 8, blue := b % 2 ^ 8 } :: write_palette fop n (c + 1)

/-- The block `if (image->imgtype == IMAGE_INDEXED)` of `onSave`: set the
palette, and the transparency chunk when the sprite has no background
layer. -/
def onSave_palette (image : Image) (sprite : Sprite) (fop : FileOp) (file : PngFile) : PngFile :=
  if image.imgtype = ImgType.IMAGE_INDEXED then
    let file := { file with plte := some (write_palette fop PNG_MAX_PALETTE_LENGTH 0) }
    if !sprite.hasBackgroundLayer then { file with trns := some [0] } else file
  else
    file

/-- The loop `for (y = 0; y < height; y++)` of `onSave` with `n` iterations
left and the next row being `y`: transcode `image->line[y]`, write the row,
report progress. -/
def onSave_rows (w : PngWriter) (image : Image) (color_type width height number_passes pass : Nat) :
    Nat → Nat → FileOp × PngFile → Run (FileOp × PngFile)
  | 0, _, st => Run.done st
  | n + 1, y, (fop, file) =>
    match image.line.get? y with
    | none => Run.undefined
    | some src =>
      match save_row color_type width src with
      | none => Run.undefined
      | some row =>
        if !w.write_row_ok file.rows.length then Run.longjmp (fop, file)
        else
          let file := { file with rows := file.rows ++ [row] }
          let fop := fop_progress fop
            { pass := pass, y := y, height := height, number_passes := number_passes }
          onSave_rows w image color_type width height number_passes pass n (y + 1) (fop, file)

/-- The loop `for (pass = 0; pass < number_passes; pass++)` of `onSave`, with `n`
passes left and the next pass being `pass`. -/
def onSave_passes (w : PngWriter) (image : Image) (color_type width height number_passes : Nat) :
    Nat → Nat → FileOp × PngFile → Run (FileOp × PngFile)
  | 0, _, st => Run.done st
  | n + 1, pass, st =>
    match onSave_rows w image color_type width height number_passes pass height 0 st with
    | Run.done st => onSave_passes w image color_type width height number_passes n (pass + 1) st
    | Run.longjmp st => Run.longjmp st
    | Run.undefined => Run.undefined

/-- `PngFormat::onSave`.  The result is the returned `bool`, the file operation
afterwards and what was handed to libpng, or `none` when the image pointer
is null or an image line is read past its end. -/
def onSave (w : PngWriter) (sprite : Sprite) (fop : FileOp) : Option (Bool × FileOp × PngFile) :=
  let file : PngFile := { ihdr := none, plte := none, trns := none, rows := [] }
  if !w.fopen_ok then some (false, fop, file)
  else if !w.create_write_struct_ok then some (false, fop, file)
  else if !w.create_info_struct_ok then some (false, fop, file)
  else
    match fop.image with
    | none => none
    | some image =>
      let width := image.w
      let height := image.h
      let color_type := onSave_color_type image.imgtype sprite
      let ihdr : png_IHDR :=
        { width := width, height := height, bit_depth := 8, color_type := color_type,
          interlace_type := PNG_INTERLACE_NONE }
      let file := { file with ihdr := some ihdr }
      let file := onSave_palette image sprite fop file
      if !w.write_info_ok then some (false, fop_error fop "libpng: %s\n", file)
      else
        let number_passes := 1
        match onSave_passes w image color_type width height number_passes number_passes 0
            (fop, file) with
        | Run.done (fop, file) => some (true, fop, file)
        | Run.longjmp (fop, file) => some (false, fop_error fop "libpng: %s\n", file)
        | Run.undefined => none

/-! ## The size of a row -/

/-- What `png_get_rowbytes` of libpng reports once the transformations of
`onLoad` are set (one byte per sample): `width` times the number of
channels of the color type, and 0 for a value that is no color type. -/
def png_get_rowbytes (color_type width : Nat) : Nat :=
  if color_type = PNG_COLOR_TYPE_RGB_ALPHA then 4 * width
  else if color_type = PNG_COLOR_TYPE_RGB then 3 * width
  else if color_type = PNG_COLOR_TYPE_GRAY_ALPHA then 2 * width
  else if color_type = PNG_COLOR_TYPE_GRAY then width
  else if color_type = PNG_COLOR_TYPE_PALETTE then width
  else 0

/-- The pixels that the row loop of `onLoad` stores for the row of call number
`k` of `png_read_row`: that row buffer put through `load_row`. -/
def decoded_row (png : PngReader) (trans_entries : List Bool) (k : Nat) : List Nat :=
  ((png.read_row k).bind (fun row =>
    load_row png.color_type trans_entries png.width row [])).getD []

/-! ## Reading back what was written -/

/-- The codec taken as a lossless channel: what libpng presents to `onLoad`
when it reads a file for which `onSave` made the calls collected in `file`.
The header, palette and transparency bytes are those that were set, the
image is non-interlaced or Adam7 as the header says, call number `k` of
`png_read_row` delivers the row of call number `k` of `png_write_rows` and
fails after the last row; nobody asks for the decode to stop, and `fill` is
the content of the fresh image. -/
def reader_of_file (file : PngFile) (fill : Nat → Nat → Nat) : PngReader :=
  { fopen_ok := true, create_read_struct_ok := true, create_info_struct_ok := true,
    read_info_ok := file.ihdr.isSome,
    width := (file.ihdr.map (fun i => i.width)).getD 0,
    height := (file.ihdr.map (fun i => i.height)).getD 0,
    color_type := (file.ihdr.map (fun i => i.color_type)).getD 0,
    number_passes :=
      if (file.ihdr.map (fun i => i.interlace_type)).getD 0 = PNG_INTERLACE_NONE then 1 else 7,
    plte := file.plte, trns := file.trns.getD [],
    read_row := fun k => file.rows.get? k,
    sequence_image_ok := true, image_fill := fill, is_stop := fun _ => false }

/-! ## Sample inputs -/

/-- A file operation before `onLoad` runs: no image, a black palette, nothing
reported yet. -/
def fresh_fop : FileOp :=
  { has_alpha := false, image := none, palette := fun _ => (0, 0, 0), errors := [],
    progress := [], image_requests := 0, rows_read := 0 }

/-- A reader for a file of the given size, color type and number of passes
in which every call succeeds, every `png_read_row` delivers `row`, and
`fop_is_stop` answers `stop`. -/
def sample_reader (width height color_type number_passes : Nat) (plte : Option (List png_color))
    (trns : List Nat) (row : List Nat) (stop : Nat → Bool) : PngReader :=
  { fopen_ok := true, create_read_struct_ok := true, create_info_struct_ok := true,
    read_info_ok := true, width := width, height := height, color_type := color_type,
    number_passes := number_passes, plte := plte, trns := trns,
    read_row := fun _ => some row, sequence_image_ok := true, image_fill := fun _ _ => 0,
    is_stop := stop }

/-- A writer in which every libpng call succeeds. -/
def sample_writer : PngWriter :=
  { fopen_ok := true, create_write_struct_ok := true, create_info_struct_ok := true,
    write_info_ok := true, write_row_ok := fun _ => true }

/-- A file operation that holds `image` for `onSave`, with the canonical
palette `palette`. -/
def fop_with_image (image : Image) (palette : Nat → Nat × Nat × Nat) : FileOp :=
  { fresh_fop with image := some image, palette := palette }

/-! ## Pixel packing: arithmetic form and inverse laws -/


theorem and_0xff (c : Nat) : c &&& 0xff = c % 256 :=
  Nat.and_pow_two_sub_one_eq_mod c 8

theorem or_shift_eq_add (lo hi i : Nat) (h : lo < 2 ^ i) : lo ||| hi <<< i = lo + 2 ^ i * hi := by
  rw [Nat.shiftLeft_eq, Nat.or_comm, Nat.mul_comm, ← Nat.mul_add_lt_is_or h, Nat.add_comm]

theorem rgba_eq_add (r g b a : Nat) (hr : r < 256) (hg : g < 256) (hb : b < 256) (ha : a < 256) :
    _rgba r g b a = r + 256 * g + 65536 * b + 16777216 * a := by
  unfold _rgba
  rw [Nat.shiftLeft_zero, or_shift_eq_add r g 8 (by omega),
    or_shift_eq_add _ b 16 (by omega), or_shift_eq_add _ a 24 (by omega)]
  omega

theorem graya_eq_add (v a : Nat) (hv : v < 256) (ha : a < 256) :
    _graya v a = v + 256 * a := by
  unfold _graya
  rw [Nat.shiftLeft_zero, or_shift_eq_add v a 8 (by omega)]
  omega

theorem rgba_getr_eq (c : Nat) : _rgba_getr c = c % 256 := by
  unfold _rgba_getr; rw [and_0xff, Nat.shiftRight_zero]
theorem rgba_getg_eq (c : Nat) : _rgba_getg c = c / 256 % 256 := by
  unfold _rgba_getg; rw [and_0xff, Nat.shiftRight_eq_div_pow]
theorem rgba_getb_eq (c : Nat) : _rgba_getb c = c / 65536 % 256 := by
  unfold _rgba_getb; rw [and_0xff, Nat.shiftRight_eq_div_pow]
theorem rgba_geta_eq (c : Nat) : _rgba_geta c = c / 16777216 % 256 := by
  unfold _rgba_geta; rw [and_0xff, Nat.shiftRight_eq_div_pow]
theorem graya_getv_eq (c : Nat) : _graya_getv c = c % 256 := by
  unfold _graya_getv; rw [and_0xff, Nat.shiftRight_zero]
theorem graya_geta_eq (c : Nat) : _graya_geta c = c / 256 % 256 := by
  unfold _graya_geta; rw [and_0xff, Nat.shiftRight_eq_div_pow]

theorem rgba_get (r g b a : Nat) (hr : r < 256) (hg : g < 256) (hb : b < 256) (ha : a < 256) :
    _rgba_getr (_rgba r g b a) = r ∧ _rgba_getg (_rgba r g b a) = g ∧
    _rgba_getb (_rgba r g b a) = b ∧ _rgba_geta (_rgba r g b a) = a := by
  rw [rgba_getr_eq, rgba_getg_eq, rgba_getb_eq, rgba_geta_eq, rgba_eq_add r g b a hr hg hb ha]
  omega

theorem rgba_of_get (c : Nat) (hc : c < 2 ^ 32) :
    _rgba (_rgba_getr c) (_rgba_getg c) (_rgba_getb c) (_rgba_geta c) = c := by
  rw [rgba_eq_add _ _ _ _ (by rw [rgba_getr_eq]; omega) (by rw [rgba_getg_eq]; omega)
    (by rw [rgba_getb_eq]; omega) (by rw [rgba_geta_eq]; omega)]
  rw [rgba_getr_eq, rgba_getg_eq, rgba_getb_eq, rgba_geta_eq]
  omega

theorem graya_get (v a : Nat) (hv : v < 256) (ha : a < 256) :
    _graya_getv (_graya v a) = v ∧ _graya_geta (_graya v a) = a := by
  rw [graya_getv_eq, graya_geta_eq, graya_eq_add v a hv ha]
  omega

theorem graya_of_get (c : Nat) (hc : c < 2 ^ 16) :
    _graya (_graya_getv c) (_graya_geta c) = c := by
  rw [graya_eq_add _ _ (by rw [graya_getv_eq]; omega) (by rw [graya_geta_eq]; omega)]
  rw [graya_getv_eq, graya_geta_eq]
  omega

/-! ## Row decoding in closed form -/

theorem load_row_RGB_ALPHA_eq (width : Nat) (row : List Nat) (h : row.length = 4 * width) :
    load_row_RGB_ALPHA width row = some ((List.range width).map (fun x =>
      _rgba (row.getD (4 * x) 0) (row.getD (4 * x + 1) 0) (row.getD (4 * x + 2) 0)
        (row.getD (4 * x + 3) 0))) := by
  induction width generalizing row with
  | zero => simp [load_row_RGB_ALPHA]
  | succ w ih =>
    match row, h with
    | r :: g :: b :: a :: rest, h =>
      have hrest : rest.length = 4 * w := by simp at h; omega
      simp only [load_row_RGB_ALPHA, ih rest hrest, Option.map_some', List.range_succ_eq_map,
        List.map_cons, List.map_map]
      simp [Function.comp_def, Nat.mul_add, List.getD_cons_succ]

theorem load_row_RGB_eq (width : Nat) (row : List Nat) (h : row.length = 3 * width) :
    load_row_RGB width row = some ((List.range width).map (fun x =>
      _rgba (row.getD (3 * x) 0) (row.getD (3 * x + 1) 0) (row.getD (3 * x + 2) 0) 255)) := by
  induction width generalizing row with
  | zero => simp [load_row_RGB]
  | succ w ih =>
    match row, h with
    | r :: g :: b :: rest, h =>
      have hrest : rest.length = 3 * w := by simp at h; omega
      simp only [load_row_RGB, ih rest hrest, Option.map_some', List.range_succ_eq_map,
        List.map_cons, List.map_map]
      simp [Function.comp_def, Nat.mul_add, List.getD_cons_succ]

theorem load_row_GRAY_ALPHA_eq (width : Nat) (row : List Nat) (h : row.length = 2 * width) :
    load_row_GRAY_ALPHA width row = some ((List.range width).map (fun x =>
      _graya (row.getD (2 * x) 0) (row.getD (2 * x + 1) 0))) := by
  induction width generalizing row with
  | zero => simp [load_row_GRAY_ALPHA]
  | succ w ih =>
    match row, h with
    | k :: a :: rest, h =>
      have hrest : rest.length = 2 * w := by simp at h; omega
      simp only [load_row_GRAY_ALPHA, ih rest hrest, Option.map_some', List.range_succ_eq_map,
        List.map_cons, List.map_map]
      simp [Function.comp_def, Nat.mul_add, List.getD_cons_succ]

theorem load_row_GRAY_eq (width : Nat) (row : List Nat) (h : row.length = width) :
    load_row_GRAY width row = some ((List.range width).map (fun x =>
      _graya (row.getD x 0) 255)) := by
  induction width generalizing row with
  | zero => simp [load_row_GRAY]
  | succ w ih =>
    match row, h with
    | k :: rest, h =>
      have hrest : rest.length = w := by simpa using h
      simp only [load_row_GRAY, ih rest hrest, Option.map_some', List.range_succ_eq_map,
        List.map_cons, List.map_map]
      simp [Function.comp_def, List.getD_cons_succ]

theorem getD_lt_of_forall {row : List Nat} {B : Nat} (hb : ∀ v ∈ row, v < B) (i : Nat)
    (hB : 0 < B) : row.getD i 0 < B := by
  by_cases hi : i < row.length
  · rw [List.getD_eq_getElem row 0 hi]
    exact hb _ (List.getElem_mem hi)
  · rw [List.getD_eq_default row 0 (by omega)]
    exact hB

/-! ## Decoding one row (claims C3, C4) -/

/-- C3: a source row that carries alpha is packed in channel order without
change.  For color type RGB+alpha and a row of `4 * width` bytes, decoded
pixel `x` is `_rgba` of bytes `4x .. 4x+3`, and its four channels are those
bytes; for Gray+alpha and a row of `2 * width` bytes, decoded pixel `x` is
`_graya` of bytes `2x, 2x+1`, and its two channels are those bytes.  The row
`[10,20,30,40,50,60,70,80]` of width 2 decodes to the two pixels
(10,20,30,40) and (50,60,70,80). -/
theorem load_row_alpha_in_source (trans_entries : List Bool) (width : Nat) (row dst : List Nat)
    (hbytes : ∀ v ∈ row, v < 256) :
    (row.length = 4 * width →
      load_row PNG_COLOR_TYPE_RGB_ALPHA trans_entries width row dst =
        some ((List.range width).map (fun x =>
          _rgba (row.getD (4 * x) 0) (row.getD (4 * x + 1) 0) (row.getD (4 * x + 2) 0)
            (row.getD (4 * x + 3) 0))) ∧
      ∀ x, x < width →
        _rgba_getr (_rgba (row.getD (4 * x) 0) (row.getD (4 * x + 1) 0) (row.getD (4 * x + 2) 0)
          (row.getD (4 * x + 3) 0)) = row.getD (4 * x) 0 ∧
        _rgba_getg (_rgba (row.getD (4 * x) 0) (row.getD (4 * x + 1) 0) (row.getD (4 * x + 2) 0)
          (row.getD (4 * x + 3) 0)) = row.getD (4 * x + 1) 0 ∧
        _rgba_getb (_rgba (row.getD (4 * x) 0) (row.getD (4 * x + 1) 0) (row.getD (4 * x + 2) 0)
          (row.getD (4 * x + 3) 0)) = row.getD (4 * x + 2) 0 ∧
        _rgba_geta (_rgba (row.getD (4 * x) 0) (row.getD (4 * x + 1) 0) (row.getD (4 * x + 2) 0)
          (row.getD (4 * x + 3) 0)) = row.getD (4 * x + 3) 0) ∧
    (row.length = 2 * width →
      load_row PNG_COLOR_TYPE_GRAY_ALPHA trans_entries width row dst =
        some ((List.range width).map (fun x =>
          _graya (row.getD (2 * x) 0) (row.getD (2 * x + 1) 0))) ∧
      ∀ x, x < width →
        _graya_getv (_graya (row.getD (2 * x) 0) (row.getD (2 * x + 1) 0)) = row.getD (2 * x) 0 ∧
        _graya_geta (_graya (row.getD (2 * x) 0) (row.getD (2 * x + 1) 0)) =
          row.getD (2 * x + 1) 0) ∧
    load_row PNG_COLOR_TYPE_RGB_ALPHA trans_entries 2 [10, 20, 30, 40, 50, 60, 70, 80] dst =
      some [_rgba 10 20 30 40, _rgba 50 60 70 80] := by
  have hB : ∀ i, row.getD i 0 < 256 := fun i => getD_lt_of_forall hbytes i (by decide)
  refine ⟨fun hlen => ⟨?_, fun x _ => ?_⟩, fun hlen => ⟨?_, fun x _ => ?_⟩, ?_⟩
  · simp only [load_row, if_true]
    exact load_row_RGB_ALPHA_eq width row hlen
  · exact rgba_get _ _ _ _ (hB _) (hB _) (hB _) (hB _)
  · rw [load_row, if_neg (by decide), if_neg (by decide), if_pos rfl]
    exact load_row_GRAY_ALPHA_eq width row hlen
  · exact graya_get _ _ (hB _) (hB _)
  · rfl

/-- Witness for C3 at the row of the concrete scenario and at a Gray+alpha row. -/
theorem load_row_alpha_in_source_witness :
    (load_row PNG_COLOR_TYPE_RGB_ALPHA [] 2 [10, 20, 30, 40, 50, 60, 70, 80] [] =
        some ((List.range 2).map (fun x =>
          _rgba ([10, 20, 30, 40, 50, 60, 70, 80].getD (4 * x) 0)
            ([10, 20, 30, 40, 50, 60, 70, 80].getD (4 * x + 1) 0)
            ([10, 20, 30, 40, 50, 60, 70, 80].getD (4 * x + 2) 0)
            ([10, 20, 30, 40, 50, 60, 70, 80].getD (4 * x + 3) 0)))) ∧
    (load_row PNG_COLOR_TYPE_GRAY_ALPHA [] 2 [1, 2, 3, 4] [] =
        some ((List.range 2).map (fun x =>
          _graya ([1, 2, 3, 4].getD (2 * x) 0) ([1, 2, 3, 4].getD (2 * x + 1) 0)))) :=
  ⟨((load_row_alpha_in_source [] 2 [10, 20, 30, 40, 50, 60, 70, 80] []
      (by decide)).1 (by decide)).1,
   ((load_row_alpha_in_source [] 2 [1, 2, 3, 4] [] (by decide)).2.1 (by decide)).1⟩

/-- C4: alpha defaults to fully opaque when the source has none.  For color
type RGB and a row of `3 * width` bytes, decoded pixel `x` is `_rgba` of
bytes `3x .. 3x+2` and 255, with those bytes as its color channels; for
color type Gray and a row of `width` bytes, decoded pixel `x` is `_graya` of
byte `x` and 255.  Every decoded pixel of the two color types has alpha
exactly 255. -/
theorem load_row_alpha_absent (trans_entries : List Bool) (width : Nat) (row dst : List Nat)
    (hbytes : ∀ v ∈ row, v < 256) :
    (row.length = 3 * width →
      load_row PNG_COLOR_TYPE_RGB trans_entries width row dst =
        some ((List.range width).map (fun x =>
          _rgba (row.getD (3 * x) 0) (row.getD (3 * x + 1) 0) (row.getD (3 * x + 2) 0) 255)) ∧
      (∀ x, x < width →
        _rgba_getr (_rgba (row.getD (3 * x) 0) (row.getD (3 * x + 1) 0) (row.getD (3 * x + 2) 0)
          255) = row.getD (3 * x) 0 ∧
        _rgba_getg (_rgba (row.getD (3 * x) 0) (row.getD (3 * x + 1) 0) (row.getD (3 * x + 2) 0)
          255) = row.getD (3 * x + 1) 0 ∧
        _rgba_getb (_rgba (row.getD (3 * x) 0) (row.getD (3 * x + 1) 0) (row.getD (3 * x + 2) 0)
          255) = row.getD (3 * x + 2) 0) ∧
      ∀ pixels, load_row PNG_COLOR_TYPE_RGB trans_entries width row dst = some pixels →
        ∀ p ∈ pixels, _rgba_geta p = 255) ∧
    (row.length = width →
      load_row PNG_COLOR_TYPE_GRAY trans_entries width row dst =
        some ((List.range width).map (fun x => _graya (row.getD x 0) 255)) ∧
      (∀ x, x < width → _graya_getv (_graya (row.getD x 0) 255) = row.getD x 0) ∧
      ∀ pixels, load_row PNG_COLOR_TYPE_GRAY trans_entries width row dst = some pixels →
        ∀ p ∈ pixels, _graya_geta p = 255) := by
  have hB : ∀ i, row.getD i 0 < 256 := fun i => getD_lt_of_forall hbytes i (by decide)
  have hrgb : row.length = 3 * width →
      load_row PNG_COLOR_TYPE_RGB trans_entries width row dst =
        some ((List.range width).map (fun x =>
          _rgba (row.getD (3 * x) 0) (row.getD (3 * x + 1) 0) (row.getD (3 * x + 2) 0) 255)) := by
    intro hlen
    rw [load_row, if_neg (by decide), if_pos rfl]
    exact load_row_RGB_eq width row hlen
  have hgray : row.length = width →
      load_row PNG_COLOR_TYPE_GRAY trans_entries width row dst =
        some ((List.range width).map (fun x => _graya (row.getD x 0) 255)) := by
    intro hlen
    rw [load_row, if_neg (by decide), if_neg (by decide), if_neg (by decide), if_pos rfl]
    exact load_row_GRAY_eq width row hlen
  refine ⟨fun hlen => ⟨hrgb hlen, fun x _ => ?_, fun pixels hp p hmem => ?_⟩,
    fun hlen => ⟨hgray hlen, fun x _ => ?_, fun pixels hp p hmem => ?_⟩⟩
  · have h := rgba_get _ _ _ 255 (hB (3 * x)) (hB (3 * x + 1)) (hB (3 * x + 2)) (by decide)
    exact ⟨h.1, h.2.1, h.2.2.1⟩
  · rw [hrgb hlen] at hp
    have hp2 := Option.some.inj hp
    subst hp2
    obtain ⟨x, _, rfl⟩ := List.mem_map.mp hmem
    exact (rgba_get _ _ _ 255 (hB (3 * x)) (hB (3 * x + 1)) (hB (3 * x + 2)) (by decide)).2.2.2
  · exact (graya_get _ 255 (hB x) (by decide)).1
  · rw [hgray hlen] at hp
    have hp2 := Option.some.inj hp
    subst hp2
    obtain ⟨x, _, rfl⟩ := List.mem_map.mp hmem
    exact (graya_get _ 255 (hB x) (by decide)).2

/-- Witness for C4 at an RGB row of two pixels and a Gray row of three. -/
theorem load_row_alpha_absent_witness :
    (load_row PNG_COLOR_TYPE_RGB [] 2 [1, 2, 3, 4, 5, 6] [] =
        some ((List.range 2).map (fun x =>
          _rgba ([1, 2, 3, 4, 5, 6].getD (3 * x) 0) ([1, 2, 3, 4, 5, 6].getD (3 * x + 1) 0)
            ([1, 2, 3, 4, 5, 6].getD (3 * x + 2) 0) 255))) ∧
    (load_row PNG_COLOR_TYPE_GRAY [] 3 [7, 8, 9] [] =
        some ((List.range 3).map (fun x => _graya ([7, 8, 9].getD x 0) 255))) :=
  ⟨((load_row_alpha_absent [] 2 [1, 2, 3, 4, 5, 6] [] (by decide)).1 (by decide)).1,
   ((load_row_alpha_absent [] 3 [7, 8, 9] [] (by decide)).2 (by decide)).1⟩

/-! ## Decoding then encoding one row (claim C2) -/

theorem save_load_row_RGB_ALPHA (width : Nat) (row : List Nat) (h : row.length = 4 * width)
    (hbytes : ∀ v ∈ row, v < 256) :
    (load_row_RGB_ALPHA width row).bind (save_row_RGB_ALPHA width) = some row := by
  induction width generalizing row with
  | zero =>
    have : row = [] := List.eq_nil_of_length_eq_zero (by simpa using h)
    simp [load_row_RGB_ALPHA, save_row_RGB_ALPHA, this]
  | succ w ih =>
    match row, h, hbytes with
    | r :: g :: b :: a :: rest, h, hbytes =>
      have hrest : rest.length = 4 * w := by simp at h; omega
      have hrb : ∀ v ∈ rest, v < 256 := fun v hv => hbytes v (by simp [hv])
      have hr : r < 256 := hbytes r (by simp)
      have hg : g < 256 := hbytes g (by simp)
      have hb : b < 256 := hbytes b (by simp)
      have ha : a < 256 := hbytes a (by simp)
      have ih2 := ih rest hrest hrb
      cases hl : load_row_RGB_ALPHA w rest with
      | none => simp [hl] at ih2
      | some px =>
        rw [hl] at ih2
        have hs : save_row_RGB_ALPHA w px = some rest := by simpa using ih2
        obtain ⟨h1, h2, h3, h4⟩ := rgba_get r g b a hr hg hb ha
        simp [load_row_RGB_ALPHA, save_row_RGB_ALPHA, hl, hs, h1, h2, h3, h4]

theorem save_load_row_RGB (width : Nat) (row : List Nat) (h : row.length = 3 * width)
    (hbytes : ∀ v ∈ row, v < 256) :
    (load_row_RGB width row).bind (save_row_RGB width) = some row := by
  induction width generalizing row with
  | zero =>
    have : row = [] := List.eq_nil_of_length_eq_zero (by simpa using h)
    simp [load_row_RGB, save_row_RGB, this]
  | succ w ih =>
    match row, h, hbytes with
    | r :: g :: b :: rest, h, hbytes =>
      have hrest : rest.length = 3 * w := by simp at h; omega
      have hrb : ∀ v ∈ rest, v < 256 := fun v hv => hbytes v (by simp [hv])
      have hr : r < 256 := hbytes r (by simp)
      have hg : g < 256 := hbytes g (by simp)
      have hb : b < 256 := hbytes b (by simp)
      have ih2 := ih rest hrest hrb
      cases hl : load_row_RGB w rest with
      | none => simp [hl] at ih2
      | some px =>
        rw [hl] at ih2
        have hs : save_row_RGB w px = some rest := by simpa using ih2
        obtain ⟨h1, h2, h3, _⟩ := rgba_get r g b 255 hr hg hb (by decide)
        simp [load_row_RGB, save_row_RGB, hl, hs, h1, h2, h3]

theorem save_load_row_GRAY_ALPHA (width : Nat) (row : List Nat) (h : row.length = 2 * width)
    (hbytes : ∀ v ∈ row, v < 256) :
    (load_row_GRAY_ALPHA width row).bind (save_row_GRAY_ALPHA width) = some row := by
  induction width generalizing row with
  | zero =>
    have : row = [] := List.eq_nil_of_length_eq_zero (by simpa using h)
    simp [load_row_GRAY_ALPHA, save_row_GRAY_ALPHA, this]
  | succ w ih =>
    match row, h, hbytes with
    | k :: a :: rest, h, hbytes =>
      have hrest : rest.length = 2 * w := by simp at h; omega
      have hrb : ∀ v ∈ rest, v < 256 := fun v hv => hbytes v (by simp [hv])
      have hk : k < 256 := hbytes k (by simp)
      have ha : a < 256 := hbytes a (by simp)
      have ih2 := ih rest hrest hrb
      cases hl : load_row_GRAY_ALPHA w rest with
      | none => simp [hl] at ih2
      | some px =>
        rw [hl] at ih2
        have hs : save_row_GRAY_ALPHA w px = some rest := by simpa using ih2
        obtain ⟨h1, h2⟩ := graya_get k a hk ha
        simp [load_row_GRAY_ALPHA, save_row_GRAY_ALPHA, hl, hs, h1, h2]

theorem save_load_row_GRAY (width : Nat) (row : List Nat) (h : row.length = 1 * width)
    (hbytes : ∀ v ∈ row, v < 256) :
    (load_row_GRAY width row).bind (save_row_GRAY width) = some row := by
  induction width generalizing row with
  | zero =>
    have : row = [] := List.eq_nil_of_length_eq_zero (by simpa using h)
    simp [load_row_GRAY, save_row_GRAY, this]
  | succ w ih =>
    match row, h, hbytes with
    | k :: rest, h, hbytes =>
      have hrest : rest.length = 1 * w := by simp at h; omega
      have hrb : ∀ v ∈ rest, v < 256 := fun v hv => hbytes v (by simp [hv])
      have hk : k < 256 := hbytes k (by simp)
      have ih2 := ih rest hrest hrb
      cases hl : load_row_GRAY w rest with
      | none => simp [hl] at ih2
      | some px =>
        rw [hl] at ih2
        have hs : save_row_GRAY w px = some rest := by simpa using ih2
        obtain ⟨h1, _⟩ := graya_get k 255 hk (by decide)
        simp [load_row_GRAY, save_row_GRAY, hl, hs, h1]

theorem load_row_of_RGB_ALPHA (te : List Bool) (width : Nat) (row dst : List Nat) :
    load_row PNG_COLOR_TYPE_RGB_ALPHA te width row dst = load_row_RGB_ALPHA width row := by
  rw [load_row, if_pos rfl]

theorem load_row_of_RGB (te : List Bool) (width : Nat) (row dst : List Nat) :
    load_row PNG_COLOR_TYPE_RGB te width row dst = load_row_RGB width row := by
  rw [load_row, if_neg (by decide), if_pos rfl]

theorem load_row_of_GRAY_ALPHA (te : List Bool) (width : Nat) (row dst : List Nat) :
    load_row PNG_COLOR_TYPE_GRAY_ALPHA te width row dst = load_row_GRAY_ALPHA width row := by
  rw [load_row, if_neg (by decide), if_neg (by decide), if_pos rfl]

theorem load_row_of_GRAY (te : List Bool) (width : Nat) (row dst : List Nat) :
    load_row PNG_COLOR_TYPE_GRAY te width row dst = load_row_GRAY width row := by
  rw [load_row, if_neg (by decide), if_neg (by decide), if_neg (by decide), if_pos rfl]

theorem load_row_of_PALETTE (te : List Bool) (width : Nat) (row dst : List Nat) :
    load_row PNG_COLOR_TYPE_PALETTE te width row dst = load_row_PALETTE te width row := by
  rw [load_row, if_neg (by decide), if_neg (by decide), if_neg (by decide), if_neg (by decide),
    if_pos rfl]

theorem save_row_of_RGB_ALPHA (width : Nat) (src : List Nat) :
    save_row PNG_COLOR_TYPE_RGB_ALPHA width src = save_row_RGB_ALPHA width src := by
  rw [save_row, if_pos rfl]

theorem save_row_of_RGB (width : Nat) (src : List Nat) :
    save_row PNG_COLOR_TYPE_RGB width src = save_row_RGB width src := by
  rw [save_row, if_neg (by decide), if_pos rfl]

theorem save_row_of_GRAY_ALPHA (width : Nat) (src : List Nat) :
    save_row PNG_COLOR_TYPE_GRAY_ALPHA width src = save_row_GRAY_ALPHA width src := by
  rw [save_row, if_neg (by decide), if_neg (by decide), if_pos rfl]

theorem save_row_of_GRAY (width : Nat) (src : List Nat) :
    save_row PNG_COLOR_TYPE_GRAY width src = save_row_GRAY width src := by
  rw [save_row, if_neg (by decide), if_neg (by decide), if_neg (by decide), if_pos rfl]

theorem save_row_of_PALETTE (width : Nat) (src : List Nat) :
    save_row PNG_COLOR_TYPE_PALETTE width src = save_row_PALETTE width src := by
  rw [save_row, if_neg (by decide), if_neg (by decide), if_neg (by decide), if_neg (by decide),
    if_pos rfl]

/-- C2: encoding is the exact inverse of decoding on raw sample bytes.  For
each of the color types RGB (3 bytes per pixel), RGB+alpha (4), Gray (1) and
Gray+alpha (2), and every row of exactly bytes-per-pixel times `width`
bytes, decoding the row with the branch of `onLoad` and encoding the pixels
with the branch of `onSave` for the same color type gives back the row. -/
theorem save_row_load_row (trans_entries : List Bool) (width : Nat) (row dst : List Nat)
    (color_type bpp : Nat)
    (hct : (color_type, bpp) ∈ [(PNG_COLOR_TYPE_RGB, 3), (PNG_COLOR_TYPE_RGB_ALPHA, 4),
      (PNG_COLOR_TYPE_GRAY, 1), (PNG_COLOR_TYPE_GRAY_ALPHA, 2)])
    (hlen : row.length = bpp * width) (hbytes : ∀ v ∈ row, v < 256) :
    (load_row color_type trans_entries width row dst).bind (save_row color_type width) =
      some row := by
  simp only [List.mem_cons, Prod.mk.injEq, List.mem_singleton, List.not_mem_nil, or_false] at hct
  rcases hct with ⟨rfl, rfl⟩ | ⟨rfl, rfl⟩ | ⟨rfl, rfl⟩ | ⟨rfl, rfl⟩
  · rw [load_row_of_RGB, funext (save_row_of_RGB width)]
    exact save_load_row_RGB width row hlen hbytes
  · rw [load_row_of_RGB_ALPHA, funext (save_row_of_RGB_ALPHA width)]
    exact save_load_row_RGB_ALPHA width row hlen hbytes
  · rw [load_row_of_GRAY, funext (save_row_of_GRAY width)]
    exact save_load_row_GRAY width row hlen hbytes
  · rw [load_row_of_GRAY_ALPHA, funext (save_row_of_GRAY_ALPHA width)]
    exact save_load_row_GRAY_ALPHA width row hlen hbytes

/-- Witness for C2: an RGB row of two pixels. -/
theorem save_row_load_row_witness :
    (load_row PNG_COLOR_TYPE_RGB [] 2 [1, 2, 3, 254, 255, 0] []).bind
      (save_row PNG_COLOR_TYPE_RGB 2) = some [1, 2, 3, 254, 255, 0] :=
  save_row_load_row [] 2 [1, 2, 3, 254, 255, 0] [] PNG_COLOR_TYPE_RGB 3 (by decide) (by decide)
    (by decide)

/-! ## Transparent palette entries (claim C5) -/

theorem read_trans_length (trans : List Nat) (te : List Bool) (fop : FileOp) :
    (read_trans trans (te, fop)).1.length = te.length := by
  induction trans generalizing te fop with
  | nil => rfl
  | cons j rest ih =>
    rw [read_trans]
    split
    · rw [ih, List.length_set]
    · rw [ih]

theorem read_trans_getD (trans : List Nat) (te : List Bool) (fop : FileOp) (c : Nat) :
    (read_trans trans (te, fop)).1.getD c false =
      (te.getD c false || (decide (c ∈ trans) && decide (c < te.length))) := by
  induction trans generalizing te fop with
  | nil => simp [read_trans]
  | cons j rest ih =>
    rw [read_trans]
    split
    · rename_i hj
      rw [ih, List.length_set]
      by_cases hcj : c = j
      · subst hcj
        simp [List.getD_eq_getElem?_getD, List.getElem?_set, hj.2]
      · have hjc : ¬ j = c := fun h => hcj h.symm
        simp [List.getD_eq_getElem?_getD, List.getElem?_set, hcj, hjc]
    · rename_i hj
      rw [ih]
      by_cases hcj : c = j
      · subst hcj
        have hlt : ¬ c < te.length := fun h => hj ⟨Nat.zero_le _, h⟩
        simp [hlt]
      · simp [hcj]

theorem replicate_false_getD (n c : Nat) : (List.replicate n false).getD c false = false := by
  by_cases h : c < n <;> simp [List.getD_eq_getElem?_getD, List.getElem?_replicate, h]

theorem load_row_PALETTE_eq (te : List Bool) (width : Nat) (row : List Nat)
    (h : row.length = width) :
    load_row_PALETTE te width row = some (row.map (fun c =>
      if !te.isEmpty && te.getD c false then 0 else c % 2 ^ 8)) := by
  induction width generalizing row with
  | zero =>
    have : row = [] := List.eq_nil_of_length_eq_zero h
    simp [load_row_PALETTE, this]
  | succ w ih =>
    match row, h with
    | c :: rest, h =>
      have hrest : rest.length = w := by simpa using h
      simp only [load_row_PALETTE, ih rest hrest, Option.map_some', List.map_cons]

/-- C5: indexed decode collapses transparency to index 0.  For every list
`trans` of transparency-chunk values, flagged in the 256-entry table by the
loop of `onLoad`, and every indexed source row, each decoded sample is 0 if
the source sample is a member of `trans` and is the source sample otherwise. -/
theorem load_row_PALETTE_collapse (trans : List Nat) (fop : FileOp) (width : Nat)
    (row dst : List Nat) (hlen : row.length = width) (hbytes : ∀ c ∈ row, c < 256) :
    load_row PNG_COLOR_TYPE_PALETTE (read_trans trans (List.replicate 256 false, fop)).1
        width row dst =
      some (row.map (fun c => if c ∈ trans then 0 else c)) := by
  rw [load_row_of_PALETTE, load_row_PALETTE_eq _ width row hlen]
  congr 1
  apply List.map_congr_left
  intro c hc
  have hc256 : c < 256 := hbytes c hc
  have hne : (read_trans trans (List.replicate 256 false, fop)).1.isEmpty = false := by
    have hl := read_trans_length trans (List.replicate 256 false) fop
    rw [List.length_replicate] at hl
    cases hte : (read_trans trans (List.replicate 256 false, fop)).1 with
    | nil => rw [hte] at hl; simp at hl
    | cons _ _ => rfl
  rw [hne, read_trans_getD]
  rw [replicate_false_getD, List.length_replicate]
  by_cases hmem : c ∈ trans
  · simp [hmem, hc256]
  · have hmod : c % 2 ^ 8 = c := Nat.mod_eq_of_lt (by omega)
    rw [hmod, if_neg hmem]
    simp [hmem]

/-- Witness for C5: with transparency values 3 and 7, the samples 3 and 7
become 0 and no other sample changes. -/
theorem load_row_PALETTE_collapse_witness :
    load_row PNG_COLOR_TYPE_PALETTE
        (read_trans [3, 7] (List.replicate 256 false,
          { has_alpha := false, image := none, palette := fun _ => (0, 0, 0), errors := [],
            progress := [], image_requests := 0, rows_read := 0 })).1
        6 [3, 5, 7, 0, 255, 3] [] =
      some [0, 5, 0, 0, 255, 0] :=
  load_row_PALETTE_collapse [3, 7] _ 6 [3, 5, 7, 0, 255, 3] [] (by decide) (by decide)

/-! ## The palette block of `onLoad` (claim C6) -/

theorem read_palette_eq (palette : List png_color) (c : Nat) (fop : FileOp) :
    read_palette palette c fop =
      { fop with palette := fun i =>
          if c ≤ i ∧ i < c + palette.length then
            ((palette.getD (i - c) ⟨0, 0, 0⟩).red, (palette.getD (i - c) ⟨0, 0, 0⟩).green,
              (palette.getD (i - c) ⟨0, 0, 0⟩).blue)
          else fop.palette i } := by
  induction palette generalizing c fop with
  | nil =>
    have h0 : (fun i => if c ≤ i ∧ i < c + ([] : List png_color).length then
        (((([] : List png_color).getD (i - c) ⟨0, 0, 0⟩).red,
          (([] : List png_color).getD (i - c) ⟨0, 0, 0⟩).green,
          (([] : List png_color).getD (i - c) ⟨0, 0, 0⟩).blue) : Nat × Nat × Nat)
        else fop.palette i) = fop.palette := by
      funext i
      have h3 : ¬ (c ≤ i ∧ i < c + ([] : List png_color).length) := by
        simp only [List.length_nil]; omega
      rw [if_neg h3]
    rw [read_palette, h0]
  | cons e rest ih =>
    rw [read_palette, ih]
    simp only [fop_sequence_set_color, List.length_cons]
    congr 1
    funext i
    by_cases h1 : i = c
    · subst h1
      simp
    · by_cases h2 : c + 1 ≤ i ∧ i < c + 1 + rest.length
      · have h3 : c ≤ i ∧ i < c + (rest.length + 1) := by omega
        have h4 : i - c = (i - (c + 1)) + 1 := by omega
        rw [if_pos h2, if_pos h3, h4, List.getD_cons_succ]
      · have h3 : ¬ (c ≤ i ∧ i < c + (rest.length + 1)) := by omega
        rw [if_neg h2, if_neg h3, if_neg h1]

theorem fill_palette_eq (n c : Nat) (fop : FileOp) :
    fill_palette n c fop =
      { fop with palette := fun i =>
          if c ≤ i ∧ i < c + n then (0, 0, 0) else fop.palette i } := by
  induction n generalizing c fop with
  | zero =>
    have h0 : (fun i => if c ≤ i ∧ i < c + 0 then ((0, 0, 0) : Nat × Nat × Nat)
        else fop.palette i) = fop.palette := by
      funext i
      have h3 : ¬ (c ≤ i ∧ i < c + 0) := by omega
      rw [if_neg h3]
    rw [fill_palette, h0]
  | succ n ih =>
    rw [fill_palette, ih]
    simp only [fop_sequence_set_color]
    congr 1
    funext i
    by_cases h1 : i = c
    · subst h1
      simp
    · by_cases h2 : c + 1 ≤ i ∧ i < c + 1 + n
      · have h3 : c ≤ i ∧ i < c + (n + 1) := by omega
        rw [if_pos h2, if_pos h3]
      · have h3 : ¬ (c ≤ i ∧ i < c + (n + 1)) := by omega
        rw [if_neg h2, if_neg h3, if_neg h1]

theorem read_trans_fop (trans : List Nat) (te : List Bool) (fop : FileOp) :
    (read_trans trans (te, fop)).2 =
      { fop with has_alpha := fop.has_alpha || trans.any (fun j => decide (j < te.length)) } := by
  induction trans generalizing te fop with
  | nil => simp [read_trans]
  | cons j rest ih =>
    rw [read_trans]
    split
    · rename_i hj
      rw [ih, List.length_set]
      simp [hj.2]
    · rename_i hj
      rw [ih]
      have hlt : ¬ j < te.length := fun h => hj ⟨Nat.zero_le _, h⟩
      simp [hlt]

theorem onLoad_palette_of_plte (png : PngReader) (fop : FileOp) (palette : List png_color)
    (hct : png.color_type = PNG_COLOR_TYPE_PALETTE) (hplte : png.plte = some palette) :
    onLoad_palette png fop =
      ((read_trans png.trns (List.replicate 256 false, fop)).1,
        { fop with
          has_alpha := fop.has_alpha || png.trns.any (fun j => decide (j < 256)),
          palette := fun i =>
            if i < palette.length then
              ((palette.getD i ⟨0, 0, 0⟩).red, (palette.getD i ⟨0, 0, 0⟩).green,
                (palette.getD i ⟨0, 0, 0⟩).blue)
            else if i < 256 then (0, 0, 0) else fop.palette i }) := by
  have h1 : (read_trans png.trns (List.replicate 256 false,
      fill_palette (256 - palette.length) palette.length (read_palette palette 0 fop))).1 =
      (read_trans png.trns (List.replicate 256 false, fop)).1 := by
    apply List.ext_getElem
    · rw [read_trans_length, read_trans_length]
    · intro n hn1 hn2
      have := read_trans_getD png.trns (List.replicate 256 false)
        (fill_palette (256 - palette.length) palette.length (read_palette palette 0 fop)) n
      rw [← read_trans_getD png.trns (List.replicate 256 false) fop n,
        List.getD_eq_getElem _ _ hn1, List.getD_eq_getElem _ _ hn2] at this
      exact this
  simp only [onLoad_palette, hct, if_true, hplte]
  apply Prod.ext
  · exact h1
  · simp only [read_trans_fop, fill_palette_eq, read_palette_eq, List.length_replicate]
    congr 1
    funext i
    by_cases h2 : i < palette.length
    · have h3 : ¬ (palette.length ≤ i ∧ i < palette.length + (256 - palette.length)) := by omega
      simp [h2, h3]
    · by_cases h4 : i < 256
      · have h3 : palette.length ≤ i ∧ i < palette.length + (256 - palette.length) := by omega
        simp [h2, h3, h4]
      · have h3 : ¬ (palette.length ≤ i ∧ i < palette.length + (256 - palette.length)) := by omega
        simp [h2, h3, h4]

theorem onLoad_palette_of_not_palette (png : PngReader) (fop : FileOp)
    (hct : png.color_type ≠ PNG_COLOR_TYPE_PALETTE) :
    onLoad_palette png fop = (List.replicate 256 false, fop) := by
  simp only [onLoad_palette, hct, if_false]

/-! ## What the row loops of `onLoad` leave alone -/

theorem onLoad_rows_frame (png : PngReader) (te : List Bool) (pass : Nat) (n y : Nat)
    (fop r : FileOp)
    (h : onLoad_rows png te pass n y fop = Run.done r ∨
      onLoad_rows png te pass n y fop = Run.longjmp r) :
    r.palette = fop.palette ∧ r.has_alpha = fop.has_alpha ∧ r.errors = fop.errors ∧
    r.image_requests = fop.image_requests ∧
    r.image.map (fun im => (im.imgtype, im.w, im.h, im.line.length)) =
      fop.image.map (fun im => (im.imgtype, im.w, im.h, im.line.length)) := by
  induction n generalizing y fop with
  | zero =>
    simp only [onLoad_rows, Run.done.injEq, reduceCtorEq, or_false] at h
    subst h
    exact ⟨rfl, rfl, rfl, rfl, rfl⟩
  | succ n ih =>
    rw [onLoad_rows] at h
    cases hrow : png.read_row fop.rows_read with
    | none =>
      simp only [hrow, reduceCtorEq, Run.longjmp.injEq, false_or] at h
      subst h
      exact ⟨rfl, rfl, rfl, rfl, rfl⟩
    | some row =>
      cases himg : fop.image with
      | none =>
        simp only [hrow, himg] at h
        simp at h
      | some image =>
        cases hpx : load_row png.color_type te png.width row (image.line.getD y []) with
        | none =>
          simp only [hrow, himg, hpx] at h
          simp at h
        | some pixels =>
          simp only [hrow, himg, hpx] at h
          by_cases hstop : png.is_stop fop.rows_read = true
          · simp only [hstop, if_true, Run.done.injEq, reduceCtorEq, or_false] at h
            subst h
            simp [fop_progress]
          · simp only [hstop] at h
            have := ih _ _ h
            simpa [fop_progress] using this

theorem onLoad_passes_frame (png : PngReader) (te : List Bool) (n pass : Nat)
    (fop r : FileOp)
    (h : onLoad_passes png te n pass fop = Run.done r ∨
      onLoad_passes png te n pass fop = Run.longjmp r) :
    r.palette = fop.palette ∧ r.has_alpha = fop.has_alpha ∧ r.errors = fop.errors ∧
    r.image_requests = fop.image_requests ∧
    r.image.map (fun im => (im.imgtype, im.w, im.h, im.line.length)) =
      fop.image.map (fun im => (im.imgtype, im.w, im.h, im.line.length)) := by
  induction n generalizing pass fop with
  | zero =>
    simp only [onLoad_passes, Run.done.injEq, reduceCtorEq, or_false] at h
    subst h
    exact ⟨rfl, rfl, rfl, rfl, rfl⟩
  | succ n ih =>
    rw [onLoad_passes] at h
    cases hrows : onLoad_rows png te pass png.height 0 fop with
    | done fop1 =>
      simp only [hrows] at h
      obtain ⟨a1, a2, a3, a4, a5⟩ := onLoad_rows_frame png te pass _ _ fop fop1 (Or.inl hrows)
      obtain ⟨b1, b2, b3, b4, b5⟩ := ih _ _ h
      exact ⟨b1.trans a1, b2.trans a2, b3.trans a3, b4.trans a4, b5.trans a5⟩
    | longjmp fop1 =>
      simp only [hrows, reduceCtorEq, Run.longjmp.injEq, false_or] at h
      subst h
      exact onLoad_rows_frame png te pass _ _ fop fop1 (Or.inr hrows)
    | undefined => simp [hrows] at h

/-! ## `onLoad` as a whole: the steps behind a successful return -/

theorem onLoad_eq_of_setup (png : PngReader) (fop : FileOp) (h1 : png.fopen_ok = true)
    (h2 : png.create_read_struct_ok = true) (h3 : png.create_info_struct_ok = true)
    (h4 : png.read_info_ok = true) :
    onLoad png fop =
      match onLoad_imgtype png.color_type fop with
      | none => some (false, fop_error fop "Color type not supported\n)")
      | some (imgtype, fop) =>
        match fop_sequence_image png fop imgtype png.width png.height with
        | (none, fop) => some (false, fop_error fop "file_sequence_image %dx%d\n")
        | (some _, fop) =>
          match onLoad_passes png (onLoad_palette png fop).1 png.number_passes 0
              (onLoad_palette png fop).2 with
          | Run.done fop => some (true, fop)
          | Run.longjmp fop => some (false, onLoad_longjmp fop)
          | Run.undefined => none := by
  simp only [onLoad, h1, h2, h3, h4, Bool.not_true, Bool.false_eq_true, if_false]

theorem onLoad_true_inv (png : PngReader) (fop fop2 : FileOp)
    (h : onLoad png fop = some (true, fop2)) :
    png.fopen_ok = true ∧ png.create_read_struct_ok = true ∧
    png.create_info_struct_ok = true ∧ png.read_info_ok = true ∧
    png.sequence_image_ok = true ∧
    ∃ imgtype fop1, onLoad_imgtype png.color_type fop = some (imgtype, fop1) ∧
      onLoad_passes png
        (onLoad_palette png (fop_sequence_image png fop1 imgtype png.width png.height).2).1
        png.number_passes 0
        (onLoad_palette png (fop_sequence_image png fop1 imgtype png.width png.height).2).2 =
        Run.done fop2 := by
  have h1 : png.fopen_ok = true := by
    cases hf : png.fopen_ok with
    | true => rfl
    | false => simp [onLoad, hf] at h
  have h2 : png.create_read_struct_ok = true := by
    cases hf : png.create_read_struct_ok with
    | true => rfl
    | false => simp [onLoad, h1, hf] at h
  have h3 : png.create_info_struct_ok = true := by
    cases hf : png.create_info_struct_ok with
    | true => rfl
    | false => simp [onLoad, h1, h2, hf] at h
  have h4 : png.read_info_ok = true := by
    cases hf : png.read_info_ok with
    | true => rfl
    | false => simp [onLoad, h1, h2, h3, hf] at h
  rw [onLoad_eq_of_setup png fop h1 h2 h3 h4] at h
  cases hty : onLoad_imgtype png.color_type fop with
  | none => simp [hty] at h
  | some p =>
    obtain ⟨imgtype, fop1⟩ := p
    simp only [hty] at h
    cases hok : png.sequence_image_ok with
    | false => simp [fop_sequence_image, hok] at h
    | true =>
      refine ⟨h1, h2, h3, h4, rfl, imgtype, fop1, rfl, ?_⟩
      simp only [fop_sequence_image, hok, if_true] at h ⊢
      split at h
      · rename_i r hr
        simp only [Option.some.injEq, Prod.mk.injEq, true_and] at h
        rw [hr, h]
      · simp at h
      · simp at h

/-! ## Palette translation on decode (claim C6) -/

/-- C6: palette decode populates all 256 canonical entries.  For a
Palette-type image whose source palette has `N <= 256` entries, after the
palette block of `onLoad`, and after every successful `onLoad`, canonical
entry `c` is source entry `c` for `c < N` and is (0,0,0) for `N <= c < 256`. -/
theorem onLoad_palette_entries (png : PngReader) (fop : FileOp) (palette : List png_color)
    (hct : png.color_type = PNG_COLOR_TYPE_PALETTE) (hplte : png.plte = some palette)
    (_hN : palette.length ≤ 256) :
    ((∀ c (h : c < palette.length), (onLoad_palette png fop).2.palette c =
        (palette[c].red, palette[c].green, palette[c].blue)) ∧
      (∀ c, palette.length ≤ c → c < 256 → (onLoad_palette png fop).2.palette c = (0, 0, 0))) ∧
    ∀ fop2, onLoad png fop = some (true, fop2) →
      (∀ c (h : c < palette.length), fop2.palette c =
        (palette[c].red, palette[c].green, palette[c].blue)) ∧
      (∀ c, palette.length ≤ c → c < 256 → fop2.palette c = (0, 0, 0)) := by
  have block : ∀ f : FileOp,
      (∀ c (h : c < palette.length), (onLoad_palette png f).2.palette c =
        (palette[c].red, palette[c].green, palette[c].blue)) ∧
      (∀ c, palette.length ≤ c → c < 256 → (onLoad_palette png f).2.palette c = (0, 0, 0)) := by
    intro f
    rw [onLoad_palette_of_plte png f palette hct hplte]
    constructor
    · intro c h
      simp only [if_pos h, List.getD_eq_getElem _ _ h]
    · intro c h1 h2
      have h3 : ¬ c < palette.length := by omega
      simp only [if_neg h3, if_pos h2]
  refine ⟨block fop, fun fop2 h => ?_⟩
  obtain ⟨_, _, _, _, _, imgtype, fop1, _, hrun⟩ := onLoad_true_inv png fop fop2 h
  have hfr := (onLoad_passes_frame png _ _ _ _ fop2 (Or.inl hrun)).1
  rw [hfr]
  exact block _

/-- Witness for C6: a 10-entry palette read over a palette that was not black.
Entry 9 is the source entry, entries 10 and 255 are black. -/
theorem onLoad_palette_entries_witness :
    (onLoad_palette
        (sample_reader 1 1 PNG_COLOR_TYPE_PALETTE 1 (some (List.replicate 10 ⟨1, 2, 3⟩)) [] [0]
          (fun _ => false))
        { fresh_fop with palette := fun _ => (9, 9, 9) }).2.palette 9 = (1, 2, 3) ∧
    (onLoad_palette
        (sample_reader 1 1 PNG_COLOR_TYPE_PALETTE 1 (some (List.replicate 10 ⟨1, 2, 3⟩)) [] [0]
          (fun _ => false))
        { fresh_fop with palette := fun _ => (9, 9, 9) }).2.palette 10 = (0, 0, 0) ∧
    (onLoad_palette
        (sample_reader 1 1 PNG_COLOR_TYPE_PALETTE 1 (some (List.replicate 10 ⟨1, 2, 3⟩)) [] [0]
          (fun _ => false))
        { fresh_fop with palette := fun _ => (9, 9, 9) }).2.palette 255 = (0, 0, 0) :=
  have h := onLoad_palette_entries
    (sample_reader 1 1 PNG_COLOR_TYPE_PALETTE 1 (some (List.replicate 10 ⟨1, 2, 3⟩)) [] [0]
      (fun _ => false))
    { fresh_fop with palette := fun _ => (9, 9, 9) } (List.replicate 10 ⟨1, 2, 3⟩) rfl rfl
    (by decide)
  ⟨h.1.1 9 (by decide), h.1.2 10 (by decide) (by decide), h.1.2 255 (by decide) (by decide)⟩

/-! ## Pixel-format negotiation (claim C8) -/

theorem fop_sequence_image_has_alpha (png : PngReader) (fop : FileOp) (imgtype : ImgType)
    (w h : Nat) : (fop_sequence_image png fop imgtype w h).2.has_alpha = fop.has_alpha := by
  unfold fop_sequence_image
  split <;> rfl

theorem fop_sequence_image_shape (png : PngReader) (fop : FileOp) (imgtype : ImgType)
    (w h : Nat) (hok : png.sequence_image_ok = true) :
    (fop_sequence_image png fop imgtype w h).2.image.map
      (fun im => (im.imgtype, im.w, im.h, im.line.length)) = some (imgtype, w, h, h) := by
  simp [fop_sequence_image, hok]

/-- C8: pixel-format negotiation.  The switch of `onLoad` selects `IMAGE_RGB`
for RGB and RGB+alpha, `IMAGE_GRAYSCALE` for Gray and Gray+alpha and
`IMAGE_INDEXED` for Palette; it sets `has_alpha` for the two alpha variants
and leaves the file operation as it is for RGB, Gray and Palette.  After
every successful `onLoad` the image has the selected type and the size of
the header; `has_alpha` is set for the alpha variants, is unchanged for RGB
and Gray, and for Palette is changed by the transparency chunk only. -/
theorem onLoad_imgtype_negotiation (fop : FileOp) :
    onLoad_imgtype PNG_COLOR_TYPE_RGB fop = some (ImgType.IMAGE_RGB, fop) ∧
    onLoad_imgtype PNG_COLOR_TYPE_RGB_ALPHA fop =
      some (ImgType.IMAGE_RGB, { fop with has_alpha := true }) ∧
    onLoad_imgtype PNG_COLOR_TYPE_GRAY fop = some (ImgType.IMAGE_GRAYSCALE, fop) ∧
    onLoad_imgtype PNG_COLOR_TYPE_GRAY_ALPHA fop =
      some (ImgType.IMAGE_GRAYSCALE, { fop with has_alpha := true }) ∧
    onLoad_imgtype PNG_COLOR_TYPE_PALETTE fop = some (ImgType.IMAGE_INDEXED, fop) ∧
    ∀ png fop2, onLoad png fop = some (true, fop2) →
      ∃ image, fop2.image = some image ∧ image.w = png.width ∧ image.h = png.height ∧
        (png.color_type = PNG_COLOR_TYPE_RGB →
          image.imgtype = ImgType.IMAGE_RGB ∧ fop2.has_alpha = fop.has_alpha) ∧
        (png.color_type = PNG_COLOR_TYPE_RGB_ALPHA →
          image.imgtype = ImgType.IMAGE_RGB ∧ fop2.has_alpha = true) ∧
        (png.color_type = PNG_COLOR_TYPE_GRAY →
          image.imgtype = ImgType.IMAGE_GRAYSCALE ∧ fop2.has_alpha = fop.has_alpha) ∧
        (png.color_type = PNG_COLOR_TYPE_GRAY_ALPHA →
          image.imgtype = ImgType.IMAGE_GRAYSCALE ∧ fop2.has_alpha = true) ∧
        (png.color_type = PNG_COLOR_TYPE_PALETTE →
          image.imgtype = ImgType.IMAGE_INDEXED ∧
          fop2.has_alpha =
            (fop.has_alpha || (png.plte.isSome && png.trns.any (fun j => decide (j < 256))))) := by
  refine ⟨rfl, rfl, rfl, rfl, rfl, fun png fop2 h => ?_⟩
  obtain ⟨_, _, _, _, hok, imgtype, fop1, hty, hrun⟩ := onLoad_true_inv png fop fop2 h
  obtain ⟨_, hha, _, _, himg⟩ := onLoad_passes_frame png _ _ _ _ fop2 (Or.inl hrun)
  have hA1 := fop_sequence_image_has_alpha png fop1 imgtype png.width png.height
  have hA2 := fop_sequence_image_shape png fop1 imgtype png.width png.height hok
  generalize (fop_sequence_image png fop1 imgtype png.width png.height).2 = fopA at hha himg hA1 hA2
  have hpal_img : ∀ f : FileOp, (onLoad_palette png f).2.image = f.image := by
    intro f
    by_cases hct : png.color_type = PNG_COLOR_TYPE_PALETTE
    · cases hpl : png.plte with
      | none => simp only [onLoad_palette, hct, if_true, hpl]
      | some palette => rw [onLoad_palette_of_plte png f palette hct hpl]
    · rw [onLoad_palette_of_not_palette png f hct]
  rw [hpal_img, hA2] at himg
  cases hi2 : fop2.image with
  | none => rw [hi2] at himg; simp at himg
  | some image =>
    rw [hi2] at himg
    simp only [Option.map_some', Option.some.injEq, Prod.mk.injEq] at himg
    obtain ⟨ht, hw, hh, _⟩ := himg
    have hpal_ha : png.color_type ≠ PNG_COLOR_TYPE_PALETTE → ∀ f : FileOp,
        (onLoad_palette png f).2.has_alpha = f.has_alpha := by
      intro hct f
      rw [onLoad_palette_of_not_palette png f hct]
    refine ⟨image, rfl, hw, hh, ?_, ?_, ?_, ?_, ?_⟩
    · intro hct
      rw [hct] at hty
      simp only [onLoad_imgtype, if_neg (show ¬ PNG_COLOR_TYPE_RGB = PNG_COLOR_TYPE_RGB_ALPHA by decide),
        if_true, Option.some.injEq, Prod.mk.injEq] at hty
      obtain ⟨rfl, rfl⟩ := hty
      rw [hpal_ha (by rw [hct]; decide), hA1] at hha
      exact ⟨ht, hha⟩
    · intro hct
      rw [hct] at hty
      simp only [onLoad_imgtype, if_true, Option.some.injEq, Prod.mk.injEq] at hty
      obtain ⟨rfl, rfl⟩ := hty
      rw [hpal_ha (by rw [hct]; decide), hA1] at hha
      exact ⟨ht, hha⟩
    · intro hct
      rw [hct] at hty
      have e : onLoad_imgtype PNG_COLOR_TYPE_GRAY fop = some (ImgType.IMAGE_GRAYSCALE, fop) := rfl
      rw [e] at hty
      simp only [Option.some.injEq, Prod.mk.injEq] at hty
      obtain ⟨rfl, rfl⟩ := hty
      rw [hpal_ha (by rw [hct]; decide), hA1] at hha
      exact ⟨ht, hha⟩
    · intro hct
      rw [hct] at hty
      have e : onLoad_imgtype PNG_COLOR_TYPE_GRAY_ALPHA fop =
          some (ImgType.IMAGE_GRAYSCALE, { fop with has_alpha := true }) := rfl
      rw [e] at hty
      simp only [Option.some.injEq, Prod.mk.injEq] at hty
      obtain ⟨rfl, rfl⟩ := hty
      rw [hpal_ha (by rw [hct]; decide), hA1] at hha
      exact ⟨ht, hha⟩
    · intro hct
      rw [hct] at hty
      have e : onLoad_imgtype PNG_COLOR_TYPE_PALETTE fop = some (ImgType.IMAGE_INDEXED, fop) := rfl
      rw [e] at hty
      simp only [Option.some.injEq, Prod.mk.injEq] at hty
      obtain ⟨rfl, rfl⟩ := hty
      refine ⟨ht, ?_⟩
      cases hpl : png.plte with
      | none =>
        simp only [onLoad_palette, hct, if_true, hpl] at hha
        simpa [hA1] using hha
      | some palette =>
        rw [onLoad_palette_of_plte png _ palette hct hpl] at hha
        simpa [hA1] using hha

/-- Witness for C8: a successful decode of a 1x1 RGB+alpha file. -/
theorem onLoad_imgtype_negotiation_witness :
    onLoad (sample_reader 1 1 PNG_COLOR_TYPE_RGB_ALPHA 1 none [] [1, 2, 3, 4] (fun _ => false))
        fresh_fop =
      some (true,
        { fresh_fop with
          has_alpha := true,
          image := some { imgtype := ImgType.IMAGE_RGB, w := 1, h := 1, line := [[_rgba 1 2 3 4]] },
          progress := [{ pass := 0, y := 0, height := 1, number_passes := 1 }],
          image_requests := 1, rows_read := 1 }) ∧
    ∃ image : Image,
      some ({ imgtype := ImgType.IMAGE_RGB, w := 1, h := 1, line := [[_rgba 1 2 3 4]] } : Image) =
        some image ∧
      image.w = 1 ∧ image.h = 1 ∧ image.imgtype = ImgType.IMAGE_RGB :=
  ⟨rfl,
    match (onLoad_imgtype_negotiation fresh_fop).2.2.2.2.2
      (sample_reader 1 1 PNG_COLOR_TYPE_RGB_ALPHA 1 none [] [1, 2, 3, 4] (fun _ => false))
      { fresh_fop with
          has_alpha := true,
          image := some { imgtype := ImgType.IMAGE_RGB, w := 1, h := 1, line := [[_rgba 1 2 3 4]] },
          progress := [{ pass := 0, y := 0, height := 1, number_passes := 1 }],
          image_requests := 1, rows_read := 1 } rfl with
    | ⟨image, h1, h2, h3, _, h5, _⟩ => ⟨image, h1, h2, h3, (h5 rfl).1⟩⟩

/-! ## Unsupported color types (claim C9) -/

/-- C9: an unsupported color type is an error with no allocation.  When the
reported color type is none of RGB, RGB+alpha, Gray, Gray+alpha and Palette,
`onLoad` returns `false`; `fop_sequence_image` is not called and the image
pointer is as before, the palette is untouched, no row is read and no
progress is reported.  When the file opened and libpng delivered the header,
the one error recorded is the unsupported-color-type message. -/
theorem onLoad_unsupported_color_type (png : PngReader) (fop : FileOp)
    (hct : png.color_type ∉ [PNG_COLOR_TYPE_RGB, PNG_COLOR_TYPE_RGB_ALPHA, PNG_COLOR_TYPE_GRAY,
      PNG_COLOR_TYPE_GRAY_ALPHA, PNG_COLOR_TYPE_PALETTE]) :
    ∃ fop2, onLoad png fop = some (false, fop2) ∧
      fop2.image = fop.image ∧ fop2.image_requests = fop.image_requests ∧
      fop2.palette = fop.palette ∧ fop2.has_alpha = fop.has_alpha ∧
      fop2.rows_read = fop.rows_read ∧ fop2.progress = fop.progress ∧
      (png.fopen_ok = true → png.create_read_struct_ok = true →
        png.create_info_struct_ok = true → png.read_info_ok = true →
        fop2.errors = fop.errors ++ ["Color type not supported\n)"]) := by
  simp only [List.mem_cons, List.mem_singleton, List.not_mem_nil, or_false, not_or] at hct
  obtain ⟨c1, c2, c3, c4, c5⟩ := hct
  have hty : onLoad_imgtype png.color_type fop = none := by
    simp only [onLoad_imgtype, if_neg c1, if_neg c2, if_neg c3, if_neg c4, if_neg c5]
  cases h1 : png.fopen_ok with
  | false =>
    exact ⟨fop, by simp [onLoad, h1], rfl, rfl, rfl, rfl, rfl, rfl, fun h => by simp at h⟩
  | true =>
    cases h2 : png.create_read_struct_ok with
    | false =>
      exact ⟨fop_error fop "png_create_read_struct\n", by simp [onLoad, h1, h2],
        rfl, rfl, rfl, rfl, rfl, rfl, fun _ h => by simp at h⟩
    | true =>
      cases h3 : png.create_info_struct_ok with
      | false =>
        exact ⟨fop_error fop "png_create_info_struct\n", by simp [onLoad, h1, h2, h3],
          rfl, rfl, rfl, rfl, rfl, rfl, fun _ _ h => by simp at h⟩
      | true =>
        cases h4 : png.read_info_ok with
        | false =>
          exact ⟨onLoad_longjmp fop, by simp [onLoad, h1, h2, h3, h4],
            rfl, rfl, rfl, rfl, rfl, rfl, fun _ _ _ h => by simp at h⟩
        | true =>
          refine ⟨fop_error fop "Color type not supported\n)", ?_, rfl, rfl, rfl, rfl, rfl, rfl,
            fun _ _ _ _ => rfl⟩
          rw [onLoad_eq_of_setup png fop h1 h2 h3 h4, hty]

/-- Witness for C9: color type 5 is not a PNG color type that `onLoad` supports. -/
theorem onLoad_unsupported_color_type_witness :
    ∃ fop2, onLoad (sample_reader 2 2 5 1 none [] [0, 0] (fun _ => false)) fresh_fop =
        some (false, fop2) ∧
      fop2.image = none ∧ fop2.image_requests = 0 ∧ fop2.rows_read = 0 ∧
      fop2.errors = ["Color type not supported\n)"] :=
  match onLoad_unsupported_color_type (sample_reader 2 2 5 1 none [] [0, 0] (fun _ => false))
    fresh_fop (by decide) with
  | ⟨fop2, h, h1, h2, _, _, h5, _, h7⟩ => ⟨fop2, h, h1, h2, h5, h7 rfl rfl rfl rfl⟩

/-! ## The row loops without cancellation -/

theorem getD_set_ne (l : List (List Nat)) (y j : Nat) (v : List Nat) (h : j ≠ y) :
    (l.set y v).getD j [] = l.getD j [] := by
  simp only [List.getD_eq_getElem?_getD, List.getElem?_set]
  rw [if_neg (fun e => h e.symm)]

theorem getD_set_eq (l : List (List Nat)) (y : Nat) (v : List Nat) (h : y < l.length) :
    (l.set y v).getD y [] = v := by
  simp [List.getD_eq_getElem?_getD, List.getElem?_set, h]

theorem onLoad_rows_run (png : PngReader) (te : List Bool) (pass : Nat)
    (hstop : ∀ k, png.is_stop k = false) (px : Nat → List Nat) (n y : Nat) (fop : FileOp)
    (image : Image) (himg : fop.image = some image) (hy : y + n ≤ image.line.length)
    (hrows : ∀ i, i < n → ∃ row, png.read_row (fop.rows_read + i) = some row ∧
      load_row png.color_type te png.width row (image.line.getD (y + i) []) = some (px (y + i))) :
    ∃ line2, onLoad_rows png te pass n y fop =
        Run.done { fop with
          rows_read := fop.rows_read + n,
          image := some { image with line := line2 },
          progress := fop.progress ++ (List.range n).map (fun i =>
            { pass := pass, y := y + i, height := png.height,
              number_passes := png.number_passes }) } ∧
      line2.length = image.line.length ∧
      ∀ j, line2.getD j [] = if y ≤ j ∧ j < y + n then px j else image.line.getD j [] := by
  induction n generalizing y fop image with
  | zero =>
    refine ⟨image.line, ?_, rfl, fun j => ?_⟩
    · rw [onLoad_rows]
      congr 1
      cases fop
      simp only [Nat.add_zero, List.range_zero, List.map_nil, List.append_nil] at himg ⊢
      rw [himg]
    · rw [if_neg (by omega)]
  | succ n ih =>
    obtain ⟨row, hrow, hpx⟩ := hrows 0 (by omega)
    rw [Nat.add_zero] at hrow hpx
    have hstep : onLoad_rows png te pass (n + 1) y fop =
        onLoad_rows png te pass n (y + 1)
          (fop_progress { fop with
              rows_read := fop.rows_read + 1,
              image := some { image with line := image.line.set y (px y) } }
            { pass := pass, y := y, height := png.height,
              number_passes := png.number_passes }) := by
      rw [onLoad_rows]
      simp only [hrow, himg, hpx, hstop, Bool.false_eq_true, if_false]
    have hrows2 : ∀ i, i < n → ∃ row,
        png.read_row ((fop_progress { fop with
              rows_read := fop.rows_read + 1,
              image := some { image with line := image.line.set y (px y) } }
            { pass := pass, y := y, height := png.height,
              number_passes := png.number_passes }).rows_read + i) = some row ∧
        load_row png.color_type te png.width row
          (({ image with line := image.line.set y (px y) } : Image).line.getD (y + 1 + i) []) =
          some (px (y + 1 + i)) := by
      intro i hi
      obtain ⟨r, hr1, hr2⟩ := hrows (i + 1) (by omega)
      refine ⟨r, ?_, ?_⟩
      · simp only [fop_progress]
        rw [← hr1]
        congr 1
        omega
      · rw [getD_set_ne _ _ _ _ (by omega)]
        have e : y + 1 + i = y + (i + 1) := by omega
        rw [e]
        exact hr2
    obtain ⟨line2, hrun, hlen, hget⟩ := ih (y + 1) _ { image with line := image.line.set y (px y) }
      rfl (by show y + 1 + n ≤ (image.line.set y (px y)).length
              rw [List.length_set]; omega) hrows2
    refine ⟨line2, ?_, ?_, fun j => ?_⟩
    · rw [hstep, hrun]
      have hprog : (List.range (n + 1)).map (fun i =>
            Progress.mk pass (y + i) png.height png.number_passes) =
          Progress.mk pass y png.height png.number_passes ::
            (List.range n).map (fun i =>
              Progress.mk pass (y + 1 + i) png.height png.number_passes) := by
        rw [List.range_succ_eq_map, List.map_cons, List.map_map]
        congr 1
        apply List.map_congr_left
        intro i _
        simp only [Function.comp, Nat.succ_eq_add_one, Progress.mk.injEq, true_and, and_true]
        omega
      rw [hprog]
      simp only [fop_progress, Run.done.injEq, FileOp.mk.injEq, true_and, List.append_assoc,
        List.singleton_append]
      omega
    · rw [hlen, List.length_set]
    · rw [hget j]
      by_cases hj : j = y
      · subst hj
        rw [if_neg (by omega), if_pos (by omega)]
        exact getD_set_eq _ _ _ (by omega)
      · by_cases h2 : y + 1 ≤ j ∧ j < y + 1 + n
        · rw [if_pos h2, if_pos (by omega)]
        · rw [if_neg h2, if_neg (by omega)]
          exact getD_set_ne _ _ _ _ hj

theorem onSave_rows_run (w : PngWriter) (image : Image)
    (color_type width height number_passes pass : Nat)
    (hw : ∀ k, w.write_row_ok k = true)
    (hsave : ∀ l ∈ image.line, (save_row color_type width l).isSome = true)
    (n y : Nat) (fop : FileOp) (file : PngFile) (hy : y + n ≤ image.line.length) :
    onSave_rows w image color_type width height number_passes pass n y (fop, file) =
      Run.done
        ({ fop with progress := fop.progress ++ (List.range n).map (fun i =>
              Progress.mk pass (y + i) height number_passes) },
         { file with rows := file.rows ++ ((image.line.drop y).take n).map (fun l =>
              (save_row color_type width l).getD []) }) := by
  induction n generalizing y fop file with
  | zero =>
    rw [onSave_rows]
    simp
  | succ n ih =>
    have hlt : y < image.line.length := by omega
    have hget : image.line.get? y = some image.line[y] := by
      rw [List.get?_eq_getElem?]
      exact List.getElem?_eq_getElem hlt
    have hsome := hsave image.line[y] (List.getElem_mem hlt)
    obtain ⟨row, hrow⟩ := Option.isSome_iff_exists.mp hsome
    rw [onSave_rows]
    simp only [hget, hrow, hw, Bool.not_true, Bool.false_eq_true, if_false]
    rw [ih (y + 1) _ _ (by omega)]
    have hdrop : List.take (n + 1) (List.drop y image.line) =
        image.line[y] :: List.take n (List.drop (y + 1) image.line) := by
      rw [List.drop_eq_getElem_cons hlt, List.take_succ_cons]
    have hprog : (List.range (n + 1)).map (fun i =>
          Progress.mk pass (y + i) height number_passes) =
        Progress.mk pass y height number_passes ::
          (List.range n).map (fun i => Progress.mk pass (y + 1 + i) height number_passes) := by
      rw [List.range_succ_eq_map, List.map_cons, List.map_map]
      congr 1
      apply List.map_congr_left
      intro i _
      simp only [Function.comp, Nat.succ_eq_add_one, Progress.mk.injEq, true_and, and_true]
      omega
    rw [hdrop, hprog]
    simp only [fop_progress, List.map_cons, hrow, Option.getD_some, List.append_assoc,
      List.singleton_append]

theorem onLoad_passes_one (png : PngReader) (te : List Bool) (pass : Nat) (fop : FileOp) :
    onLoad_passes png te 1 pass fop =
      match onLoad_rows png te pass png.height 0 fop with
      | Run.done fop => Run.done fop
      | Run.longjmp fop => Run.longjmp fop
      | Run.undefined => Run.undefined := by
  rw [onLoad_passes]
  cases onLoad_rows png te pass png.height 0 fop <;> simp [onLoad_passes]

theorem onSave_passes_one (w : PngWriter) (image : Image)
    (color_type width height number_passes pass : Nat) (st : FileOp × PngFile) :
    onSave_passes w image color_type width height number_passes 1 pass st =
      match onSave_rows w image color_type width height number_passes pass height 0 st with
      | Run.done st => Run.done st
      | Run.longjmp st => Run.longjmp st
      | Run.undefined => Run.undefined := by
  rw [onSave_passes]
  cases onSave_rows w image color_type width height number_passes pass height 0 st <;>
    simp [onSave_passes]

/-! ## `onSave` as a whole on a well-formed image -/

theorem save_row_isSome (color_type width : Nat) (src : List Nat)
    (hct : color_type ∈ [PNG_COLOR_TYPE_RGB, PNG_COLOR_TYPE_RGB_ALPHA, PNG_COLOR_TYPE_GRAY,
      PNG_COLOR_TYPE_GRAY_ALPHA, PNG_COLOR_TYPE_PALETTE])
    (hlen : src.length = width) : (save_row color_type width src).isSome = true := by
  simp only [List.mem_cons, List.mem_singleton, List.not_mem_nil, or_false] at hct
  rcases hct with rfl | rfl | rfl | rfl | rfl
  · rw [save_row_of_RGB]
    induction width generalizing src with
    | zero => simp [save_row_RGB]
    | succ w ih =>
      match src, hlen with
      | c :: rest, hlen =>
        have h := ih rest (by simpa using hlen)
        obtain ⟨r, hr⟩ := Option.isSome_iff_exists.mp h
        simp [save_row_RGB, hr]
  · rw [save_row_of_RGB_ALPHA]
    induction width generalizing src with
    | zero => simp [save_row_RGB_ALPHA]
    | succ w ih =>
      match src, hlen with
      | c :: rest, hlen =>
        have h := ih rest (by simpa using hlen)
        obtain ⟨r, hr⟩ := Option.isSome_iff_exists.mp h
        simp [save_row_RGB_ALPHA, hr]
  · rw [save_row_of_GRAY]
    induction width generalizing src with
    | zero => simp [save_row_GRAY]
    | succ w ih =>
      match src, hlen with
      | c :: rest, hlen =>
        have h := ih rest (by simpa using hlen)
        obtain ⟨r, hr⟩ := Option.isSome_iff_exists.mp h
        simp [save_row_GRAY, hr]
  · rw [save_row_of_GRAY_ALPHA]
    induction width generalizing src with
    | zero => simp [save_row_GRAY_ALPHA]
    | succ w ih =>
      match src, hlen with
      | c :: rest, hlen =>
        have h := ih rest (by simpa using hlen)
        obtain ⟨r, hr⟩ := Option.isSome_iff_exists.mp h
        simp [save_row_GRAY_ALPHA, hr]
  · rw [save_row_of_PALETTE]
    induction width generalizing src with
    | zero => simp [save_row_PALETTE]
    | succ w ih =>
      match src, hlen with
      | c :: rest, hlen =>
        have h := ih rest (by simpa using hlen)
        obtain ⟨r, hr⟩ := Option.isSome_iff_exists.mp h
        simp [save_row_PALETTE, hr]

theorem onSave_color_type_mem (imgtype : ImgType) (sprite : Sprite) :
    onSave_color_type imgtype sprite ∈ [PNG_COLOR_TYPE_RGB, PNG_COLOR_TYPE_RGB_ALPHA,
      PNG_COLOR_TYPE_GRAY, PNG_COLOR_TYPE_GRAY_ALPHA, PNG_COLOR_TYPE_PALETTE] := by
  cases imgtype <;> cases hn : sprite.needAlpha <;> simp [onSave_color_type, hn]

theorem onSave_run (w : PngWriter) (sprite : Sprite) (fop : FileOp) (image : Image)
    (h1 : w.fopen_ok = true) (h2 : w.create_write_struct_ok = true)
    (h3 : w.create_info_struct_ok = true) (h4 : w.write_info_ok = true)
    (hw : ∀ k, w.write_row_ok k = true)
    (himg : fop.image = some image) (hlines : image.line.length = image.h)
    (hwidth : ∀ l ∈ image.line, l.length = image.w) :
    onSave w sprite fop =
      some (true,
        { fop with progress := fop.progress ++ (List.range image.h).map (fun i =>
            Progress.mk 0 i image.h 1) },
        { onSave_palette image sprite fop
            { ihdr := some (png_IHDR.mk image.w image.h 8
                (onSave_color_type image.imgtype sprite) PNG_INTERLACE_NONE),
              plte := none, trns := none, rows := [] } with
          rows := image.line.map (fun l =>
            (save_row (onSave_color_type image.imgtype sprite) image.w l).getD []) }) := by
  have hsave : ∀ l ∈ image.line,
      (save_row (onSave_color_type image.imgtype sprite) image.w l).isSome = true :=
    fun l hl => save_row_isSome _ _ l (onSave_color_type_mem _ _) (hwidth l hl)
  have hrows := onSave_rows_run w image (onSave_color_type image.imgtype sprite) image.w image.h
    1 0 hw hsave image.h 0 fop
    (onSave_palette image sprite fop
      { ihdr := some (png_IHDR.mk image.w image.h 8
          (onSave_color_type image.imgtype sprite) PNG_INTERLACE_NONE),
        plte := none, trns := none, rows := [] }) (by omega)
  have hr0 : (onSave_palette image sprite fop
      { ihdr := some (png_IHDR.mk image.w image.h 8
          (onSave_color_type image.imgtype sprite) PNG_INTERLACE_NONE),
        plte := none, trns := none, rows := [] }).rows = [] := by
    unfold onSave_palette
    split
    · split <;> rfl
    · rfl
  simp only [onSave, h1, h2, h3, h4, himg, Bool.not_true, Bool.false_eq_true, if_false,
    onSave_passes_one, hrows]
  have ht : List.take image.h image.line = image.line := by
    rw [← hlines, List.take_length]
  simp only [hr0, ht, List.nil_append, List.drop_zero, Nat.zero_add]

/-! ## Palette and transparency on encode (claim C7) -/

theorem write_palette_length (fop : FileOp) (n c : Nat) : (write_palette fop n c).length = n := by
  induction n generalizing c with
  | zero => rfl
  | succ n ih => simp [write_palette, ih]

theorem write_palette_getD (fop : FileOp) (n c i : Nat) (hi : i < n) :
    (write_palette fop n c).getD i ⟨0, 0, 0⟩ =
      ⟨(fop_sequence_get_color fop (c + i)).1 % 2 ^ 8,
        (fop_sequence_get_color fop (c + i)).2.1 % 2 ^ 8,
        (fop_sequence_get_color fop (c + i)).2.2 % 2 ^ 8⟩ := by
  induction n generalizing c i with
  | zero => omega
  | succ n ih =>
    cases i with
    | zero => simp [write_palette]
    | succ i =>
      have h := ih (c + 1) i (by omega)
      have e : c + 1 + i = c + (i + 1) := by omega
      rw [e] at h
      simp only [write_palette, List.getD_cons_succ]
      exact h

/-- C7: palette encode.  For every well-formed Indexed image and every
canonical palette with 8-bit channels, `onSave` succeeds and hands libpng a
palette of exactly 256 entries, entry `c` being canonical entry `c`; it sets
a transparency chunk if and only if the sprite has no background layer, and
that chunk is the single byte 0. -/
theorem onSave_palette_emitted (w : PngWriter) (sprite : Sprite) (fop : FileOp) (image : Image)
    (h1 : w.fopen_ok = true) (h2 : w.create_write_struct_ok = true)
    (h3 : w.create_info_struct_ok = true) (h4 : w.write_info_ok = true)
    (hw : ∀ k, w.write_row_ok k = true)
    (himg : fop.image = some image) (hlines : image.line.length = image.h)
    (hwidth : ∀ l ∈ image.line, l.length = image.w)
    (hidx : image.imgtype = ImgType.IMAGE_INDEXED)
    (hpal : ∀ c, c < 256 → (fop_sequence_get_color fop c).1 < 256 ∧
      (fop_sequence_get_color fop c).2.1 < 256 ∧ (fop_sequence_get_color fop c).2.2 < 256) :
    ∃ fop2 file pal, onSave w sprite fop = some (true, fop2, file) ∧
      file.plte = some pal ∧ pal.length = 256 ∧
      (∀ c, c < 256 → pal.getD c ⟨0, 0, 0⟩ =
        ⟨(fop_sequence_get_color fop c).1, (fop_sequence_get_color fop c).2.1,
          (fop_sequence_get_color fop c).2.2⟩) ∧
      (file.trns.isSome = true ↔ sprite.hasBackgroundLayer = false) ∧
      (sprite.hasBackgroundLayer = false → file.trns = some [0]) := by
  refine ⟨_, _, write_palette fop PNG_MAX_PALETTE_LENGTH 0,
    onSave_run w sprite fop image h1 h2 h3 h4 hw himg hlines hwidth, ?_, ?_, ?_, ?_, ?_⟩
  · simp only [onSave_palette, hidx, if_true]
    split <;> rfl
  · exact write_palette_length fop 256 0
  · intro c hc
    obtain ⟨p1, p2, p3⟩ := hpal c hc
    have h := write_palette_getD fop 256 0 c hc
    rw [Nat.zero_add] at h
    rw [show PNG_MAX_PALETTE_LENGTH = 256 from rfl, h, Nat.mod_eq_of_lt (by omega),
      Nat.mod_eq_of_lt (by omega), Nat.mod_eq_of_lt (by omega)]
  · simp only [onSave_palette, hidx, if_true]
    cases hb : sprite.hasBackgroundLayer <;> simp
  · intro hb
    simp only [onSave_palette, hidx, if_true, hb, Bool.not_false]

/-- Witness for C7: a 1x1 Indexed image with pixel 0 and palette entry 0 =
(255,0,0), saved for a sprite without a background layer. -/
theorem onSave_palette_emitted_witness :
    ∃ fop2 file pal,
      onSave sample_writer { needAlpha := false, hasBackgroundLayer := false }
        (fop_with_image { imgtype := ImgType.IMAGE_INDEXED, w := 1, h := 1, line := [[0]] }
          (fun c => if c = 0 then (255, 0, 0) else (0, 0, 0))) = some (true, fop2, file) ∧
      file.plte = some pal ∧ pal.length = 256 ∧
      pal.getD 0 ⟨0, 0, 0⟩ = ⟨255, 0, 0⟩ ∧ file.trns = some [0] :=
  match onSave_palette_emitted sample_writer { needAlpha := false, hasBackgroundLayer := false }
    (fop_with_image { imgtype := ImgType.IMAGE_INDEXED, w := 1, h := 1, line := [[0]] }
      (fun c => if c = 0 then (255, 0, 0) else (0, 0, 0)))
    { imgtype := ImgType.IMAGE_INDEXED, w := 1, h := 1, line := [[0]] }
    rfl rfl rfl rfl (fun _ => rfl) rfl rfl (by decide) rfl
    (fun c _ => by
      simp only [fop_sequence_get_color, fop_with_image]
      split <;> decide) with
  | ⟨fop2, file, pal, e1, e2, e3, e4, _, e6⟩ =>
    ⟨fop2, file, pal, e1, e2, e3, e4 0 (by decide), e6 rfl⟩

/-! ## Encoding then decoding one row -/

theorem load_save_row_RGB_ALPHA (width : Nat) (l : List Nat) (hlen : l.length = width)
    (hpix : ∀ c ∈ l, c < 2 ^ 32) :
    ∃ bytes, save_row_RGB_ALPHA width l = some bytes ∧
      load_row_RGB_ALPHA width bytes = some l := by
  induction width generalizing l with
  | zero =>
    have : l = [] := List.eq_nil_of_length_eq_zero hlen
    exact ⟨[], by simp [save_row_RGB_ALPHA], by simp [load_row_RGB_ALPHA, this]⟩
  | succ w ih =>
    match l, hlen, hpix with
    | c :: rest, hlen, hpix =>
      obtain ⟨bytes, hs, hl⟩ := ih rest (by simpa using hlen) (fun v hv => hpix v (by simp [hv]))
      have hc := rgba_of_get c (hpix c (by simp))
      exact ⟨_rgba_getr c :: _rgba_getg c :: _rgba_getb c :: _rgba_geta c :: bytes,
        by simp [save_row_RGB_ALPHA, hs], by simp [load_row_RGB_ALPHA, hl, hc]⟩

theorem load_save_row_RGB (width : Nat) (l : List Nat) (hlen : l.length = width)
    (hpix : ∀ c ∈ l, c < 2 ^ 32) (halpha : ∀ c ∈ l, _rgba_geta c = 255) :
    ∃ bytes, save_row_RGB width l = some bytes ∧ load_row_RGB width bytes = some l := by
  induction width generalizing l with
  | zero =>
    have : l = [] := List.eq_nil_of_length_eq_zero hlen
    exact ⟨[], by simp [save_row_RGB], by simp [load_row_RGB, this]⟩
  | succ w ih =>
    match l, hlen, hpix, halpha with
    | c :: rest, hlen, hpix, halpha =>
      obtain ⟨bytes, hs, hl⟩ := ih rest (by simpa using hlen) (fun v hv => hpix v (by simp [hv]))
        (fun v hv => halpha v (by simp [hv]))
      have hc := rgba_of_get c (hpix c (by simp))
      rw [halpha c (by simp)] at hc
      exact ⟨_rgba_getr c :: _rgba_getg c :: _rgba_getb c :: bytes,
        by simp [save_row_RGB, hs], by simp [load_row_RGB, hl, hc]⟩

theorem load_save_row_GRAY_ALPHA (width : Nat) (l : List Nat) (hlen : l.length = width)
    (hpix : ∀ c ∈ l, c < 2 ^ 16) :
    ∃ bytes, save_row_GRAY_ALPHA width l = some bytes ∧
      load_row_GRAY_ALPHA width bytes = some l := by
  induction width generalizing l with
  | zero =>
    have : l = [] := List.eq_nil_of_length_eq_zero hlen
    exact ⟨[], by simp [save_row_GRAY_ALPHA], by simp [load_row_GRAY_ALPHA, this]⟩
  | succ w ih =>
    match l, hlen, hpix with
    | c :: rest, hlen, hpix =>
      obtain ⟨bytes, hs, hl⟩ := ih rest (by simpa using hlen) (fun v hv => hpix v (by simp [hv]))
      have hc := graya_of_get c (hpix c (by simp))
      exact ⟨_graya_getv c :: _graya_geta c :: bytes,
        by simp [save_row_GRAY_ALPHA, hs], by simp [load_row_GRAY_ALPHA, hl, hc]⟩

theorem load_save_row_GRAY (width : Nat) (l : List Nat) (hlen : l.length = width)
    (hpix : ∀ c ∈ l, c < 2 ^ 16) (halpha : ∀ c ∈ l, _graya_geta c = 255) :
    ∃ bytes, save_row_GRAY width l = some bytes ∧ load_row_GRAY width bytes = some l := by
  induction width generalizing l with
  | zero =>
    have : l = [] := List.eq_nil_of_length_eq_zero hlen
    exact ⟨[], by simp [save_row_GRAY], by simp [load_row_GRAY, this]⟩
  | succ w ih =>
    match l, hlen, hpix, halpha with
    | c :: rest, hlen, hpix, halpha =>
      obtain ⟨bytes, hs, hl⟩ := ih rest (by simpa using hlen) (fun v hv => hpix v (by simp [hv]))
        (fun v hv => halpha v (by simp [hv]))
      have hc := graya_of_get c (hpix c (by simp))
      rw [halpha c (by simp)] at hc
      exact ⟨_graya_getv c :: bytes,
        by simp [save_row_GRAY, hs], by simp [load_row_GRAY, hl, hc]⟩

/-- One line of an RGBA or GrayAlpha image, encoded for the color type that
`onSave` picks and decoded for that color type, is the line again: always
when the sprite needs alpha, and otherwise when every pixel is opaque. -/
theorem load_row_save_row (imgtype : ImgType) (sprite : Sprite) (te : List Bool) (width : Nat)
    (l dst : List Nat)
    (hty : imgtype = ImgType.IMAGE_RGB ∨ imgtype = ImgType.IMAGE_GRAYSCALE)
    (hlen : l.length = width)
    (hpix : ∀ c ∈ l, c < (if imgtype = ImgType.IMAGE_RGB then 2 ^ 32 else 2 ^ 16))
    (halpha : sprite.needAlpha = false → ∀ c ∈ l,
      (if imgtype = ImgType.IMAGE_RGB then _rgba_geta c else _graya_geta c) = 255) :
    load_row (onSave_color_type imgtype sprite) te width
      ((save_row (onSave_color_type imgtype sprite) width l).getD []) dst = some l := by
  rcases hty with rfl | rfl
  · simp only [if_true] at hpix halpha
    cases hn : sprite.needAlpha with
    | true =>
      obtain ⟨bytes, hs, hl⟩ := load_save_row_RGB_ALPHA width l hlen hpix
      simp only [onSave_color_type, hn, if_true, save_row_of_RGB_ALPHA, load_row_of_RGB_ALPHA, hs,
        Option.getD_some, hl]
    | false =>
      obtain ⟨bytes, hs, hl⟩ := load_save_row_RGB width l hlen hpix (halpha hn)
      simp only [onSave_color_type, hn, Bool.false_eq_true, if_false, save_row_of_RGB,
        load_row_of_RGB, hs, Option.getD_some, hl]
  · simp only [reduceCtorEq, if_false] at hpix halpha
    cases hn : sprite.needAlpha with
    | true =>
      obtain ⟨bytes, hs, hl⟩ := load_save_row_GRAY_ALPHA width l hlen hpix
      simp only [onSave_color_type, hn, if_true, save_row_of_GRAY_ALPHA, load_row_of_GRAY_ALPHA,
        hs, Option.getD_some, hl]
    | false =>
      obtain ⟨bytes, hs, hl⟩ := load_save_row_GRAY width l hlen hpix (halpha hn)
      simp only [onSave_color_type, hn, Bool.false_eq_true, if_false, save_row_of_GRAY,
        load_row_of_GRAY, hs, Option.getD_some, hl]

/-! ## Round trip of RGBA and GrayAlpha images (claim C1) -/

/-- C1, counterexample: a 1x1 RGBA image with the pixel (1,2,3,0), saved for a
sprite whose `needAlpha` is false, is written with color type RGB as the row
`[1,2,3]` and read back as the pixel (1,2,3,255), which is another pixel. -/
theorem round_trip_needAlpha_false_counterexample :
    (onSave sample_writer { needAlpha := false, hasBackgroundLayer := true }
        (fop_with_image { imgtype := ImgType.IMAGE_RGB, w := 1, h := 1, line := [[_rgba 1 2 3 0]] }
          (fun _ => (0, 0, 0)))).map (fun r => (r.1, r.2.2)) =
      some (true, { ihdr := some (png_IHDR.mk 1 1 8 PNG_COLOR_TYPE_RGB PNG_INTERLACE_NONE),
                    plte := none, trns := none, rows := [[1, 2, 3]] }) ∧
    (onLoad (reader_of_file
        { ihdr := some (png_IHDR.mk 1 1 8 PNG_COLOR_TYPE_RGB PNG_INTERLACE_NONE),
          plte := none, trns := none, rows := [[1, 2, 3]] } (fun _ _ => 0))
        fresh_fop).map (fun r => (r.1, r.2.image)) =
      some (true, some { imgtype := ImgType.IMAGE_RGB, w := 1, h := 1,
                         line := [[_rgba 1 2 3 255]] }) ∧
    _rgba 1 2 3 255 ≠ _rgba 1 2 3 0 := by
  refine ⟨by decide, by decide, by decide⟩

theorem onLoad_imgtype_onSave_color_type (imgtype : ImgType) (sprite : Sprite) (fop : FileOp)
    (hty : imgtype = ImgType.IMAGE_RGB ∨ imgtype = ImgType.IMAGE_GRAYSCALE) :
    onLoad_imgtype (onSave_color_type imgtype sprite) fop =
      some (imgtype, { fop with has_alpha := fop.has_alpha || sprite.needAlpha }) ∧
    onSave_color_type imgtype sprite ≠ PNG_COLOR_TYPE_PALETTE := by
  rcases hty with rfl | rfl <;> cases hn : sprite.needAlpha <;> cases fop <;>
    simp [onSave_color_type, onLoad_imgtype, hn, PNG_COLOR_TYPE_RGB, PNG_COLOR_TYPE_RGB_ALPHA,
      PNG_COLOR_TYPE_GRAY, PNG_COLOR_TYPE_GRAY_ALPHA, PNG_COLOR_TYPE_PALETTE]

/-- C1 as amended: for every well-formed RGBA or GrayAlpha image whose pixels
fit their pixel type, when the sprite needs alpha, or when every pixel has
alpha 255, `onSave` succeeds and `onLoad` of what was written succeeds and
yields an image with the same pixel format, dimensions and pixel values. -/
theorem onLoad_onSave_round_trip (w : PngWriter) (sprite : Sprite) (fop fop0 : FileOp)
    (image : Image) (fill : Nat → Nat → Nat)
    (h1 : w.fopen_ok = true) (h2 : w.create_write_struct_ok = true)
    (h3 : w.create_info_struct_ok = true) (h4 : w.write_info_ok = true)
    (hw : ∀ k, w.write_row_ok k = true)
    (himg : fop.image = some image) (hlines : image.line.length = image.h)
    (hwidth : ∀ l ∈ image.line, l.length = image.w)
    (hty : image.imgtype = ImgType.IMAGE_RGB ∨ image.imgtype = ImgType.IMAGE_GRAYSCALE)
    (hpix : ∀ l ∈ image.line, ∀ c ∈ l,
      c < (if image.imgtype = ImgType.IMAGE_RGB then 2 ^ 32 else 2 ^ 16))
    (halpha : sprite.needAlpha = false → ∀ l ∈ image.line, ∀ c ∈ l,
      (if image.imgtype = ImgType.IMAGE_RGB then _rgba_geta c else _graya_geta c) = 255)
    (h0 : fop0.rows_read = 0) :
    ∃ fop1 file fop2, onSave w sprite fop = some (true, fop1, file) ∧
      onLoad (reader_of_file file fill) fop0 = some (true, fop2) ∧
      fop2.image = some image := by
  have hsave := onSave_run w sprite fop image h1 h2 h3 h4 hw himg hlines hwidth
  obtain ⟨hneg, hnp⟩ := onLoad_imgtype_onSave_color_type image.imgtype sprite fop0 hty
  have hnidx : image.imgtype ≠ ImgType.IMAGE_INDEXED := by
    rcases hty with h | h <;> rw [h] <;> decide
  have hpalfile : onSave_palette image sprite fop
      { ihdr := some (png_IHDR.mk image.w image.h 8
          (onSave_color_type image.imgtype sprite) PNG_INTERLACE_NONE),
        plte := none, trns := none, rows := [] } =
      { ihdr := some (png_IHDR.mk image.w image.h 8
          (onSave_color_type image.imgtype sprite) PNG_INTERLACE_NONE),
        plte := none, trns := none, rows := [] } := by
    simp only [onSave_palette, hnidx, if_false]
  rw [hpalfile] at hsave
  refine ⟨_, _, ?_, hsave, ?_⟩
  · exact { fop0 with
      has_alpha := fop0.has_alpha || sprite.needAlpha,
      image := some image,
      image_requests := fop0.image_requests + 1,
      rows_read := fop0.rows_read + image.h,
      progress := fop0.progress ++ (List.range image.h).map (fun i =>
        Progress.mk 0 i image.h 1) }
  · generalize hpng : reader_of_file
      { ihdr := some (png_IHDR.mk image.w image.h 8
          (onSave_color_type image.imgtype sprite) PNG_INTERLACE_NONE),
        plte := none, trns := none,
        rows := image.line.map (fun l =>
          (save_row (onSave_color_type image.imgtype sprite) image.w l).getD []) } fill = png
    have e1 : png.fopen_ok = true := by rw [← hpng]; rfl
    have e2 : png.create_read_struct_ok = true := by rw [← hpng]; rfl
    have e3 : png.create_info_struct_ok = true := by rw [← hpng]; rfl
    have e4 : png.read_info_ok = true := by rw [← hpng]; rfl
    have e5 : png.width = image.w := by rw [← hpng]; rfl
    have e6 : png.height = image.h := by rw [← hpng]; rfl
    have e7 : png.color_type = onSave_color_type image.imgtype sprite := by rw [← hpng]; rfl
    have e8 : png.number_passes = 1 := by rw [← hpng]; rfl
    have e9 : png.sequence_image_ok = true := by rw [← hpng]; rfl
    have e10 : ∀ k, png.is_stop k = false := by intro k; rw [← hpng]; rfl
    have e11 : ∀ k, png.read_row k = (image.line.map (fun l =>
        (save_row (onSave_color_type image.imgtype sprite) image.w l).getD [])).get? k := by
      intro k; rw [← hpng]; rfl
    have hpal : ∀ f : FileOp, onLoad_palette png f = (List.replicate 256 false, f) :=
      fun f => onLoad_palette_of_not_palette png f (by rw [e7]; exact hnp)
    rw [onLoad_eq_of_setup png fop0 e1 e2 e3 e4, e7, hneg]
    simp only [fop_sequence_image, e9, if_true, hpal, e8, onLoad_passes_one, e5, e6]
    obtain ⟨line2, hrun, hlen2, hget2⟩ := onLoad_rows_run png (List.replicate 256 false) 0 e10
      (fun j => image.line.getD j []) image.h 0
      { has_alpha := fop0.has_alpha || sprite.needAlpha,
        image := some (Image.mk image.imgtype image.w image.h
          ((List.range image.h).map (fun y => (List.range image.w).map (fun x =>
            png.image_fill y x)))),
        palette := fop0.palette, errors := fop0.errors, progress := fop0.progress,
        image_requests := fop0.image_requests + 1, rows_read := fop0.rows_read }
      (Image.mk image.imgtype image.w image.h
          ((List.range image.h).map (fun y => (List.range image.w).map (fun x =>
            png.image_fill y x))))
      rfl (by simp)
      (by
        intro i hi
        have hil : i < image.line.length := by omega
        refine ⟨(save_row (onSave_color_type image.imgtype sprite) image.w
          image.line[i]).getD [], ?_, ?_⟩
        · show png.read_row (fop0.rows_read + i) = _
          rw [h0, Nat.zero_add, e11, List.get?_eq_getElem?, List.getElem?_map,
            List.getElem?_eq_getElem hil]
          rfl
        · rw [e7, e5, Nat.zero_add]
          beta_reduce
          rw [List.getD_eq_getElem image.line [] hil]
          exact load_row_save_row image.imgtype sprite _ image.w image.line[i] _ hty
            (hwidth _ (List.getElem_mem hil)) (hpix _ (List.getElem_mem hil))
            (fun hn => halpha hn _ (List.getElem_mem hil)))
    have hline : line2 = image.line := by
      apply List.ext_getElem
      · rw [hlen2]
        simp [hlines]
      · intro j hj1 hj2
        have := hget2 j
        rw [if_pos (by omega), List.getD_eq_getElem _ _ hj1, List.getD_eq_getElem _ _ hj2] at this
        exact this
    rw [hrun, hline]
    simp only [Nat.zero_add, e6, e8, and_self]

/-- Witness for the amended C1: a 2x2 RGBA image with translucent pixels, saved
for a sprite that needs alpha. -/
theorem onLoad_onSave_round_trip_witness :
    ∃ fop1 file fop2,
      onSave sample_writer { needAlpha := true, hasBackgroundLayer := false }
        (fop_with_image
          { imgtype := ImgType.IMAGE_RGB, w := 2, h := 2,
            line := [[_rgba 1 2 3 0, _rgba 255 254 253 128], [_rgba 0 0 0 255, 4294967295]] }
          (fun _ => (0, 0, 0))) = some (true, fop1, file) ∧
      onLoad (reader_of_file file (fun _ _ => 0)) fresh_fop = some (true, fop2) ∧
      fop2.image = some
        { imgtype := ImgType.IMAGE_RGB, w := 2, h := 2,
          line := [[_rgba 1 2 3 0, _rgba 255 254 253 128], [_rgba 0 0 0 255, 4294967295]] } :=
  onLoad_onSave_round_trip sample_writer { needAlpha := true, hasBackgroundLayer := false }
    (fop_with_image
      { imgtype := ImgType.IMAGE_RGB, w := 2, h := 2,
        line := [[_rgba 1 2 3 0, _rgba 255 254 253 128], [_rgba 0 0 0 255, 4294967295]] }
      (fun _ => (0, 0, 0)))
    fresh_fop
    { imgtype := ImgType.IMAGE_RGB, w := 2, h := 2,
      line := [[_rgba 1 2 3 0, _rgba 255 254 253 128], [_rgba 0 0 0 255, 4294967295]] }
    (fun _ _ => 0) rfl rfl rfl rfl (fun _ => rfl) rfl rfl (by decide) (by decide) (by decide)
    (fun h => by simp at h) rfl

/-! ## Cancellation (claim C10) -/

/-- C10, evaluated: with the cancellation signal set from the first time it is
consulted, a single-pass decode of a 1x3 Gray image reads and transcodes one
row and returns `true`.  The same decode of an interlaced image, which has 7
passes, reads and transcodes 7 rows, one after each restart of the row loop,
and reports progress for row 0 of every pass; when call number `k` of
`png_read_row` delivers the byte `k`, row 0 of the image ends up holding
the row of call number 6. -/
theorem onLoad_stop_leaves_row_loop_only :
    (onLoad (sample_reader 1 3 PNG_COLOR_TYPE_GRAY 1 none [] [9] (fun _ => true))
        fresh_fop).map (fun r => (r.1, r.2.rows_read, r.2.progress)) =
      some (true, 1, [Progress.mk 0 0 3 1]) ∧
    (onLoad (sample_reader 1 3 PNG_COLOR_TYPE_GRAY 7 none [] [9] (fun _ => true))
        fresh_fop).map (fun r => (r.1, r.2.rows_read, r.2.progress)) =
      some (true, 7, [Progress.mk 0 0 3 7, Progress.mk 1 0 3 7, Progress.mk 2 0 3 7,
        Progress.mk 3 0 3 7, Progress.mk 4 0 3 7, Progress.mk 5 0 3 7, Progress.mk 6 0 3 7]) ∧
    (onLoad { sample_reader 1 3 PNG_COLOR_TYPE_GRAY 7 none [] [9] (fun _ => true) with
          read_row := fun k => some [k] }
        fresh_fop).map (fun r => (r.1, r.2.rows_read, r.2.image)) =
      some (true, 7,
        some { imgtype := ImgType.IMAGE_GRAYSCALE, w := 1, h := 3,
               line := [[_graya 6 255], [0], [0]] }) := by
  refine ⟨by decide, by decide, by decide⟩

/-! ## The row loop with a stop check that may succeed -/

theorem load_row_of_rowbytes (color_type : Nat) (te : List Bool) (width : Nat)
    (row : List Nat)
    (hct : color_type ∈ [PNG_COLOR_TYPE_RGB, PNG_COLOR_TYPE_RGB_ALPHA, PNG_COLOR_TYPE_GRAY,
      PNG_COLOR_TYPE_GRAY_ALPHA, PNG_COLOR_TYPE_PALETTE])
    (hlen : row.length = png_get_rowbytes color_type width) :
    ∃ pixels, pixels.length = width ∧
      ∀ dst2, load_row color_type te width row dst2 = some pixels := by
  simp only [List.mem_cons, List.mem_singleton, List.not_mem_nil, or_false] at hct
  rcases hct with rfl | rfl | rfl | rfl | rfl
  · have e := load_row_RGB_eq width row hlen
    refine ⟨_, ?_, fun d => by rw [load_row_of_RGB]; exact e⟩
    rw [List.length_map, List.length_range]
  · have e := load_row_RGB_ALPHA_eq width row hlen
    refine ⟨_, ?_, fun d => by rw [load_row_of_RGB_ALPHA]; exact e⟩
    rw [List.length_map, List.length_range]
  · have e := load_row_GRAY_eq width row hlen
    refine ⟨_, ?_, fun d => by rw [load_row_of_GRAY]; exact e⟩
    rw [List.length_map, List.length_range]
  · have e := load_row_GRAY_ALPHA_eq width row hlen
    refine ⟨_, ?_, fun d => by rw [load_row_of_GRAY_ALPHA]; exact e⟩
    rw [List.length_map, List.length_range]
  · have e := load_row_PALETTE_eq te width row hlen
    refine ⟨_, ?_, fun d => by rw [load_row_of_PALETTE]; exact e⟩
    rw [List.length_map]
    exact hlen

theorem onLoad_rows_steps (png : PngReader) (te : List Bool) (pass : Nat)
    (px : Nat → List Nat) (m n y : Nat) (fop : FileOp)
    (image : Image) (himg : fop.image = some image) (hy : y + m ≤ image.line.length)
    (hrows : ∀ i, i < m → ∃ row, png.read_row (fop.rows_read + i) = some row ∧
      load_row png.color_type te png.width row (image.line.getD (y + i) []) = some (px (y + i)))
    (hno : ∀ i, i + 1 < m → png.is_stop (fop.rows_read + i) = false)
    (hend : m = n ∨ (0 < m ∧ m ≤ n ∧ png.is_stop (fop.rows_read + (m - 1)) = true)) :
    ∃ line2, onLoad_rows png te pass n y fop =
        Run.done { fop with
          rows_read := fop.rows_read + m,
          image := some { image with line := line2 },
          progress := fop.progress ++ (List.range m).map (fun i =>
            { pass := pass, y := y + i, height := png.height,
              number_passes := png.number_passes }) } ∧
      line2.length = image.line.length ∧
      ∀ j, line2.getD j [] = if y ≤ j ∧ j < y + m then px j else image.line.getD j [] := by
  induction m generalizing n y fop image with
  | zero =>
    have hn : n = 0 := by
      rcases hend with h | ⟨h, _, _⟩
      · exact h.symm
      · omega
    subst hn
    refine ⟨image.line, ?_, rfl, fun j => ?_⟩
    · rw [onLoad_rows]
      congr 1
      cases fop
      simp only [Nat.add_zero, List.range_zero, List.map_nil, List.append_nil] at himg ⊢
      rw [himg]
    · rw [if_neg (by omega)]
  | succ m ih =>
    obtain ⟨n, rfl⟩ : ∃ k, n = k + 1 := by
      rcases hend with h | ⟨_, h, _⟩
      · exact ⟨m, h.symm⟩
      · exact ⟨n - 1, by omega⟩
    obtain ⟨row, hrow, hpx⟩ := hrows 0 (by omega)
    rw [Nat.add_zero] at hrow hpx
    have hprog : (List.range (m + 1)).map (fun i =>
          Progress.mk pass (y + i) png.height png.number_passes) =
        Progress.mk pass y png.height png.number_passes ::
          (List.range m).map (fun i =>
            Progress.mk pass (y + 1 + i) png.height png.number_passes) := by
      rw [List.range_succ_eq_map, List.map_cons, List.map_map]
      congr 1
      apply List.map_congr_left
      intro i _
      simp only [Function.comp, Nat.succ_eq_add_one, Progress.mk.injEq, true_and, and_true]
      omega
    by_cases hs : png.is_stop fop.rows_read = true
    · have hm : m = 0 := by
        by_cases h0 : m = 0
        · exact h0
        · have := hno 0 (by omega)
          rw [Nat.add_zero, hs] at this
          exact absurd this (by decide)
      subst hm
      refine ⟨image.line.set y (px y), ?_, List.length_set _ _ _, fun j => ?_⟩
      · rw [onLoad_rows, hprog]
        simp only [hrow, himg, hpx, hs, if_true]
        simp [fop_progress]
      · by_cases hj : j = y
        · subst hj
          rw [if_pos (by omega)]
          exact getD_set_eq _ _ _ (by omega)
        · rw [if_neg (by omega)]
          exact getD_set_ne _ _ _ _ hj
    · have hs2 : png.is_stop fop.rows_read = false := by
        cases h : png.is_stop fop.rows_read with
        | true => exact absurd h hs
        | false => rfl
      have hstep : onLoad_rows png te pass (n + 1) y fop =
          onLoad_rows png te pass n (y + 1)
            (fop_progress { fop with
                rows_read := fop.rows_read + 1,
                image := some { image with line := image.line.set y (px y) } }
              { pass := pass, y := y, height := png.height,
                number_passes := png.number_passes }) := by
        rw [onLoad_rows]
        simp only [hrow, himg, hpx, hs2, Bool.false_eq_true, if_false]
      have hrows2 : ∀ i, i < m → ∃ row,
          png.read_row ((fop_progress { fop with
                rows_read := fop.rows_read + 1,
                image := some { image with line := image.line.set y (px y) } }
              { pass := pass, y := y, height := png.height,
                number_passes := png.number_passes }).rows_read + i) = some row ∧
          load_row png.color_type te png.width row
            (({ image with line := image.line.set y (px y) } : Image).line.getD (y + 1 + i) []) =
            some (px (y + 1 + i)) := by
        intro i hi
        obtain ⟨r, hr1, hr2⟩ := hrows (i + 1) (by omega)
        refine ⟨r, ?_, ?_⟩
        · simp only [fop_progress]
          rw [← hr1]
          congr 1
          omega
        · rw [getD_set_ne _ _ _ _ (by omega)]
          have e : y + 1 + i = y + (i + 1) := by omega
          rw [e]
          exact hr2
      have hno2 : ∀ i, i + 1 < m → png.is_stop ((fop_progress { fop with
                rows_read := fop.rows_read + 1,
                image := some { image with line := image.line.set y (px y) } }
              { pass := pass, y := y, height := png.height,
                number_passes := png.number_passes }).rows_read + i) = false := by
        intro i hi
        have := hno (i + 1) (by omega)
        simp only [fop_progress]
        rw [← this]
        congr 1
        omega
      have hend2 : m = n ∨ (0 < m ∧ m ≤ n ∧ png.is_stop ((fop_progress { fop with
                rows_read := fop.rows_read + 1,
                image := some { image with line := image.line.set y (px y) } }
              { pass := pass, y := y, height := png.height,
                number_passes := png.number_passes }).rows_read + (m - 1)) = true) := by
        rcases hend with h | ⟨_, h1, h2⟩
        · exact Or.inl (by omega)
        · by_cases h0 : m = 0
          · subst h0
            simp only [Nat.add_sub_cancel, Nat.add_zero] at h2
            rw [h2] at hs2
            exact absurd hs2 (by decide)
          · refine Or.inr ⟨by omega, by omega, ?_⟩
            simp only [fop_progress]
            rw [← h2]
            congr 1
            omega
      obtain ⟨line2, hrun, hlen, hget⟩ := ih n (y + 1) _
        { image with line := image.line.set y (px y) }
        rfl (by show y + 1 + m ≤ (image.line.set y (px y)).length
                rw [List.length_set]; omega) hrows2 hno2 hend2
      refine ⟨line2, ?_, ?_, fun j => ?_⟩
      · rw [hstep, hrun, hprog]
        simp only [fop_progress, Run.done.injEq, FileOp.mk.injEq, true_and, List.append_assoc,
          List.singleton_append]
        omega
      · rw [hlen, List.length_set]
      · rw [hget j]
        by_cases hj : j = y
        · subst hj
          rw [if_neg (by omega), if_pos (by omega)]
          exact getD_set_eq _ _ _ (by omega)
        · by_cases h2 : y + 1 ≤ j ∧ j < y + 1 + m
          · rw [if_pos h2, if_pos (by omega)]
          · rw [if_neg h2, if_neg (by omega)]
            exact getD_set_ne _ _ _ _ hj

/-! ## The pass loop when every pass handles the same number of rows -/

theorem decoded_row_spec (png : PngReader) (te : List Bool)
    (hct : png.color_type ∈ [PNG_COLOR_TYPE_RGB, PNG_COLOR_TYPE_RGB_ALPHA, PNG_COLOR_TYPE_GRAY,
      PNG_COLOR_TYPE_GRAY_ALPHA, PNG_COLOR_TYPE_PALETTE])
    (hrows : ∀ k, ∃ row, png.read_row k = some row ∧
      row.length = png_get_rowbytes png.color_type png.width) (k : Nat) (dst : List Nat) :
    ∃ row, png.read_row k = some row ∧
      load_row png.color_type te png.width row dst = some (decoded_row png te k) ∧
      (decoded_row png te k).length = png.width := by
  obtain ⟨row, hr, hl⟩ := hrows k
  obtain ⟨pixels, hpl, hpx⟩ := load_row_of_rowbytes png.color_type te png.width row hct hl
  have hd : decoded_row png te k = pixels := by
    simp only [decoded_row, hr, Option.some_bind, hpx [], Option.getD_some]
  exact ⟨row, hr, by rw [hd]; exact hpx dst, by rw [hd]; exact hpl⟩

theorem progress_range_split (pass m n height passes : Nat) :
    (List.range ((n + 1) * m)).map (fun k => Progress.mk (pass + k / m) (k % m) height passes) =
      (List.range m).map (fun i => Progress.mk pass (0 + i) height passes) ++
        (List.range (n * m)).map (fun k =>
          Progress.mk (pass + 1 + k / m) (k % m) height passes) := by
  have e : (n + 1) * m = m + n * m := by rw [Nat.succ_mul, Nat.add_comm]
  rw [e, List.range_add, List.map_append, List.map_map]
  congr 1
  · apply List.map_congr_left
    intro k hk
    have hk2 : k < m := List.mem_range.mp hk
    simp only [Progress.mk.injEq, and_true, Nat.zero_add]
    exact ⟨by rw [Nat.div_eq_of_lt hk2]; rfl, Nat.mod_eq_of_lt hk2⟩
  · apply List.map_congr_left
    intro k hk
    have hk2 : k < n * m := List.mem_range.mp hk
    have hm : 0 < m := by
      rcases Nat.eq_zero_or_pos m with h | h
      · rw [h, Nat.mul_zero] at hk2
        omega
      · exact h
    simp only [Function.comp, Progress.mk.injEq, and_true]
    constructor
    · rw [Nat.add_comm m k, Nat.add_div_right k hm]
      omega
    · rw [Nat.add_comm m k, Nat.add_mod_right]

theorem onLoad_passes_uniform (png : PngReader) (te : List Bool)
    (hct : png.color_type ∈ [PNG_COLOR_TYPE_RGB, PNG_COLOR_TYPE_RGB_ALPHA, PNG_COLOR_TYPE_GRAY,
      PNG_COLOR_TYPE_GRAY_ALPHA, PNG_COLOR_TYPE_PALETTE])
    (hrows : ∀ k, ∃ row, png.read_row k = some row ∧
      row.length = png_get_rowbytes png.color_type png.width)
    (m n pass : Nat) (fop : FileOp) (image : Image) (himg : fop.image = some image)
    (hlen : image.line.length = png.height) (hm : m ≤ png.height)
    (hno : ∀ i, i < n → ∀ t, t + 1 < m → png.is_stop (fop.rows_read + i * m + t) = false)
    (hend : m = png.height ∨
      (0 < m ∧ ∀ i, i < n → png.is_stop (fop.rows_read + i * m + (m - 1)) = true)) :
    ∃ line2, onLoad_passes png te n pass fop =
        Run.done { fop with
          rows_read := fop.rows_read + n * m,
          image := some { image with line := line2 },
          progress := fop.progress ++ (List.range (n * m)).map (fun k =>
            Progress.mk (pass + k / m) (k % m) png.height png.number_passes) } ∧
      line2.length = image.line.length ∧
      ∀ j, line2.getD j [] =
        if 0 < n ∧ j < m then decoded_row png te (fop.rows_read + (n - 1) * m + j)
        else image.line.getD j [] := by
  induction n generalizing pass fop image with
  | zero =>
    refine ⟨image.line, ?_, rfl, fun j => ?_⟩
    · rw [onLoad_passes]
      congr 1
      cases fop
      simp only [Nat.zero_mul, Nat.add_zero, List.range_zero, List.map_nil,
        List.append_nil] at himg ⊢
      rw [himg]
    · rw [if_neg (by omega)]
  | succ n ih =>
    have hrows1 : ∀ i, i < m → ∃ row, png.read_row (fop.rows_read + i) = some row ∧
        load_row png.color_type te png.width row (image.line.getD (0 + i) []) =
          some ((fun j => decoded_row png te (fop.rows_read + j)) (0 + i)) := by
      intro i _
      obtain ⟨row, h1, h2, _⟩ := decoded_row_spec png te hct hrows (fop.rows_read + i)
        (image.line.getD (0 + i) [])
      exact ⟨row, h1, by rw [Nat.zero_add] at h2 ⊢; exact h2⟩
    have hno1 : ∀ i, i + 1 < m → png.is_stop (fop.rows_read + i) = false := by
      intro i hi
      have := hno 0 (by omega) i hi
      rw [Nat.zero_mul, Nat.add_zero] at this
      exact this
    have hend1 : m = png.height ∨
        (0 < m ∧ m ≤ png.height ∧ png.is_stop (fop.rows_read + (m - 1)) = true) := by
      rcases hend with h | ⟨h1, h2⟩
      · exact Or.inl h
      · have := h2 0 (by omega)
        rw [Nat.zero_mul, Nat.add_zero] at this
        exact Or.inr ⟨h1, hm, this⟩
    obtain ⟨line1, hrun1, hlen1, hget1⟩ := onLoad_rows_steps png te pass
      (fun j => decoded_row png te (fop.rows_read + j)) m png.height 0 fop image himg
      (by omega) hrows1 hno1 hend1
    have hno2 : ∀ i, i < n → ∀ t, t + 1 < m →
        png.is_stop (fop.rows_read + m + i * m + t) = false := by
      intro i hi t ht
      have := hno (i + 1) (by omega) t ht
      rw [Nat.succ_mul] at this
      rw [← this]
      congr 1
      omega
    have hend2 : m = png.height ∨
        (0 < m ∧ ∀ i, i < n → png.is_stop (fop.rows_read + m + i * m + (m - 1)) = true) := by
      rcases hend with h | ⟨h1, h2⟩
      · exact Or.inl h
      · refine Or.inr ⟨h1, fun i hi => ?_⟩
        have := h2 (i + 1) (by omega)
        rw [Nat.succ_mul] at this
        rw [← this]
        congr 1
        omega
    obtain ⟨line2, hrun2, hlen2, hget2⟩ := ih (pass + 1)
      { fop with
        rows_read := fop.rows_read + m,
        image := some { image with line := line1 },
        progress := fop.progress ++ (List.range m).map (fun i =>
          Progress.mk pass (0 + i) png.height png.number_passes) }
      { image with line := line1 } rfl (by rw [← hlen]; exact hlen1) hno2 hend2
    refine ⟨line2, ?_, by rw [hlen2]; exact hlen1, fun j => ?_⟩
    · rw [onLoad_passes, hrun1]
      simp only []
      rw [hrun2, progress_range_split]
      simp only [Run.done.injEq, FileOp.mk.injEq, true_and, List.append_assoc]
      rw [Nat.succ_mul]
      omega
    · have h2 : line2.getD j [] =
          if 0 < n ∧ j < m then decoded_row png te (fop.rows_read + m + (n - 1) * m + j)
          else line1.getD j [] := hget2 j
      have h1 : line1.getD j [] =
          if 0 ≤ j ∧ j < 0 + m then decoded_row png te (fop.rows_read + j)
          else image.line.getD j [] := hget1 j
      rw [h2, h1]
      cases n with
      | zero =>
        rw [if_neg (by omega)]
        by_cases hj : j < m
        · rw [if_pos ⟨by omega, by omega⟩, if_pos ⟨by omega, hj⟩]
          simp only [Nat.zero_add, Nat.sub_self, Nat.zero_mul, Nat.add_zero]
        · rw [if_neg (by omega), if_neg (by omega)]
      | succ n2 =>
        by_cases hj : j < m
        · rw [if_pos ⟨by omega, hj⟩, if_pos ⟨by omega, hj⟩]
          congr 1
          simp only [Nat.add_sub_cancel]
          rw [Nat.succ_mul]
          omega
        · rw [if_neg (by omega), if_neg (by omega), if_neg (by omega)]

/-! ## `onLoad` as a whole when every pass handles the same number of rows -/

theorem onLoad_imgtype_supported (color_type : Nat) (fop : FileOp)
    (hct : color_type ∈ [PNG_COLOR_TYPE_RGB, PNG_COLOR_TYPE_RGB_ALPHA, PNG_COLOR_TYPE_GRAY,
      PNG_COLOR_TYPE_GRAY_ALPHA, PNG_COLOR_TYPE_PALETTE]) :
    ∃ imgtype ha, onLoad_imgtype color_type fop = some (imgtype, { fop with has_alpha := ha }) := by
  simp only [List.mem_cons, List.mem_singleton, List.not_mem_nil, or_false] at hct
  rcases hct with rfl | rfl | rfl | rfl | rfl
  · exact ⟨ImgType.IMAGE_RGB, fop.has_alpha, rfl⟩
  · exact ⟨ImgType.IMAGE_RGB, true, rfl⟩
  · exact ⟨ImgType.IMAGE_GRAYSCALE, fop.has_alpha, rfl⟩
  · exact ⟨ImgType.IMAGE_GRAYSCALE, true, rfl⟩
  · exact ⟨ImgType.IMAGE_INDEXED, fop.has_alpha, rfl⟩

theorem onLoad_palette_frame (png : PngReader) (fop : FileOp) :
    (onLoad_palette png fop).1 = (onLoad_palette png fresh_fop).1 ∧
    ∃ ha pal, (onLoad_palette png fop).2 = { fop with has_alpha := ha, palette := pal } := by
  by_cases hct : png.color_type = PNG_COLOR_TYPE_PALETTE
  · cases hpl : png.plte with
    | none =>
      have e : ∀ f : FileOp, onLoad_palette png f = (List.replicate 256 false, f) := by
        intro f
        simp only [onLoad_palette, hct, if_true, hpl]
      rw [e fop, e fresh_fop]
      exact ⟨rfl, fop.has_alpha, fop.palette, rfl⟩
    | some palette =>
      rw [onLoad_palette_of_plte png fop palette hct hpl,
        onLoad_palette_of_plte png fresh_fop palette hct hpl]
      refine ⟨?_, _, _, rfl⟩
      apply List.ext_getElem
      · rw [read_trans_length, read_trans_length]
      · intro n hn1 hn2
        have := read_trans_getD png.trns (List.replicate 256 false) fop n
        rw [← read_trans_getD png.trns (List.replicate 256 false) fresh_fop n,
          List.getD_eq_getElem _ _ hn1, List.getD_eq_getElem _ _ hn2] at this
        exact this
  · rw [onLoad_palette_of_not_palette png fop hct, onLoad_palette_of_not_palette png fresh_fop hct]
    exact ⟨rfl, fop.has_alpha, fop.palette, rfl⟩

theorem onLoad_uniform (png : PngReader) (fop : FileOp)
    (h1 : png.fopen_ok = true) (h2 : png.create_read_struct_ok = true)
    (h3 : png.create_info_struct_ok = true) (h4 : png.read_info_ok = true)
    (hok : png.sequence_image_ok = true)
    (hct : png.color_type ∈ [PNG_COLOR_TYPE_RGB, PNG_COLOR_TYPE_RGB_ALPHA, PNG_COLOR_TYPE_GRAY,
      PNG_COLOR_TYPE_GRAY_ALPHA, PNG_COLOR_TYPE_PALETTE])
    (hrows : ∀ k, ∃ row, png.read_row k = some row ∧
      row.length = png_get_rowbytes png.color_type png.width)
    (m : Nat) (hm : m ≤ png.height)
    (hno : ∀ i, i < png.number_passes → ∀ t, t + 1 < m →
      png.is_stop (fop.rows_read + i * m + t) = false)
    (hend : m = png.height ∨
      (0 < m ∧ ∀ i, i < png.number_passes →
        png.is_stop (fop.rows_read + i * m + (m - 1)) = true)) :
    ∃ fop2 imgtype line2, onLoad png fop = some (true, fop2) ∧
      fop2.rows_read = fop.rows_read + png.number_passes * m ∧
      fop2.progress = fop.progress ++ (List.range (png.number_passes * m)).map (fun k =>
        Progress.mk (k / m) (k % m) png.height png.number_passes) ∧
      fop2.errors = fop.errors ∧
      fop2.image = some (Image.mk imgtype png.width png.height line2) ∧
      line2.length = png.height ∧
      ∀ j, j < png.height → line2.getD j [] =
        if 0 < png.number_passes ∧ j < m then
          decoded_row png (onLoad_palette png fresh_fop).1
            (fop.rows_read + (png.number_passes - 1) * m + j)
        else (List.range png.width).map (fun x => png.image_fill j x) := by
  obtain ⟨imgtype, ha, hty⟩ := onLoad_imgtype_supported png.color_type fop hct
  obtain ⟨hte, ha2, pal, hpal⟩ := onLoad_palette_frame png
    (fop_sequence_image png { fop with has_alpha := ha } imgtype png.width png.height).2
  have hseq : fop_sequence_image png { fop with has_alpha := ha } imgtype png.width png.height =
      (some (Image.mk imgtype png.width png.height ((List.range png.height).map (fun y =>
          (List.range png.width).map (fun x => png.image_fill y x)))),
       FileOp.mk ha (some (Image.mk imgtype png.width png.height
          ((List.range png.height).map (fun y =>
            (List.range png.width).map (fun x => png.image_fill y x)))))
          fop.palette fop.errors fop.progress (fop.image_requests + 1) fop.rows_read) := by
    simp only [fop_sequence_image, hok, if_true]
  rw [hseq] at hte hpal
  simp only [] at hte hpal
  obtain ⟨line2, hrun, hlen2, hget2⟩ := onLoad_passes_uniform png (onLoad_palette png fresh_fop).1
    hct hrows m png.number_passes 0
    (FileOp.mk ha2 (some (Image.mk imgtype png.width png.height
          ((List.range png.height).map (fun y =>
            (List.range png.width).map (fun x => png.image_fill y x)))))
          pal fop.errors fop.progress (fop.image_requests + 1) fop.rows_read)
    (Image.mk imgtype png.width png.height ((List.range png.height).map (fun y =>
          (List.range png.width).map (fun x => png.image_fill y x))))
    rfl (by simp) hm hno hend
  refine ⟨FileOp.mk ha2 (some (Image.mk imgtype png.width png.height line2)) pal fop.errors
      (fop.progress ++ (List.range (png.number_passes * m)).map (fun k =>
        Progress.mk (k / m) (k % m) png.height png.number_passes))
      (fop.image_requests + 1) (fop.rows_read + png.number_passes * m),
    imgtype, line2, ?_, ?_, ?_, ?_, ?_, ?_, ?_⟩
  · rw [onLoad_eq_of_setup png fop h1 h2 h3 h4, hty]
    simp only [hseq, hte, hpal, hrun, Nat.zero_add]
  · rfl
  · rfl
  · rfl
  · rfl
  · rw [hlen2]
    simp
  · intro j hj
    rw [hget2 j]
    by_cases hc : 0 < png.number_passes ∧ j < m
    · rw [if_pos hc, if_pos hc]
    · rw [if_neg hc, if_neg hc]
      show ((List.range png.height).map (fun y =>
          (List.range png.width).map (fun x => png.image_fill y x))).getD j [] = _
      rw [List.getD_eq_getElem _ _ (by simpa using hj)]
      simp

/-! ## The `float` arithmetic of the progress value -/

theorem round_half_even_intCast (n : ℤ) : round_half_even (n : ℚ) = n := by
  unfold round_half_even
  rw [Int.floor_intCast, sub_self, if_pos (by norm_num)]

theorem round_half_even_floor_le (x : ℚ) : ⌊x⌋ ≤ round_half_even x := by
  unfold round_half_even
  split
  · exact le_refl _
  · split
    · omega
    · split <;> omega

theorem round_half_even_le_floor_succ (x : ℚ) : round_half_even x ≤ ⌊x⌋ + 1 := by
  unfold round_half_even
  split
  · omega
  · split
    · omega
    · split <;> omega

theorem round_half_even_mono {x y : ℚ} (h : x ≤ y) : round_half_even x ≤ round_half_even y := by
  have hf : ⌊x⌋ ≤ ⌊y⌋ := Int.floor_mono h
  rcases lt_or_eq_of_le hf with hlt | heq
  · calc round_half_even x ≤ ⌊x⌋ + 1 := round_half_even_le_floor_succ x
      _ ≤ ⌊y⌋ := hlt
      _ ≤ round_half_even y := round_half_even_floor_le y
  · have hr : x - ⌊x⌋ ≤ y - ⌊y⌋ := by rw [heq]; linarith
    unfold round_half_even
    rw [heq]
    rw [heq] at hr
    by_cases h1 : x - (⌊y⌋ : ℚ) < 1 / 2
    · rw [if_pos h1]
      split
      · exact le_refl _
      · split
        · omega
        · split <;> omega
    · rw [if_neg h1]
      have h1y : ¬ y - (⌊y⌋ : ℚ) < 1 / 2 := fun hc => h1 (lt_of_le_of_lt hr hc)
      rw [if_neg h1y]
      by_cases h2 : 1 / 2 < x - (⌊y⌋ : ℚ)
      · rw [if_pos h2, if_pos (lt_of_lt_of_le h2 hr)]
      · rw [if_neg h2]
        by_cases h2y : 1 / 2 < y - (⌊y⌋ : ℚ)
        · rw [if_pos h2y]
          split <;> omega
        · rw [if_neg h2y]

theorem int_log_two_eq {x : ℚ} (e : ℤ) (h1 : (2 : ℚ) ^ e ≤ x) (h2 : x < (2 : ℚ) ^ (e + 1)) :
    Int.log 2 x = e := by
  have hx : 0 < x := lt_of_lt_of_le (by positivity) h1
  apply le_antisymm
  · have h3 : Int.log 2 x < e + 1 := by
      rw [← Int.lt_zpow_iff_log_lt (by norm_num) hx]
      simpa using h2
    omega
  · rw [← Int.zpow_le_iff_le_log (by norm_num) hx]
    simpa using h1

theorem int_log_two_spec {x : ℚ} (hx : 0 < x) :
    (2 : ℚ) ^ Int.log 2 x ≤ x ∧ x < (2 : ℚ) ^ (Int.log 2 x + 1) := by
  constructor
  · simpa using Int.zpow_log_le_self (b := 2) (by norm_num) hx
  · simpa using Int.lt_zpow_succ_log_self (b := 2) (by norm_num) x

theorem round_binary32_eval {x : ℚ} (e m : ℤ) (h1 : (2 : ℚ) ^ e ≤ x) (h2 : x < (2 : ℚ) ^ (e + 1))
    (hm : round_half_even (x * 2 ^ (23 - e)) = m) :
    round_binary32 x = (m : ℚ) * 2 ^ (e - 23) := by
  unfold round_binary32
  rw [int_log_two_eq e h1 h2, hm]

theorem scaled_bounds {x : ℚ} (e : ℤ) (h1 : (2 : ℚ) ^ e ≤ x) (h2 : x < (2 : ℚ) ^ (e + 1)) :
    (2 : ℚ) ^ (23 : ℕ) ≤ x * 2 ^ (23 - e) ∧ x * 2 ^ (23 - e) ≤ (2 : ℚ) ^ (24 : ℕ) := by
  have hp : (0 : ℚ) < 2 ^ (23 - e) := by positivity
  constructor
  · calc (2 : ℚ) ^ (23 : ℕ) = 2 ^ e * 2 ^ (23 - e) := by
          rw [← zpow_add₀ (by norm_num)]
          have : e + (23 - e) = ((23 : ℕ) : ℤ) := by push_cast; ring
          rw [this, zpow_natCast]
      _ ≤ x * 2 ^ (23 - e) := mul_le_mul_of_nonneg_right h1 (le_of_lt hp)
  · calc x * 2 ^ (23 - e) ≤ 2 ^ (e + 1) * 2 ^ (23 - e) :=
          mul_le_mul_of_nonneg_right (le_of_lt h2) (le_of_lt hp)
      _ = (2 : ℚ) ^ (24 : ℕ) := by
          rw [← zpow_add₀ (by norm_num)]
          have : e + 1 + (23 - e) = ((24 : ℕ) : ℤ) := by push_cast; ring
          rw [this, zpow_natCast]

theorem round_binary32_bounds {x : ℚ} (hx : 0 < x) :
    ∃ M : ℕ, 2 ^ 23 ≤ M ∧ M ≤ 2 ^ 24 ∧
      round_binary32 x = (M : ℚ) * 2 ^ (Int.log 2 x - 23) := by
  obtain ⟨h1, h2⟩ := int_log_two_spec hx
  obtain ⟨b1, b2⟩ := scaled_bounds _ h1 h2
  have r1 : ((2 ^ 23 : ℕ) : ℤ) ≤ round_half_even (x * 2 ^ (23 - Int.log 2 x)) := by
    have := round_half_even_mono b1
    have e : ((2 : ℚ) ^ (23 : ℕ)) = (((2 ^ 23 : ℕ) : ℤ) : ℚ) := by norm_num
    rw [e, round_half_even_intCast] at this
    exact this
  have r2 : round_half_even (x * 2 ^ (23 - Int.log 2 x)) ≤ ((2 ^ 24 : ℕ) : ℤ) := by
    have := round_half_even_mono b2
    have e : ((2 : ℚ) ^ (24 : ℕ)) = (((2 ^ 24 : ℕ) : ℤ) : ℚ) := by norm_num
    rw [e, round_half_even_intCast] at this
    exact this
  refine ⟨(round_half_even (x * 2 ^ (23 - Int.log 2 x))).toNat, ?_, ?_, ?_⟩
  · omega
  · omega
  · unfold round_binary32
    have hnn : 0 ≤ round_half_even (x * 2 ^ (23 - Int.log 2 x)) := by omega
    have : (((round_half_even (x * 2 ^ (23 - Int.log 2 x))).toNat : ℕ) : ℚ)
        = ((round_half_even (x * 2 ^ (23 - Int.log 2 x)) : ℤ) : ℚ) := by
      rw [← Int.cast_natCast, Int.toNat_of_nonneg hnn]
    rw [this]

theorem round_binary32_range {x : ℚ} (hx : 0 < x) :
    (2 : ℚ) ^ Int.log 2 x ≤ round_binary32 x ∧ round_binary32 x ≤ (2 : ℚ) ^ (Int.log 2 x + 1) := by
  obtain ⟨M, m1, m2, hM⟩ := round_binary32_bounds hx
  rw [hM]
  have hp : (0 : ℚ) < 2 ^ (Int.log 2 x - 23) := by positivity
  have c1 : ((2 : ℚ) ^ (23 : ℕ)) ≤ (M : ℚ) := by exact_mod_cast m1
  have c2 : (M : ℚ) ≤ ((2 : ℚ) ^ (24 : ℕ)) := by exact_mod_cast m2
  constructor
  · calc (2 : ℚ) ^ Int.log 2 x = 2 ^ (23 : ℕ) * 2 ^ (Int.log 2 x - 23) := by
          rw [← zpow_natCast, ← zpow_add₀ (by norm_num)]
          congr 1
          push_cast
          ring
      _ ≤ (M : ℚ) * 2 ^ (Int.log 2 x - 23) := mul_le_mul_of_nonneg_right c1 (le_of_lt hp)
  · calc (M : ℚ) * 2 ^ (Int.log 2 x - 23) ≤ 2 ^ (24 : ℕ) * 2 ^ (Int.log 2 x - 23) :=
          mul_le_mul_of_nonneg_right c2 (le_of_lt hp)
      _ = (2 : ℚ) ^ (Int.log 2 x + 1) := by
          rw [← zpow_natCast, ← zpow_add₀ (by norm_num)]
          congr 1
          push_cast
          ring

theorem round_binary32_pos {x : ℚ} (hx : 0 < x) : 0 < round_binary32 x :=
  lt_of_lt_of_le (by positivity) (round_binary32_range hx).1

theorem round_binary32_mono {x y : ℚ} (hx : 0 < x) (h : x ≤ y) :
    round_binary32 x ≤ round_binary32 y := by
  have hy : 0 < y := lt_of_lt_of_le hx h
  have hl : Int.log 2 x ≤ Int.log 2 y := Int.log_mono_right hx h
  rcases lt_or_eq_of_le hl with hlt | heq
  · calc round_binary32 x ≤ (2 : ℚ) ^ (Int.log 2 x + 1) := (round_binary32_range hx).2
      _ ≤ (2 : ℚ) ^ Int.log 2 y := zpow_le_zpow_right₀ (by norm_num) (by omega)
      _ ≤ round_binary32 y := (round_binary32_range hy).1
  · unfold round_binary32
    rw [heq]
    have hp : (0 : ℚ) < 2 ^ (Int.log 2 y - 23) := by positivity
    have hq : (0 : ℚ) < 2 ^ (23 - Int.log 2 y) := by positivity
    apply mul_le_mul_of_nonneg_right _ (le_of_lt hp)
    exact_mod_cast round_half_even_mono (mul_le_mul_of_nonneg_right h (le_of_lt hq))

theorem round_binary32_repr_lt (n : ℕ) (k : ℤ) (hn0 : 0 < n) (hn : n < 2 ^ 24) :
    round_binary32 ((n : ℚ) * 2 ^ k) = (n : ℚ) * 2 ^ k := by
  have hj1 : 2 ^ Nat.log 2 n ≤ n := Nat.pow_log_le_self 2 (by omega)
  have hj2 : n < 2 ^ (Nat.log 2 n + 1) := Nat.lt_pow_succ_log_self (by norm_num) n
  have hj : Nat.log 2 n ≤ 23 := by
    by_contra hc
    have : 2 ^ 24 ≤ 2 ^ Nat.log 2 n := Nat.pow_le_pow_right (by norm_num) (by omega)
    omega
  generalize Nat.log 2 n = j at hj1 hj2 hj
  have hp : (0 : ℚ) < 2 ^ k := by positivity
  have h1 : (2 : ℚ) ^ ((j : ℤ) + k) ≤ (n : ℚ) * 2 ^ k := by
    rw [zpow_add₀ (by norm_num), zpow_natCast]
    exact mul_le_mul_of_nonneg_right (by exact_mod_cast hj1) (le_of_lt hp)
  have h2 : (n : ℚ) * 2 ^ k < (2 : ℚ) ^ ((j : ℤ) + k + 1) := by
    have e : (j : ℤ) + k + 1 = ((j + 1 : ℕ) : ℤ) + k := by push_cast; ring
    rw [e, zpow_add₀ (by norm_num), zpow_natCast]
    exact mul_lt_mul_of_pos_right (by exact_mod_cast hj2) hp
  have hs : (n : ℚ) * 2 ^ k * 2 ^ (23 - ((j : ℤ) + k)) = (((n * 2 ^ (23 - j) : ℕ) : ℤ) : ℚ) := by
    push_cast
    rw [mul_assoc, ← zpow_add₀ (by norm_num)]
    have e : k + (23 - ((j : ℤ) + k)) = ((23 - j : ℕ) : ℤ) := by
      rw [Nat.cast_sub hj]
      push_cast
      ring
    rw [e, zpow_natCast]
  rw [round_binary32_eval _ _ h1 h2 (by rw [hs, round_half_even_intCast])]
  push_cast
  rw [mul_assoc, ← zpow_natCast, ← zpow_add₀ (by norm_num)]
  have e : ((23 - j : ℕ) : ℤ) + ((j : ℤ) + k - 23) = k := by
    rw [Nat.cast_sub hj]
    push_cast
    ring
  rw [e]

theorem round_binary32_repr (n : ℕ) (k : ℤ) (hn0 : 0 < n) (hn : n ≤ 2 ^ 24) :
    round_binary32 ((n : ℚ) * 2 ^ k) = (n : ℚ) * 2 ^ k := by
  rcases lt_or_eq_of_le hn with hlt | heq
  · exact round_binary32_repr_lt n k hn0 hlt
  · have e : (n : ℚ) * 2 ^ k = ((2 ^ 23 : ℕ) : ℚ) * 2 ^ (k + 1) := by
      rw [heq, zpow_add₀ (by norm_num)]
      push_cast
      ring
    rw [e]
    exact round_binary32_repr_lt (2 ^ 23) (k + 1) (by norm_num) (by norm_num)

theorem to_float_zero : to_float 0 = 0 := by
  simp [to_float]

theorem to_float_of_pos {x : ℚ} (hx : 0 < x) : to_float x = round_binary32 x := by
  simp [to_float, hx]

theorem to_float_pos {x : ℚ} (hx : 0 < x) : 0 < to_float x := by
  rw [to_float_of_pos hx]
  exact round_binary32_pos hx

theorem to_float_mono {x y : ℚ} (hx : 0 ≤ x) (h : x ≤ y) : to_float x ≤ to_float y := by
  rcases lt_or_eq_of_le hx with hlt | heq
  · rw [to_float_of_pos hlt, to_float_of_pos (lt_of_lt_of_le hlt h)]
    exact round_binary32_mono hlt h
  · rw [← heq, to_float_zero]
    rcases lt_or_eq_of_le (le_trans hx h) with hy | hy
    · exact le_of_lt (to_float_pos hy)
    · rw [← hy, to_float_zero]

theorem to_float_repr (n : ℕ) (k : ℤ) (hn : n ≤ 2 ^ 24) :
    to_float ((n : ℚ) * 2 ^ k) = (n : ℚ) * 2 ^ k := by
  rcases Nat.eq_zero_or_pos n with h0 | hpos
  · rw [h0]
    simp [to_float_zero]
  · have hp : (0 : ℚ) < (n : ℚ) * 2 ^ k := by positivity
    rw [to_float_of_pos hp]
    exact round_binary32_repr n k hpos hn

theorem to_float_natCast (n : ℕ) (hn : n ≤ 2 ^ 24) : to_float (n : ℚ) = (n : ℚ) := by
  have := to_float_repr n 0 hn
  simpa using this

theorem to_float_one : to_float 1 = 1 := by
  have := to_float_natCast 1 (by norm_num)
  simpa using this

theorem round_half_even_eval {x : ℚ} (m : ℤ) (h1 : (m : ℚ) - 1 / 2 < x)
    (h2 : x < (m : ℚ) + 1 / 2) : round_half_even x = m := by
  by_cases hc : (m : ℚ) ≤ x
  · have hf : ⌊x⌋ = m := by
      rw [Int.floor_eq_iff]
      exact ⟨hc, by linarith⟩
    unfold round_half_even
    rw [hf, if_pos (by linarith)]
  · have hf : ⌊x⌋ = m - 1 := by
      rw [Int.floor_eq_iff]
      push_cast
      exact ⟨by linarith, by linarith⟩
    unfold round_half_even
    rw [hf]
    push_cast
    rw [if_neg (by linarith), if_pos (by linarith)]
    ring

theorem to_float_eval {x : ℚ} (e m : ℤ) (h1 : (2 : ℚ) ^ e ≤ x) (h2 : x < (2 : ℚ) ^ (e + 1))
    (h3 : (m : ℚ) - 1 / 2 < x * 2 ^ (23 - e)) (h4 : x * 2 ^ (23 - e) < (m : ℚ) + 1 / 2) :
    to_float x = (m : ℚ) * 2 ^ (e - 23) := by
  rw [to_float_of_pos (lt_of_lt_of_le (by positivity) h1)]
  exact round_binary32_eval e m h1 h2 (round_half_even_eval m h3 h4)

theorem to_float_idem {x : ℚ} (hx : 0 ≤ x) : to_float (to_float x) = to_float x := by
  rcases lt_or_eq_of_le hx with hlt | heq
  · rw [to_float_of_pos hlt]
    obtain ⟨M, _, m2, hM⟩ := round_binary32_bounds hlt
    rw [hM]
    exact to_float_repr M _ m2
  · rw [← heq, to_float_zero, to_float_zero]

theorem to_float_nonneg {x : ℚ} (hx : 0 ≤ x) : 0 ≤ to_float x := by
  have := to_float_mono (le_refl (0 : ℚ)) hx
  rwa [to_float_zero] at this

theorem row_fraction_range (y h : ℕ) (hy : y < h) :
    0 < to_float (to_float ((y + 1 : ℕ) : ℚ) / to_float (h : ℚ)) ∧
    to_float (to_float ((y + 1 : ℕ) : ℚ) / to_float (h : ℚ)) ≤ 1 := by
  have ha : 0 < to_float ((y + 1 : ℕ) : ℚ) := to_float_pos (by positivity)
  have hab : to_float ((y + 1 : ℕ) : ℚ) ≤ to_float (h : ℚ) :=
    to_float_mono (by positivity) (by exact_mod_cast hy)
  have hb : 0 < to_float (h : ℚ) := lt_of_lt_of_le ha hab
  constructor
  · exact to_float_pos (div_pos ha hb)
  · have := to_float_mono (le_of_lt (div_pos ha hb)) ((div_le_one hb).mpr hab)
    rwa [to_float_one] at this

theorem row_fraction_mono (y y2 h : ℕ) (hyy : y ≤ y2) :
    to_float (to_float ((y + 1 : ℕ) : ℚ) / to_float (h : ℚ)) ≤
    to_float (to_float ((y2 + 1 : ℕ) : ℚ) / to_float (h : ℚ)) := by
  have ha : 0 ≤ to_float ((y + 1 : ℕ) : ℚ) := to_float_nonneg (by positivity)
  have hb : 0 ≤ to_float (h : ℚ) := to_float_nonneg (by positivity)
  have hab : to_float ((y + 1 : ℕ) : ℚ) ≤ to_float ((y2 + 1 : ℕ) : ℚ) :=
    to_float_mono (by positivity) (by exact_mod_cast Nat.succ_le_succ hyy)
  exact to_float_mono (div_nonneg ha hb) (div_le_div_of_nonneg_right hab hb)

theorem pass_sum_range (p : ℕ) (t : ℚ) (hp : p < 2 ^ 24) (ht0 : 0 < t) (ht1 : t ≤ 1) :
    0 < to_float (to_float (p : ℚ) + t) ∧ (p : ℚ) ≤ to_float (to_float (p : ℚ) + t) ∧
    to_float (to_float (p : ℚ) + t) ≤ (p : ℚ) + 1 := by
  rw [to_float_natCast p (le_of_lt hp)]
  have hp0 : (0 : ℚ) ≤ (p : ℚ) := by positivity
  refine ⟨to_float_pos (by linarith), ?_, ?_⟩
  · have := to_float_mono hp0 (show (p : ℚ) ≤ (p : ℚ) + t by linarith)
    rwa [to_float_natCast p (le_of_lt hp)] at this
  · have := to_float_mono (show (0 : ℚ) ≤ (p : ℚ) + t by linarith)
      (show (p : ℚ) + t ≤ ((p + 1 : ℕ) : ℚ) by push_cast; linarith)
    rw [to_float_natCast (p + 1) hp] at this
    exact_mod_cast this

theorem Progress.value_range (p y h P : ℕ) (hy : y < h) (hp : p < P) (hP : P ≤ 2 ^ 24) :
    0 < (Progress.mk p y h P).value ∧ (Progress.mk p y h P).value ≤ 1 := by
  obtain ⟨t0, t1⟩ := row_fraction_range y h hy
  obtain ⟨s0, _, s2⟩ := pass_sum_range p _ (by omega) t0 t1
  have hPq : (0 : ℚ) < (P : ℚ) := by exact_mod_cast (show 0 < P by omega)
  show 0 < to_float (_ / to_float (P : ℚ)) ∧ to_float (_ / to_float (P : ℚ)) ≤ 1
  rw [to_float_natCast P hP]
  constructor
  · exact to_float_pos (div_pos s0 hPq)
  · have hle : to_float (to_float (p : ℚ) +
        to_float (to_float ((y + 1 : ℕ) : ℚ) / to_float (h : ℚ))) / (P : ℚ) ≤ 1 := by
      rw [div_le_one hPq]
      have : ((p + 1 : ℕ) : ℚ) ≤ (P : ℚ) := by exact_mod_cast hp
      push_cast at this
      linarith
    have := to_float_mono (le_of_lt (div_pos s0 hPq)) hle
    rwa [to_float_one] at this

theorem Progress.value_mono (p y p2 y2 h P : ℕ) (hy : y < h) (hy2 : y2 < h) (hp2 : p2 < P)
    (hP : P ≤ 2 ^ 24) (hle : p < p2 ∨ (p = p2 ∧ y ≤ y2)) :
    (Progress.mk p y h P).value ≤ (Progress.mk p2 y2 h P).value := by
  obtain ⟨t0, t1⟩ := row_fraction_range y h hy
  obtain ⟨u0, u1⟩ := row_fraction_range y2 h hy2
  have hPq : (0 : ℚ) ≤ to_float (P : ℚ) := to_float_nonneg (by positivity)
  show to_float (_ / to_float (P : ℚ)) ≤ to_float (_ / to_float (P : ℚ))
  rcases hle with hlt | ⟨heq, hyy⟩
  · obtain ⟨s0, _, s2⟩ := pass_sum_range p _ (by omega) t0 t1
    obtain ⟨_, r1, _⟩ := pass_sum_range p2 _ (by omega) u0 u1
    have hpp : ((p + 1 : ℕ) : ℚ) ≤ (p2 : ℚ) := by exact_mod_cast hlt
    push_cast at hpp
    exact to_float_mono (div_nonneg (le_of_lt s0) hPq)
      (div_le_div_of_nonneg_right (by linarith) hPq)
  · subst heq
    obtain ⟨s0, _, _⟩ := pass_sum_range p _ (by omega) t0 t1
    have hp0 : (0 : ℚ) ≤ to_float (p : ℚ) := to_float_nonneg (by positivity)
    refine to_float_mono (div_nonneg (le_of_lt s0) hPq) (div_le_div_of_nonneg_right ?_ hPq)
    exact to_float_mono (by linarith)
      (add_le_add_left (row_fraction_mono y y2 h hyy) _)

theorem Progress.value_last (h P : ℕ) (hh : 0 < h) (hP0 : 0 < P) (hP : P ≤ 2 ^ 24) :
    (Progress.mk (P - 1) (h - 1) h P).value = 1 := by
  have hb : 0 < to_float (h : ℚ) := to_float_pos (by exact_mod_cast hh)
  have hPq : (0 : ℚ) < (P : ℚ) := by exact_mod_cast hP0
  show to_float (to_float (to_float ((P - 1 : ℕ) : ℚ) +
      to_float (to_float ((h - 1 + 1 : ℕ) : ℚ) / to_float (h : ℚ))) / to_float (P : ℚ)) = 1
  rw [Nat.sub_add_cancel hh, div_self (ne_of_gt hb), to_float_one,
    to_float_natCast (P - 1) (by omega), to_float_natCast P hP]
  have e : ((P - 1 : ℕ) : ℚ) + 1 = ((P : ℕ) : ℚ) := by
    rw [Nat.cast_sub hP0]
    push_cast
    ring
  rw [e, to_float_natCast P hP, div_self (ne_of_gt hPq), to_float_one]

theorem to_float_dyadic (n : ℕ) (k : ℕ) (hn : n ≤ 2 ^ 24) :
    to_float ((n : ℚ) / 2 ^ k) = (n : ℚ) / 2 ^ k := by
  have e : (n : ℚ) / 2 ^ k = (n : ℚ) * 2 ^ (-(k : ℤ)) := by
    rw [zpow_neg, zpow_natCast, div_eq_mul_inv]
  rw [e]
  exact to_float_repr n _ hn

theorem Progress.value_lt_one (p y h P : ℕ) (hy : y < h) (hp : p < P) (hh : h ≤ 2 ^ 21)
    (hP : P ≤ 8) (hne : p + 1 < P ∨ y + 1 < h) :
    (Progress.mk p y h P).value < 1 := by
  obtain ⟨t0, t1⟩ := row_fraction_range y h hy
  obtain ⟨s0, _, s2⟩ := pass_sum_range p _ (by omega) t0 t1
  have hPq : (0 : ℚ) < (P : ℚ) := by exact_mod_cast (show 0 < P by omega)
  have hP8 : (P : ℚ) ≤ 8 := by exact_mod_cast hP
  show to_float (to_float (to_float (p : ℚ) +
      to_float (to_float ((y + 1 : ℕ) : ℚ) / to_float (h : ℚ))) / to_float (P : ℚ)) < 1
  rw [to_float_natCast P (by omega)]
  by_cases hc : p + 1 < P
  · have hpp : ((p + 1 + 1 : ℕ) : ℚ) ≤ (P : ℚ) := by exact_mod_cast hc
    push_cast at hpp
    have hle : to_float (to_float (p : ℚ) +
        to_float (to_float ((y + 1 : ℕ) : ℚ) / to_float (h : ℚ))) / (P : ℚ) ≤
        ((7 : ℕ) : ℚ) / 2 ^ 3 := by
      rw [div_le_iff₀ hPq]
      generalize to_float (to_float (p : ℚ) +
        to_float (to_float ((y + 1 : ℕ) : ℚ) / to_float (h : ℚ))) = S at s2
      norm_num
      linarith
    have := to_float_mono (le_of_lt (div_pos s0 hPq)) hle
    rw [to_float_dyadic 7 3 (by norm_num)] at this
    refine lt_of_le_of_lt this ?_
    norm_num
  · have hy1 : y + 1 < h := by omega
    have hpP : p + 1 = P := by omega
    have hhq : (0 : ℚ) < (h : ℚ) := by exact_mod_cast (show 0 < h by omega)
    have hh21 : (h : ℚ) ≤ 2097152 := by exact_mod_cast hh
    have hyq : ((y + 1 + 1 : ℕ) : ℚ) ≤ (h : ℚ) := by exact_mod_cast hy1
    have ht : to_float (to_float ((y + 1 : ℕ) : ℚ) / to_float (h : ℚ)) ≤
        ((2097151 : ℕ) : ℚ) / 2 ^ 21 := by
      rw [to_float_natCast (y + 1) (by omega), to_float_natCast h (by omega)]
      have hle : ((y + 1 : ℕ) : ℚ) / (h : ℚ) ≤ ((2097151 : ℕ) : ℚ) / 2 ^ 21 := by
        rw [div_le_iff₀ hhq]
        push_cast at hyq ⊢
        norm_num
        linarith
      have := to_float_mono (by positivity) hle
      rwa [to_float_dyadic 2097151 21 (by norm_num)] at this
    have hs : to_float (to_float (p : ℚ) +
        to_float (to_float ((y + 1 : ℕ) : ℚ) / to_float (h : ℚ))) ≤
        ((p * 2097152 + 2097151 : ℕ) : ℚ) / 2 ^ 21 := by
      rw [to_float_natCast p (by omega)]
      have hle : (p : ℚ) + to_float (to_float ((y + 1 : ℕ) : ℚ) / to_float (h : ℚ)) ≤
          ((p * 2097152 + 2097151 : ℕ) : ℚ) / 2 ^ 21 := by
        have e : ((p * 2097152 + 2097151 : ℕ) : ℚ) / 2 ^ 21 =
            (p : ℚ) + ((2097151 : ℕ) : ℚ) / 2 ^ 21 := by
          push_cast
          ring
        rw [e]
        linarith
      have := to_float_mono (by positivity) hle
      rwa [to_float_dyadic (p * 2097152 + 2097151) 21 (by omega)] at this
    have hle : to_float (to_float (p : ℚ) +
        to_float (to_float ((y + 1 : ℕ) : ℚ) / to_float (h : ℚ))) / (P : ℚ) ≤
        ((16777215 : ℕ) : ℚ) / 2 ^ 24 := by
      rw [div_le_iff₀ hPq]
      have hPe : (P : ℚ) = (p : ℚ) + 1 := by
        rw [← hpP]
        push_cast
        rfl
      generalize to_float (to_float (p : ℚ) +
        to_float (to_float ((y + 1 : ℕ) : ℚ) / to_float (h : ℚ))) = S at hs
      rw [hPe] at hP8 ⊢
      have hp0 : (0 : ℚ) ≤ (p : ℚ) := by positivity
      push_cast at hs
      norm_num at hs ⊢
      linarith
    have := to_float_mono (le_of_lt (div_pos s0 hPq)) hle
    rw [to_float_dyadic 16777215 24 (by norm_num)] at this
    refine lt_of_le_of_lt this ?_
    norm_num

theorem Progress.value_single_pass (y h : ℕ) :
    (Progress.mk 0 y h 1).value =
      to_float (to_float ((y + 1 : ℕ) : ℚ) / to_float (h : ℚ)) := by
  have ha : 0 ≤ to_float ((y + 1 : ℕ) : ℚ) := to_float_nonneg (by positivity)
  have hb : 0 ≤ to_float (h : ℚ) := to_float_nonneg (by positivity)
  show to_float (to_float (to_float ((0 : ℕ) : ℚ) +
      to_float (to_float ((y + 1 : ℕ) : ℚ) / to_float (h : ℚ))) / to_float ((1 : ℕ) : ℚ)) = _
  rw [to_float_natCast 0 (by norm_num), to_float_natCast 1 (by norm_num), Nat.cast_zero,
    Nat.cast_one, zero_add, div_one, to_float_idem (div_nonneg ha hb),
    to_float_idem (div_nonneg ha hb)]

theorem progress_index (h P k : ℕ) (hk : k < P * h) : k / h < P ∧ k % h < h := by
  have hh : 0 < h := by
    rcases Nat.eq_zero_or_pos h with h0 | hpos
    · rw [h0, Nat.mul_zero] at hk
      omega
    · exact hpos
  exact ⟨Nat.div_lt_of_lt_mul (by rwa [Nat.mul_comm] at hk), Nat.mod_lt _ hh⟩

theorem progress_values_uniform (h P : ℕ) (hh : 0 < h) (hP0 : 0 < P) (hP : P ≤ 2 ^ 24) :
    List.Pairwise (fun a b => a ≤ b)
      ((List.range (P * h)).map (fun k => (Progress.mk (k / h) (k % h) h P).value)) ∧
    (∀ v ∈ (List.range (P * h)).map (fun k => (Progress.mk (k / h) (k % h) h P).value),
      0 < v ∧ v ≤ 1) ∧
    ((List.range (P * h)).map (fun k => (Progress.mk (k / h) (k % h) h P).value)).getLast? =
      some 1 ∧
    (h ≤ 2 ^ 21 → P ≤ 8 → ∀ k, k + 1 < P * h →
      ((List.range (P * h)).map (fun k => (Progress.mk (k / h) (k % h) h P).value)).getD k 0
        < 1) := by
  refine ⟨?_, ?_, ?_, ?_⟩
  · rw [List.pairwise_map]
    refine List.Pairwise.imp_of_mem ?_ (List.pairwise_lt_range (P * h))
    intro i j _ hj hij
    have hj2 := progress_index h P j (List.mem_range.mp hj)
    have hi2 := progress_index h P i (lt_trans hij (List.mem_range.mp hj))
    apply Progress.value_mono _ _ _ _ _ _ hi2.2 hj2.2 hj2.1 hP
    have hd : i / h ≤ j / h := Nat.div_le_div_right (le_of_lt hij)
    rcases lt_or_eq_of_le hd with hlt | heq
    · exact Or.inl hlt
    · refine Or.inr ⟨heq, ?_⟩
      have ei := Nat.div_add_mod i h
      have ej := Nat.div_add_mod j h
      rw [heq] at ei
      generalize h * (j / h) = c at ei ej
      omega
  · intro v hv
    obtain ⟨k, hk, rfl⟩ := List.mem_map.mp hv
    have hk2 := progress_index h P k (List.mem_range.mp hk)
    exact Progress.value_range _ _ _ _ hk2.2 hk2.1 hP
  · obtain ⟨n, hn⟩ : ∃ n, P * h = n + 1 := ⟨P * h - 1, by
      have : 0 < P * h := Nat.mul_pos hP0 hh
      omega⟩
    have hdm : n / h = P - 1 ∧ n % h = h - 1 := by
      rw [Nat.div_mod_unique hh]
      refine ⟨?_, by omega⟩
      have e : P * h = h * (P - 1) + h := by
        rw [← Nat.mul_succ, Nat.succ_eq_add_one, Nat.sub_add_cancel hP0, Nat.mul_comm]
      omega
    rw [hn, List.range_succ, List.map_append, List.map_singleton, List.getLast?_append]
    simp only [List.getLast?_singleton]
    rw [hdm.1, hdm.2, Progress.value_last h P hh hP0 hP]
    rfl
  · intro hh21 hP8 k hk
    have hk1 : k < P * h := by omega
    have hk2 := progress_index h P k hk1
    rw [List.getD_eq_getElem _ _ (by simpa using hk1)]
    simp only [List.getElem_map, List.getElem_range]
    apply Progress.value_lt_one _ _ _ _ hk2.2 hk2.1 hh21 hP8
    by_contra hc
    have e1 : k / h + 1 = P := by omega
    have e2 : k % h + 1 = h := by omega
    have ek := Nat.div_add_mod k h
    have e : P * h = h * (k / h) + h := by
      rw [← e1, Nat.add_mul, Nat.one_mul, Nat.mul_comm]
    generalize h * (k / h) = c at ek e
    omega

theorem to_float_one_third : to_float (1 / 3) = 11184811 / 33554432 := by
  rw [to_float_eval (-2) 11184811] <;> norm_num

theorem to_float_two_thirds : to_float (2 / 3) = 11184811 / 16777216 := by
  rw [to_float_eval (-1) 11184811] <;> norm_num

theorem Progress.value_single_pass_3 :
    (List.range 3).map (fun y => (Progress.mk 0 y 3 1).value) =
      [11184811 / 33554432, 11184811 / 16777216, 1] := by
  show [(Progress.mk 0 0 3 1).value, (Progress.mk 0 1 3 1).value, (Progress.mk 0 2 3 1).value] = _
  rw [Progress.value_single_pass, Progress.value_single_pass, Progress.value_single_pass]
  simp only [to_float_natCast _ (show 0 + 1 ≤ 2 ^ 24 by norm_num),
    to_float_natCast _ (show 1 + 1 ≤ 2 ^ 24 by norm_num),
    to_float_natCast _ (show 2 + 1 ≤ 2 ^ 24 by norm_num),
    to_float_natCast _ (show 3 ≤ 2 ^ 24 by norm_num)]
  have e0 : (((0 + 1 : ℕ) : ℚ) / ((3 : ℕ) : ℚ)) = 1 / 3 := by norm_num
  have e1 : (((1 + 1 : ℕ) : ℚ) / ((3 : ℕ) : ℚ)) = 2 / 3 := by norm_num
  have e2 : (((2 + 1 : ℕ) : ℚ) / ((3 : ℕ) : ℚ)) = 1 := by norm_num
  rw [e0, e1, e2, to_float_one_third, to_float_two_thirds, to_float_one]

theorem Progress.value_3_7_pass0 :
    (Progress.mk 0 0 3 7).value = 12782641 / 268435456 := by
  show to_float (to_float (to_float ((0 : ℕ) : ℚ) +
      to_float (to_float ((1 : ℕ) : ℚ) / to_float ((3 : ℕ) : ℚ))) /
    to_float ((7 : ℕ) : ℚ)) = _
  simp only [to_float_natCast _ (show 0 ≤ 2 ^ 24 by norm_num),
    to_float_natCast _ (show 1 ≤ 2 ^ 24 by norm_num),
    to_float_natCast _ (show 3 ≤ 2 ^ 24 by norm_num),
    to_float_natCast _ (show 7 ≤ 2 ^ 24 by norm_num)]
  have e0 : (((1 : ℕ) : ℚ) / ((3 : ℕ) : ℚ)) = 1 / 3 := by norm_num
  have e1 : to_float (((0 : ℕ) : ℚ) + 11184811 / 33554432) = 11184811 / 33554432 := by
    rw [to_float_eval (-2) 11184811] <;> norm_num
  have e2 : to_float (11184811 / 33554432 / ((7 : ℕ) : ℚ)) = 12782641 / 268435456 := by
    rw [to_float_eval (-5) 12782641] <;> norm_num
  rw [e0, to_float_one_third, e1, e2]

theorem Progress.value_3_7_pass1 :
    (Progress.mk 1 0 3 7).value = 12782641 / 67108864 := by
  show to_float (to_float (to_float ((1 : ℕ) : ℚ) +
      to_float (to_float ((1 : ℕ) : ℚ) / to_float ((3 : ℕ) : ℚ))) /
    to_float ((7 : ℕ) : ℚ)) = _
  simp only [to_float_natCast _ (show 1 ≤ 2 ^ 24 by norm_num),
    to_float_natCast _ (show 1 ≤ 2 ^ 24 by norm_num),
    to_float_natCast _ (show 3 ≤ 2 ^ 24 by norm_num),
    to_float_natCast _ (show 7 ≤ 2 ^ 24 by norm_num)]
  have e0 : (((1 : ℕ) : ℚ) / ((3 : ℕ) : ℚ)) = 1 / 3 := by norm_num
  have e1 : to_float (((1 : ℕ) : ℚ) + 11184811 / 33554432) = 11184811 / 8388608 := by
    rw [to_float_eval 0 11184811] <;> norm_num
  have e2 : to_float (11184811 / 8388608 / ((7 : ℕ) : ℚ)) = 12782641 / 67108864 := by
    rw [to_float_eval (-3) 12782641] <;> norm_num
  rw [e0, to_float_one_third, e1, e2]

theorem Progress.value_3_7_pass2 :
    (Progress.mk 2 0 3 7).value = 5592405 / 16777216 := by
  show to_float (to_float (to_float ((2 : ℕ) : ℚ) +
      to_float (to_float ((1 : ℕ) : ℚ) / to_float ((3 : ℕ) : ℚ))) /
    to_float ((7 : ℕ) : ℚ)) = _
  simp only [to_float_natCast _ (show 2 ≤ 2 ^ 24 by norm_num),
    to_float_natCast _ (show 1 ≤ 2 ^ 24 by norm_num),
    to_float_natCast _ (show 3 ≤ 2 ^ 24 by norm_num),
    to_float_natCast _ (show 7 ≤ 2 ^ 24 by norm_num)]
  have e0 : (((1 : ℕ) : ℚ) / ((3 : ℕ) : ℚ)) = 1 / 3 := by norm_num
  have e1 : to_float (((2 : ℕ) : ℚ) + 11184811 / 33554432) = 9786709 / 4194304 := by
    rw [to_float_eval 1 9786709] <;> norm_num
  have e2 : to_float (9786709 / 4194304 / ((7 : ℕ) : ℚ)) = 5592405 / 16777216 := by
    rw [to_float_eval (-2) 11184810] <;> norm_num
  rw [e0, to_float_one_third, e1, e2]

theorem Progress.value_3_7_pass3 :
    (Progress.mk 3 0 3 7).value = 15978301 / 33554432 := by
  show to_float (to_float (to_float ((3 : ℕ) : ℚ) +
      to_float (to_float ((1 : ℕ) : ℚ) / to_float ((3 : ℕ) : ℚ))) /
    to_float ((7 : ℕ) : ℚ)) = _
  simp only [to_float_natCast _ (show 3 ≤ 2 ^ 24 by norm_num),
    to_float_natCast _ (show 1 ≤ 2 ^ 24 by norm_num),
    to_float_natCast _ (show 3 ≤ 2 ^ 24 by norm_num),
    to_float_natCast _ (show 7 ≤ 2 ^ 24 by norm_num)]
  have e0 : (((1 : ℕ) : ℚ) / ((3 : ℕ) : ℚ)) = 1 / 3 := by norm_num
  have e1 : to_float (((3 : ℕ) : ℚ) + 11184811 / 33554432) = 13981013 / 4194304 := by
    rw [to_float_eval 1 13981013] <;> norm_num
  have e2 : to_float (13981013 / 4194304 / ((7 : ℕ) : ℚ)) = 15978301 / 33554432 := by
    rw [to_float_eval (-2) 15978301] <;> norm_num
  rw [e0, to_float_one_third, e1, e2]

theorem Progress.value_3_7_pass4 :
    (Progress.mk 4 0 3 7).value = 1298237 / 2097152 := by
  show to_float (to_float (to_float ((4 : ℕ) : ℚ) +
      to_float (to_float ((1 : ℕ) : ℚ) / to_float ((3 : ℕ) : ℚ))) /
    to_float ((7 : ℕ) : ℚ)) = _
  simp only [to_float_natCast _ (show 4 ≤ 2 ^ 24 by norm_num),
    to_float_natCast _ (show 1 ≤ 2 ^ 24 by norm_num),
    to_float_natCast _ (show 3 ≤ 2 ^ 24 by norm_num),
    to_float_natCast _ (show 7 ≤ 2 ^ 24 by norm_num)]
  have e0 : (((1 : ℕ) : ℚ) / ((3 : ℕ) : ℚ)) = 1 / 3 := by norm_num
  have e1 : to_float (((4 : ℕ) : ℚ) + 11184811 / 33554432) = 9087659 / 2097152 := by
    rw [to_float_eval 2 9087659] <;> norm_num
  have e2 : to_float (9087659 / 2097152 / ((7 : ℕ) : ℚ)) = 1298237 / 2097152 := by
    rw [to_float_eval (-1) 10385896] <;> norm_num
  rw [e0, to_float_one_third, e1, e2]

theorem Progress.value_3_7_pass5 :
    (Progress.mk 5 0 3 7).value = 12782641 / 16777216 := by
  show to_float (to_float (to_float ((5 : ℕ) : ℚ) +
      to_float (to_float ((1 : ℕ) : ℚ) / to_float ((3 : ℕ) : ℚ))) /
    to_float ((7 : ℕ) : ℚ)) = _
  simp only [to_float_natCast _ (show 5 ≤ 2 ^ 24 by norm_num),
    to_float_natCast _ (show 1 ≤ 2 ^ 24 by norm_num),
    to_float_natCast _ (show 3 ≤ 2 ^ 24 by norm_num),
    to_float_natCast _ (show 7 ≤ 2 ^ 24 by norm_num)]
  have e0 : (((1 : ℕ) : ℚ) / ((3 : ℕ) : ℚ)) = 1 / 3 := by norm_num
  have e1 : to_float (((5 : ℕ) : ℚ) + 11184811 / 33554432) = 11184811 / 2097152 := by
    rw [to_float_eval 2 11184811] <;> norm_num
  have e2 : to_float (11184811 / 2097152 / ((7 : ℕ) : ℚ)) = 12782641 / 16777216 := by
    rw [to_float_eval (-1) 12782641] <;> norm_num
  rw [e0, to_float_one_third, e1, e2]

theorem Progress.value_3_7_pass6 :
    (Progress.mk 6 0 3 7).value = 7589693 / 8388608 := by
  show to_float (to_float (to_float ((6 : ℕ) : ℚ) +
      to_float (to_float ((1 : ℕ) : ℚ) / to_float ((3 : ℕ) : ℚ))) /
    to_float ((7 : ℕ) : ℚ)) = _
  simp only [to_float_natCast _ (show 6 ≤ 2 ^ 24 by norm_num),
    to_float_natCast _ (show 1 ≤ 2 ^ 24 by norm_num),
    to_float_natCast _ (show 3 ≤ 2 ^ 24 by norm_num),
    to_float_natCast _ (show 7 ≤ 2 ^ 24 by norm_num)]
  have e0 : (((1 : ℕ) : ℚ) / ((3 : ℕ) : ℚ)) = 1 / 3 := by norm_num
  have e1 : to_float (((6 : ℕ) : ℚ) + 11184811 / 33554432) = 13281963 / 2097152 := by
    rw [to_float_eval 2 13281963] <;> norm_num
  have e2 : to_float (13281963 / 2097152 / ((7 : ℕ) : ℚ)) = 7589693 / 8388608 := by
    rw [to_float_eval (-1) 15179386] <;> norm_num
  rw [e0, to_float_one_third, e1, e2]

theorem Progress.value_stop_3_7 :
    (List.range 7).map (fun p => (Progress.mk p 0 3 7).value) =
      [12782641 / 268435456, 12782641 / 67108864, 5592405 / 16777216, 15978301 / 33554432,
        1298237 / 2097152, 12782641 / 16777216, 7589693 / 8388608] := by
  show [(Progress.mk 0 0 3 7).value, (Progress.mk 1 0 3 7).value, (Progress.mk 2 0 3 7).value,
    (Progress.mk 3 0 3 7).value, (Progress.mk 4 0 3 7).value, (Progress.mk 5 0 3 7).value,
    (Progress.mk 6 0 3 7).value] = _
  rw [Progress.value_3_7_pass0, Progress.value_3_7_pass1, Progress.value_3_7_pass2,
    Progress.value_3_7_pass3, Progress.value_3_7_pass4, Progress.value_3_7_pass5,
    Progress.value_3_7_pass6]

theorem Progress.value_early_one :
    (Progress.mk 0 33554431 33554433 1).value = 1 := by
  rw [Progress.value_single_pass]
  have e1 : to_float ((33554431 + 1 : ℕ) : ℚ) = 33554432 := by
    rw [to_float_eval 25 8388608] <;> norm_num
  have e2 : to_float ((33554433 : ℕ) : ℚ) = 33554432 := by
    rw [to_float_eval 25 8388608] <;> norm_num
  rw [e1, e2, div_self (by norm_num), to_float_one]

/-! ## Progress values (claim C11) -/

theorem getD_map_range (n k : ℕ) (f : ℕ → ℚ) (d : ℚ) (hk : k < n) :
    ((List.range n).map f).getD k d = f k := by
  rw [List.getD_eq_getElem _ _ (by simpa using hk)]
  simp only [List.getElem_map, List.getElem_range]

theorem progress_index_eq (h p y : ℕ) (hy : y < h) :
    (p * h + y) / h = p ∧ (p * h + y) % h = y := by
  rw [Nat.div_mod_unique (by omega)]
  exact ⟨by rw [Nat.mul_comm, Nat.add_comm], hy⟩

theorem progress_index_lt (h P p y : ℕ) (hp : p < P) (hy : y < h) : p * h + y < P * h := by
  have e1 : (p + 1) * h ≤ P * h := Nat.mul_le_mul_right h hp
  rw [Nat.add_mul, Nat.one_mul] at e1
  omega

theorem onLoad_progress_values (png : PngReader) (fop : FileOp)
    (h1 : png.fopen_ok = true) (h2 : png.create_read_struct_ok = true)
    (h3 : png.create_info_struct_ok = true) (h4 : png.read_info_ok = true)
    (hok : png.sequence_image_ok = true)
    (hct : png.color_type ∈ [PNG_COLOR_TYPE_RGB, PNG_COLOR_TYPE_RGB_ALPHA, PNG_COLOR_TYPE_GRAY,
      PNG_COLOR_TYPE_GRAY_ALPHA, PNG_COLOR_TYPE_PALETTE])
    (hrows : ∀ k, ∃ row, png.read_row k = some row ∧
      row.length = png_get_rowbytes png.color_type png.width)
    (hstop : ∀ k, png.is_stop k = false) :
    ∃ fop2, onLoad png fop = some (true, fop2) ∧
      fop2.progress.map Progress.value = fop.progress.map Progress.value ++
        (List.range (png.number_passes * png.height)).map (fun k =>
          (Progress.mk (k / png.height) (k % png.height) png.height png.number_passes).value) := by
  obtain ⟨fop2, _, _, hrun, _, hpr, _⟩ := onLoad_uniform png fop h1 h2 h3 h4 hok hct hrows
    png.height (Nat.le_refl _) (fun i _ t _ => hstop _) (Or.inl rfl)
  refine ⟨fop2, hrun, ?_⟩
  rw [hpr, List.map_append, List.map_map]
  rfl

/-- C11: progress values.  For every height of at least 1 and every number
of passes from 1 to `2^24`, in a decode that nobody cancels the value
reported after row `y` of pass `p` is the `float` evaluation of
`(p + (y + 1) / height) / passes`: the four integers are converted to
`float` and each of the three operations rounds its result to `float`.
The reported values are non-decreasing, each lies in (0, 1], the last is
exactly 1, and for a height of at most `2^21` and at most 8 passes every
value before the last is below 1.  The same holds for `onSave`, where
`passes` is 1. -/
theorem progress_values (png : PngReader) (fop : FileOp)
    (h1 : png.fopen_ok = true) (h2 : png.create_read_struct_ok = true)
    (h3 : png.create_info_struct_ok = true) (h4 : png.read_info_ok = true)
    (hok : png.sequence_image_ok = true)
    (hct : png.color_type ∈ [PNG_COLOR_TYPE_RGB, PNG_COLOR_TYPE_RGB_ALPHA, PNG_COLOR_TYPE_GRAY,
      PNG_COLOR_TYPE_GRAY_ALPHA, PNG_COLOR_TYPE_PALETTE])
    (hrows : ∀ k, ∃ row, png.read_row k = some row ∧
      row.length = png_get_rowbytes png.color_type png.width)
    (hstop : ∀ k, png.is_stop k = false)
    (hh : 1 ≤ png.height) (hP1 : 1 ≤ png.number_passes) (hP : png.number_passes ≤ 2 ^ 24)
    (w : PngWriter) (sprite : Sprite) (fopS : FileOp) (image : Image)
    (w1 : w.fopen_ok = true) (w2 : w.create_write_struct_ok = true)
    (w3 : w.create_info_struct_ok = true) (w4 : w.write_info_ok = true)
    (hw : ∀ k, w.write_row_ok k = true)
    (himg : fopS.image = some image) (hlines : image.line.length = image.h)
    (hwidth : ∀ l ∈ image.line, l.length = image.w) (hih : 1 ≤ image.h) :
    (∃ fop2 vs, onLoad png fop = some (true, fop2) ∧
      fop2.progress.map Progress.value = fop.progress.map Progress.value ++ vs ∧
      vs.length = png.number_passes * png.height ∧
      (∀ p, p < png.number_passes → ∀ y, y < png.height →
        vs.getD (p * png.height + y) 0 =
          to_float (to_float (to_float (p : ℚ) +
              to_float (to_float ((y + 1 : ℕ) : ℚ) / to_float (png.height : ℚ))) /
            to_float (png.number_passes : ℚ))) ∧
      List.Pairwise (fun a b => a ≤ b) vs ∧
      (∀ v ∈ vs, 0 < v ∧ v ≤ 1) ∧
      vs.getLast? = some 1 ∧
      (png.height ≤ 2 ^ 21 → png.number_passes ≤ 8 →
        ∀ k, k + 1 < png.number_passes * png.height → vs.getD k 0 < 1)) ∧
    (∃ fopS2 file vs, onSave w sprite fopS = some (true, fopS2, file) ∧
      fopS2.progress.map Progress.value = fopS.progress.map Progress.value ++ vs ∧
      vs.length = image.h ∧
      (∀ y, y < image.h →
        vs.getD y 0 =
          to_float (to_float (to_float ((0 : ℕ) : ℚ) +
              to_float (to_float ((y + 1 : ℕ) : ℚ) / to_float (image.h : ℚ))) /
            to_float ((1 : ℕ) : ℚ))) ∧
      List.Pairwise (fun a b => a ≤ b) vs ∧
      (∀ v ∈ vs, 0 < v ∧ v ≤ 1) ∧
      vs.getLast? = some 1 ∧
      (image.h ≤ 2 ^ 21 → ∀ k, k + 1 < image.h → vs.getD k 0 < 1)) := by
  constructor
  · obtain ⟨fop2, hrun, hv⟩ := onLoad_progress_values png fop h1 h2 h3 h4 hok hct hrows hstop
    obtain ⟨pw, rg, lst, lt1⟩ := progress_values_uniform png.height png.number_passes hh hP1 hP
    refine ⟨fop2, _, hrun, hv, ?_, ?_, pw, rg, lst, lt1⟩
    · rw [List.length_map, List.length_range]
    · intro p hp y hy
      rw [getD_map_range _ _ _ _ (progress_index_lt _ _ _ _ hp hy),
        (progress_index_eq png.height p y hy).1, (progress_index_eq png.height p y hy).2]
      rfl
  · obtain ⟨pw, rg, lst, lt1⟩ := progress_values_uniform image.h 1 hih (Nat.le_refl 1)
      (by norm_num)
    have hlist : (List.range (1 * image.h)).map (fun k =>
        (Progress.mk (k / image.h) (k % image.h) image.h 1).value) =
        (List.range image.h).map (fun y => (Progress.mk 0 y image.h 1).value) := by
      rw [Nat.one_mul]
      apply List.map_congr_left
      intro k hk
      have hk2 : k < image.h := List.mem_range.mp hk
      rw [Nat.div_eq_of_lt hk2, Nat.mod_eq_of_lt hk2]
    rw [hlist] at pw rg lst lt1
    rw [Nat.one_mul] at lt1
    refine ⟨_, _, (List.range image.h).map (fun y => (Progress.mk 0 y image.h 1).value),
      onSave_run w sprite fopS image w1 w2 w3 w4 hw himg hlines hwidth, ?_, ?_, ?_, pw, rg, lst,
      fun h21 => lt1 h21 (by norm_num)⟩
    · show (fopS.progress ++ (List.range image.h).map (fun i =>
          Progress.mk 0 i image.h 1)).map Progress.value = _
      rw [List.map_append, List.map_map]
      rfl
    · rw [List.length_map, List.length_range]
    · intro y hy
      rw [getD_map_range _ _ _ _ hy]
      rfl

/-- Witness for C11: an interlaced 2x3 RGB file read in 7 passes, and a 1x2
Indexed image saved. -/
theorem progress_values_witness :
    (∃ fop2 vs, onLoad (sample_reader 2 3 PNG_COLOR_TYPE_RGB 7 none [] [1, 2, 3, 4, 5, 6]
        (fun _ => false)) fresh_fop = some (true, fop2) ∧
      fop2.progress.map Progress.value = fresh_fop.progress.map Progress.value ++ vs ∧
      vs.length = 7 * 3 ∧
      List.Pairwise (fun a b => a ≤ b) vs ∧
      (∀ v ∈ vs, 0 < v ∧ v ≤ 1) ∧
      vs.getLast? = some 1) ∧
    (∃ fopS2 file vs, onSave sample_writer { needAlpha := false, hasBackgroundLayer := true }
        (fop_with_image { imgtype := ImgType.IMAGE_INDEXED, w := 1, h := 2, line := [[5], [6]] }
          (fun _ => (0, 0, 0))) = some (true, fopS2, file) ∧
      fopS2.progress.map Progress.value =
        (fop_with_image { imgtype := ImgType.IMAGE_INDEXED, w := 1, h := 2, line := [[5], [6]] }
          (fun _ => (0, 0, 0))).progress.map Progress.value ++ vs ∧
      vs.length = 2 ∧
      List.Pairwise (fun a b => a ≤ b) vs ∧
      (∀ v ∈ vs, 0 < v ∧ v ≤ 1) ∧
      vs.getLast? = some 1) :=
  match progress_values
    (sample_reader 2 3 PNG_COLOR_TYPE_RGB 7 none [] [1, 2, 3, 4, 5, 6] (fun _ => false))
    fresh_fop rfl rfl rfl rfl rfl (by decide) (fun _ => ⟨[1, 2, 3, 4, 5, 6], rfl, rfl⟩)
    (fun _ => rfl) (by decide) (by decide) (by decide)
    sample_writer { needAlpha := false, hasBackgroundLayer := true }
    (fop_with_image { imgtype := ImgType.IMAGE_INDEXED, w := 1, h := 2, line := [[5], [6]] }
      (fun _ => (0, 0, 0)))
    { imgtype := ImgType.IMAGE_INDEXED, w := 1, h := 2, line := [[5], [6]] }
    rfl rfl rfl rfl (fun _ => rfl) rfl rfl (by decide) (by decide) with
  | ⟨⟨fop2, vs, a1, a2, a3, _, a5, a6, a7, _⟩, ⟨fopS2, file, ws, b1, b2, b3, _, b5, b6, b7, _⟩⟩ =>
    ⟨⟨fop2, vs, a1, a2, a3, a5, a6, a7⟩, ⟨fopS2, file, ws, b1, b2, b3, b5, b6, b7⟩⟩

/-- Counterexample to C11 as stated.  A single-pass file of 3 rows that
nobody cancels: the three reported values are 11184811/33554432,
11184811/16777216 and 1, and the first is not `(0 + (0 + 1) / 3) / 1`
(a `float` cannot hold 1/3).  A single-pass file of 33554433 rows
(`2^25 + 1`): the value reported after row 33554431, which is not the last
row, is already 1, because `(float)33554432` and `(float)33554433` are the
same `float`. -/
theorem progress_values_counterexample :
    (∃ fop2, onLoad (sample_reader 1 3 PNG_COLOR_TYPE_GRAY 1 none [] [9] (fun _ => false))
        fresh_fop = some (true, fop2) ∧
      fop2.progress.map Progress.value = [11184811 / 33554432, 11184811 / 16777216, 1] ∧
      (11184811 / 33554432 : ℚ) ≠ ((0 : ℚ) + ((0 : ℚ) + 1) / 3) / 1) ∧
    (∃ fop2, onLoad (sample_reader 1 33554433 PNG_COLOR_TYPE_GRAY 1 none [] [9]
        (fun _ => false)) fresh_fop = some (true, fop2) ∧
      (fop2.progress.map Progress.value).length = 33554433 ∧
      (fop2.progress.map Progress.value).getD 33554431 0 = 1) := by
  have e0 : fresh_fop.progress.map Progress.value = [] := rfl
  constructor
  · obtain ⟨fop2, hrun, hv⟩ := onLoad_progress_values
      (sample_reader 1 3 PNG_COLOR_TYPE_GRAY 1 none [] [9] (fun _ => false)) fresh_fop
      rfl rfl rfl rfl rfl (by decide) (fun _ => ⟨[9], rfl, rfl⟩) (fun _ => rfl)
    refine ⟨fop2, hrun, ?_, by norm_num⟩
    rw [hv, e0, List.nil_append]
    show [(Progress.mk 0 0 3 1).value, (Progress.mk 0 1 3 1).value,
      (Progress.mk 0 2 3 1).value] = _
    exact Progress.value_single_pass_3
  · obtain ⟨fop2, hrun, hv⟩ := onLoad_progress_values
      (sample_reader 1 33554433 PNG_COLOR_TYPE_GRAY 1 none [] [9] (fun _ => false)) fresh_fop
      rfl rfl rfl rfl rfl (by decide) (fun _ => ⟨[9], rfl, rfl⟩) (fun _ => rfl)
    refine ⟨fop2, hrun, ?_, ?_⟩
    · rw [hv, e0, List.nil_append, List.length_map, List.length_range]
      rfl
    · rw [hv, e0, List.nil_append]
      refine (getD_map_range _ _ _ _ ?_).trans ?_
      · show 33554431 < 1 * 33554433
        norm_num
      · show (Progress.mk (33554431 / 33554433) (33554431 % 33554433) 33554433 1).value = 1
        rw [show 33554431 / 33554433 = 0 by norm_num,
          show 33554431 % 33554433 = 33554431 by norm_num]
        exact Progress.value_early_one

/-! ## Row count (claim C13) -/

/-- C13: row count.  For every supported color type, height and number of
passes, when nobody asks for a stop and libpng delivers every row, `onLoad`
succeeds having read and transcoded exactly `height * number_passes` rows
(with one progress report each); and `onSave` of a well-formed image
succeeds having written exactly `height` rows (with one progress report
each). -/
theorem row_count (png : PngReader) (fop : FileOp)
    (h1 : png.fopen_ok = true) (h2 : png.create_read_struct_ok = true)
    (h3 : png.create_info_struct_ok = true) (h4 : png.read_info_ok = true)
    (hok : png.sequence_image_ok = true)
    (hct : png.color_type ∈ [PNG_COLOR_TYPE_RGB, PNG_COLOR_TYPE_RGB_ALPHA, PNG_COLOR_TYPE_GRAY,
      PNG_COLOR_TYPE_GRAY_ALPHA, PNG_COLOR_TYPE_PALETTE])
    (hrows : ∀ k, ∃ row, png.read_row k = some row ∧
      row.length = png_get_rowbytes png.color_type png.width)
    (hstop : ∀ k, png.is_stop k = false)
    (w : PngWriter) (sprite : Sprite) (fopS : FileOp) (image : Image)
    (w1 : w.fopen_ok = true) (w2 : w.create_write_struct_ok = true)
    (w3 : w.create_info_struct_ok = true) (w4 : w.write_info_ok = true)
    (hw : ∀ k, w.write_row_ok k = true)
    (himg : fopS.image = some image) (hlines : image.line.length = image.h)
    (hwidth : ∀ l ∈ image.line, l.length = image.w) :
    (∃ fop2, onLoad png fop = some (true, fop2) ∧
      fop2.rows_read = fop.rows_read + png.height * png.number_passes ∧
      fop2.progress.length = fop.progress.length + png.height * png.number_passes) ∧
    (∃ fopS2 file, onSave w sprite fopS = some (true, fopS2, file) ∧
      file.rows.length = image.h ∧
      fopS2.progress.length = fopS.progress.length + image.h * 1) := by
  constructor
  · obtain ⟨fop2, _, _, hrun, hr, hp, _⟩ := onLoad_uniform png fop h1 h2 h3 h4 hok hct hrows
      png.height (Nat.le_refl _) (fun i _ t _ => hstop _) (Or.inl rfl)
    refine ⟨fop2, hrun, ?_, ?_⟩
    · rw [hr, Nat.mul_comm]
    · rw [hp, List.length_append, List.length_map, List.length_range, Nat.mul_comm]
  · refine ⟨_, _, onSave_run w sprite fopS image w1 w2 w3 w4 hw himg hlines hwidth, ?_, ?_⟩
    · simp only [List.length_map]
      exact hlines
    · simp only [List.length_append, List.length_map, List.length_range, Nat.mul_one]

/-- Witness for C13: an interlaced 2x3 RGB file read in 7 passes, and a 1x2
Indexed image saved. -/
theorem row_count_witness :
    (∃ fop2, onLoad (sample_reader 2 3 PNG_COLOR_TYPE_RGB 7 none [] [1, 2, 3, 4, 5, 6]
        (fun _ => false)) fresh_fop = some (true, fop2) ∧
      fop2.rows_read = fresh_fop.rows_read + 3 * 7 ∧
      fop2.progress.length = fresh_fop.progress.length + 3 * 7) ∧
    (∃ fopS2 file, onSave sample_writer { needAlpha := false, hasBackgroundLayer := true }
        (fop_with_image { imgtype := ImgType.IMAGE_INDEXED, w := 1, h := 2, line := [[5], [6]] }
          (fun _ => (0, 0, 0))) = some (true, fopS2, file) ∧
      file.rows.length = 2 ∧
      fopS2.progress.length =
        (fop_with_image { imgtype := ImgType.IMAGE_INDEXED, w := 1, h := 2, line := [[5], [6]] }
          (fun _ => (0, 0, 0))).progress.length + 2 * 1) :=
  row_count (sample_reader 2 3 PNG_COLOR_TYPE_RGB 7 none [] [1, 2, 3, 4, 5, 6] (fun _ => false))
    fresh_fop rfl rfl rfl rfl rfl (by decide) (fun _ => ⟨[1, 2, 3, 4, 5, 6], rfl, rfl⟩)
    (fun _ => rfl)
    sample_writer { needAlpha := false, hasBackgroundLayer := true }
    (fop_with_image { imgtype := ImgType.IMAGE_INDEXED, w := 1, h := 2, line := [[5], [6]] }
      (fun _ => (0, 0, 0)))
    { imgtype := ImgType.IMAGE_INDEXED, w := 1, h := 2, line := [[5], [6]] }
    rfl rfl rfl rfl (fun _ => rfl) rfl rfl (by decide)

/-! ## The returned status and cancellation (claim C14) -/

theorem onLoad_rows_total (png : PngReader) (te : List Bool) (pass : Nat)
    (hct : png.color_type ∈ [PNG_COLOR_TYPE_RGB, PNG_COLOR_TYPE_RGB_ALPHA, PNG_COLOR_TYPE_GRAY,
      PNG_COLOR_TYPE_GRAY_ALPHA, PNG_COLOR_TYPE_PALETTE])
    (hrows : ∀ k, ∃ row, png.read_row k = some row ∧
      row.length = png_get_rowbytes png.color_type png.width)
    (n y : Nat) (fop : FileOp) (himg : fop.image.isSome = true) :
    ∃ fop2, onLoad_rows png te pass n y fop = Run.done fop2 ∧ fop2.image.isSome = true := by
  induction n generalizing y fop with
  | zero => exact ⟨fop, rfl, himg⟩
  | succ n ih =>
    obtain ⟨image, hi⟩ := Option.isSome_iff_exists.mp himg
    obtain ⟨row, hr, hpx, _⟩ := decoded_row_spec png te hct hrows fop.rows_read
      (image.line.getD y [])
    rw [onLoad_rows]
    simp only [hr, hi, hpx]
    by_cases hs : png.is_stop fop.rows_read = true
    · rw [if_pos hs]
      exact ⟨_, rfl, rfl⟩
    · rw [if_neg hs]
      exact ih _ _ rfl

theorem onLoad_passes_total (png : PngReader) (te : List Bool)
    (hct : png.color_type ∈ [PNG_COLOR_TYPE_RGB, PNG_COLOR_TYPE_RGB_ALPHA, PNG_COLOR_TYPE_GRAY,
      PNG_COLOR_TYPE_GRAY_ALPHA, PNG_COLOR_TYPE_PALETTE])
    (hrows : ∀ k, ∃ row, png.read_row k = some row ∧
      row.length = png_get_rowbytes png.color_type png.width)
    (n pass : Nat) (fop : FileOp) (himg : fop.image.isSome = true) :
    ∃ fop2, onLoad_passes png te n pass fop = Run.done fop2 ∧ fop2.image.isSome = true := by
  induction n generalizing pass fop with
  | zero => exact ⟨fop, rfl, himg⟩
  | succ n ih =>
    obtain ⟨fop1, h1, hi1⟩ := onLoad_rows_total png te pass hct hrows png.height 0 fop himg
    rw [onLoad_passes, h1]
    exact ih _ _ hi1

/-- C14, counterexample: two decodes in which the file opens, the color type
is supported and the image is allocated.  In the first libpng reports a
fatal error at the first row, and `onLoad` returns `false` although nobody
asked for a stop.  In the second and third the file is the same, with a
fatal error at the second row: `onLoad` returns `true` when the stop signal
is set after the first row and `false` when it is never set. -/
theorem onLoad_status_counterexample :
    (onLoad { sample_reader 1 2 PNG_COLOR_TYPE_GRAY 1 none [] [9] (fun _ => false) with
          read_row := fun _ => none }
        fresh_fop).map (fun r => (r.1, r.2.image_requests, r.2.image.isSome)) =
      some (false, 1, true) ∧
    (onLoad { sample_reader 1 2 PNG_COLOR_TYPE_GRAY 1 none [] [9] (fun _ => true) with
          read_row := fun k => if k = 0 then some [9] else none }
        fresh_fop).map (fun r => r.1) = some true ∧
    (onLoad { sample_reader 1 2 PNG_COLOR_TYPE_GRAY 1 none [] [9] (fun _ => false) with
          read_row := fun k => if k = 0 then some [9] else none }
        fresh_fop).map (fun r => r.1) = some false := by
  refine ⟨by decide, by decide, by decide⟩

/-- C14 as amended: cancellation is not an error.  For every decode in which
the file opens, libpng sets up, reads the header and delivers every row
without a fatal error, the color type is supported and the image is
allocated, `onLoad` returns `true`, whatever the cancellation signal
answers at any row: replacing the signal by any other leaves the returned
status `true`. -/
theorem onLoad_status_ignores_stop (png : PngReader) (fop : FileOp)
    (h1 : png.fopen_ok = true) (h2 : png.create_read_struct_ok = true)
    (h3 : png.create_info_struct_ok = true) (h4 : png.read_info_ok = true)
    (hok : png.sequence_image_ok = true)
    (hct : png.color_type ∈ [PNG_COLOR_TYPE_RGB, PNG_COLOR_TYPE_RGB_ALPHA, PNG_COLOR_TYPE_GRAY,
      PNG_COLOR_TYPE_GRAY_ALPHA, PNG_COLOR_TYPE_PALETTE])
    (hrows : ∀ k, ∃ row, png.read_row k = some row ∧
      row.length = png_get_rowbytes png.color_type png.width) :
    (∃ fop2, onLoad png fop = some (true, fop2)) ∧
    ∀ stop : Nat → Bool, ∃ fop3, onLoad { png with is_stop := stop } fop = some (true, fop3) := by
  have key : ∀ q : PngReader, q.fopen_ok = true → q.create_read_struct_ok = true →
      q.create_info_struct_ok = true → q.read_info_ok = true → q.sequence_image_ok = true →
      q.color_type ∈ [PNG_COLOR_TYPE_RGB, PNG_COLOR_TYPE_RGB_ALPHA, PNG_COLOR_TYPE_GRAY,
        PNG_COLOR_TYPE_GRAY_ALPHA, PNG_COLOR_TYPE_PALETTE] →
      (∀ k, ∃ row, q.read_row k = some row ∧
        row.length = png_get_rowbytes q.color_type q.width) →
      ∃ fop2, onLoad q fop = some (true, fop2) := by
    intro q q1 q2 q3 q4 qok qct qrows
    obtain ⟨imgtype, ha, hty⟩ := onLoad_imgtype_supported q.color_type fop qct
    rw [onLoad_eq_of_setup q fop q1 q2 q3 q4, hty]
    simp only [fop_sequence_image, qok, if_true]
    obtain ⟨_, ha2, pal, hpal⟩ := onLoad_palette_frame q
      (FileOp.mk ha (some (Image.mk imgtype q.width q.height ((List.range q.height).map (fun y =>
            (List.range q.width).map (fun x => q.image_fill y x)))))
          fop.palette fop.errors fop.progress (fop.image_requests + 1) fop.rows_read)
    obtain ⟨fop2, hrun, _⟩ := onLoad_passes_total q
      (onLoad_palette q
        (FileOp.mk ha (some (Image.mk imgtype q.width q.height ((List.range q.height).map (fun y =>
            (List.range q.width).map (fun x => q.image_fill y x)))))
          fop.palette fop.errors fop.progress (fop.image_requests + 1) fop.rows_read)).1
      qct qrows q.number_passes 0
      (onLoad_palette q
        (FileOp.mk ha (some (Image.mk imgtype q.width q.height ((List.range q.height).map (fun y =>
            (List.range q.width).map (fun x => q.image_fill y x)))))
          fop.palette fop.errors fop.progress (fop.image_requests + 1) fop.rows_read)).2
      (by rw [hpal]; rfl)
    exact ⟨fop2, by rw [hrun]⟩
  exact ⟨key png h1 h2 h3 h4 hok hct hrows,
    fun stop => key { png with is_stop := stop } h1 h2 h3 h4 hok hct hrows⟩

/-- Witness for the amended C14: a 1x3 Gray file, with the stop signal set
after every second row. -/
theorem onLoad_status_ignores_stop_witness :
    (∃ fop2, onLoad (sample_reader 1 3 PNG_COLOR_TYPE_GRAY 7 none [] [9]
        (fun k => k % 2 == 1)) fresh_fop = some (true, fop2)) ∧
    ∀ stop : Nat → Bool, ∃ fop3,
      onLoad { sample_reader 1 3 PNG_COLOR_TYPE_GRAY 7 none [] [9] (fun k => k % 2 == 1) with
        is_stop := stop } fresh_fop = some (true, fop3) :=
  onLoad_status_ignores_stop
    (sample_reader 1 3 PNG_COLOR_TYPE_GRAY 7 none [] [9] (fun k => k % 2 == 1)) fresh_fop
    rfl rfl rfl rfl rfl (by decide) (fun _ => ⟨[9], rfl, rfl⟩)

/-! ## The alpha flag and the transparent-entries table (claims C15, C20) -/

/-- C15: the alpha-presence flag for indexed images.  For every Palette-type
source whose palette query succeeds and whose transparency chunk holds
bytes, starting with `has_alpha` unset, after the palette block of `onLoad`
the flag is set if and only if the chunk is non-empty; the table has 256
entries, and entry `c` is marked if and only if `c` is a value of the
chunk. -/
theorem onLoad_palette_has_alpha (png : PngReader) (fop : FileOp) (palette : List png_color)
    (hct : png.color_type = PNG_COLOR_TYPE_PALETTE) (hplte : png.plte = some palette)
    (hfop : fop.has_alpha = false) (hbytes : ∀ j ∈ png.trns, j < 256) :
    ((onLoad_palette png fop).2.has_alpha = true ↔ png.trns ≠ []) ∧
    (onLoad_palette png fop).1.length = 256 ∧
    ∀ c, ((onLoad_palette png fop).1.getD c false = true ↔ c ∈ png.trns) := by
  rw [onLoad_palette_of_plte png fop palette hct hplte]
  refine ⟨?_, ?_, fun c => ?_⟩
  · simp only [hfop, Bool.false_or, List.any_eq_true, decide_eq_true_eq]
    constructor
    · rintro ⟨j, hj, _⟩ hnil
      rw [hnil] at hj
      exact absurd hj (List.not_mem_nil j)
    · intro hne
      cases htr : png.trns with
      | nil => exact absurd htr hne
      | cons j rest =>
        exact ⟨j, List.mem_cons_self j rest, hbytes j (by rw [htr]; exact List.mem_cons_self j rest)⟩
  · rw [read_trans_length, List.length_replicate]
  · rw [read_trans_getD, replicate_false_getD, List.length_replicate]
    simp only [Bool.false_or, Bool.and_eq_true, decide_eq_true_eq]
    exact ⟨fun h => h.1, fun h => ⟨h, hbytes c h⟩⟩

/-- Witness for C15: a palette image whose transparency chunk names 3 and 7. -/
theorem onLoad_palette_has_alpha_witness :
    ((onLoad_palette (sample_reader 1 1 PNG_COLOR_TYPE_PALETTE 1 (some []) [3, 7] [0]
        (fun _ => false)) fresh_fop).2.has_alpha = true ↔ [3, 7] ≠ ([] : List Nat)) ∧
    (onLoad_palette (sample_reader 1 1 PNG_COLOR_TYPE_PALETTE 1 (some []) [3, 7] [0]
        (fun _ => false)) fresh_fop).1.length = 256 ∧
    ∀ c, ((onLoad_palette (sample_reader 1 1 PNG_COLOR_TYPE_PALETTE 1 (some []) [3, 7] [0]
        (fun _ => false)) fresh_fop).1.getD c false = true ↔ c ∈ [3, 7]) :=
  onLoad_palette_has_alpha
    (sample_reader 1 1 PNG_COLOR_TYPE_PALETTE 1 (some []) [3, 7] [0] (fun _ => false))
    fresh_fop [] rfl rfl rfl (by decide)

theorem read_trans_of_bytes (trans : List Nat) (te : List Bool) (fop : FileOp)
    (hbytes : ∀ j ∈ trans, j < te.length) :
    read_trans trans (te, fop) =
      (trans.foldl (fun t j => t.set j true) te,
        { fop with has_alpha := fop.has_alpha || !trans.isEmpty }) := by
  induction trans generalizing te fop with
  | nil =>
    simp only [read_trans, List.foldl_nil, List.isEmpty_nil, Bool.not_true, Bool.or_false]
  | cons j rest ih =>
    have hj : 0 ≤ j ∧ j < te.length := ⟨Nat.zero_le _, hbytes j (List.mem_cons_self j rest)⟩
    rw [read_trans, if_pos hj, ih]
    · simp only [List.foldl_cons, List.isEmpty_cons, Bool.not_false, Bool.or_true,
        Bool.true_or]
    · intro i hi
      rw [List.length_set]
      exact hbytes i (List.mem_cons_of_mem j hi)

/-- C20: the transparent-entries lookup stays in bounds.  The table that the
palette block of `onLoad` hands to the row loop always has exactly 256
entries, so it is never empty; when the transparency chunk and the row hold
bytes, every write index `j` and every read index `c` is below the length
of the table, and the bounds check on `j` rejects nothing: the loop over
the chunk does what the loop without the check does. -/
theorem trans_entries_in_bounds (png : PngReader) (fop : FileOp) (row : List Nat)
    (htrns : ∀ j ∈ png.trns, j < 256) (hrow : ∀ c ∈ row, c < 256) :
    (onLoad_palette png fop).1.length = 256 ∧
    (onLoad_palette png fop).1.isEmpty = false ∧
    (∀ j ∈ png.trns, 0 ≤ j ∧ j < (onLoad_palette png fop).1.length) ∧
    (∀ c ∈ row, c < (onLoad_palette png fop).1.length) ∧
    ∀ f : FileOp, read_trans png.trns (List.replicate 256 false, f) =
      (png.trns.foldl (fun t j => t.set j true) (List.replicate 256 false),
        { f with has_alpha := f.has_alpha || !png.trns.isEmpty }) := by
  have hlen : (onLoad_palette png fop).1.length = 256 := by
    by_cases hct : png.color_type = PNG_COLOR_TYPE_PALETTE
    · cases hpl : png.plte with
      | none =>
        simp only [onLoad_palette, hct, if_true, hpl, List.length_replicate]
      | some palette =>
        rw [onLoad_palette_of_plte png fop palette hct hpl, read_trans_length,
          List.length_replicate]
    · rw [onLoad_palette_of_not_palette png fop hct, List.length_replicate]
  refine ⟨hlen, ?_, fun j hj => ⟨Nat.zero_le _, by rw [hlen]; exact htrns j hj⟩,
    fun c hc => by rw [hlen]; exact hrow c hc, fun f => ?_⟩
  · cases hte : (onLoad_palette png fop).1 with
    | nil => rw [hte] at hlen; simp at hlen
    | cons _ _ => rfl
  · exact read_trans_of_bytes png.trns (List.replicate 256 false) f
      (fun j hj => by rw [List.length_replicate]; exact htrns j hj)

/-- Witness for C20: a palette image with transparency values 0 and 255 and a
row that holds 0 and 255. -/
theorem trans_entries_in_bounds_witness :
    (onLoad_palette (sample_reader 2 1 PNG_COLOR_TYPE_PALETTE 1 (some []) [0, 255] [0, 255]
        (fun _ => false)) fresh_fop).1.length = 256 ∧
    (∀ c ∈ [0, 255], c < (onLoad_palette (sample_reader 2 1 PNG_COLOR_TYPE_PALETTE 1 (some [])
        [0, 255] [0, 255] (fun _ => false)) fresh_fop).1.length) :=
  have h := trans_entries_in_bounds
    (sample_reader 2 1 PNG_COLOR_TYPE_PALETTE 1 (some []) [0, 255] [0, 255] (fun _ => false))
    fresh_fop [0, 255] (by decide) (by decide)
  ⟨h.1, h.2.2.2.1⟩

/-! ## Encoding without alpha and decoding again (claim C18) -/

theorem load_save_row_RGB_map (width : Nat) (l : List Nat) (hlen : l.length = width) :
    ∃ bytes, save_row_RGB width l = some bytes ∧
      load_row_RGB width bytes =
        some (l.map (fun c => _rgba (_rgba_getr c) (_rgba_getg c) (_rgba_getb c) 255)) := by
  induction width generalizing l with
  | zero =>
    have : l = [] := List.eq_nil_of_length_eq_zero hlen
    exact ⟨[], by simp [save_row_RGB], by simp [load_row_RGB, this]⟩
  | succ w ih =>
    match l, hlen with
    | c :: rest, hlen =>
      obtain ⟨bytes, hs, hl⟩ := ih rest (by simpa using hlen)
      exact ⟨_rgba_getr c :: _rgba_getg c :: _rgba_getb c :: bytes,
        by simp [save_row_RGB, hs], by simp [load_row_RGB, hl]⟩

theorem load_save_row_GRAY_map (width : Nat) (l : List Nat) (hlen : l.length = width) :
    ∃ bytes, save_row_GRAY width l = some bytes ∧
      load_row_GRAY width bytes = some (l.map (fun c => _graya (_graya_getv c) 255)) := by
  induction width generalizing l with
  | zero =>
    have : l = [] := List.eq_nil_of_length_eq_zero hlen
    exact ⟨[], by simp [save_row_GRAY], by simp [load_row_GRAY, this]⟩
  | succ w ih =>
    match l, hlen with
    | c :: rest, hlen =>
      obtain ⟨bytes, hs, hl⟩ := ih rest (by simpa using hlen)
      exact ⟨_graya_getv c :: bytes,
        by simp [save_row_GRAY, hs], by simp [load_row_GRAY, hl]⟩

theorem rgba_get_lt (c : Nat) :
    _rgba_getr c < 256 ∧ _rgba_getg c < 256 ∧ _rgba_getb c < 256 ∧ _rgba_geta c < 256 := by
  rw [rgba_getr_eq, rgba_getg_eq, rgba_getb_eq, rgba_geta_eq]
  omega

theorem graya_get_lt (c : Nat) : _graya_getv c < 256 ∧ _graya_geta c < 256 := by
  rw [graya_getv_eq, graya_geta_eq]
  omega

/-- C18: encoding without alpha and decoding again forces opacity and keeps
color.  A line of RGBA pixels written with color type RGB and read with
color type RGB comes back with every pixel `c` replaced by
(r, g, b, 255) of its own color channels, and a line of GrayAlpha pixels
written and read with color type Gray comes back as (k, 255); for a pixel
packed from bytes (r,g,b,a) that is (r,g,b,255), and (k,255) for (k,a).
Either map is idempotent, and it fixes a pixel of the pixel type exactly
when the alpha of the pixel is 255. -/
theorem save_load_without_alpha (te : List Bool) (width : Nat) (line dst : List Nat)
    (hlen : line.length = width) :
    (save_row PNG_COLOR_TYPE_RGB width line).bind
        (fun bytes => load_row PNG_COLOR_TYPE_RGB te width bytes dst) =
      some (line.map (fun c => _rgba (_rgba_getr c) (_rgba_getg c) (_rgba_getb c) 255)) ∧
    (save_row PNG_COLOR_TYPE_GRAY width line).bind
        (fun bytes => load_row PNG_COLOR_TYPE_GRAY te width bytes dst) =
      some (line.map (fun c => _graya (_graya_getv c) 255)) ∧
    (∀ r g b a, r < 256 → g < 256 → b < 256 → a < 256 →
      _rgba (_rgba_getr (_rgba r g b a)) (_rgba_getg (_rgba r g b a))
        (_rgba_getb (_rgba r g b a)) 255 = _rgba r g b 255) ∧
    (∀ k a, k < 256 → a < 256 → _graya (_graya_getv (_graya k a)) 255 = _graya k 255) ∧
    (∀ c,
      _rgba (_rgba_getr (_rgba (_rgba_getr c) (_rgba_getg c) (_rgba_getb c) 255))
        (_rgba_getg (_rgba (_rgba_getr c) (_rgba_getg c) (_rgba_getb c) 255))
        (_rgba_getb (_rgba (_rgba_getr c) (_rgba_getg c) (_rgba_getb c) 255)) 255 =
      _rgba (_rgba_getr c) (_rgba_getg c) (_rgba_getb c) 255) ∧
    (∀ c, _graya (_graya_getv (_graya (_graya_getv c) 255)) 255 = _graya (_graya_getv c) 255) ∧
    (∀ c, c < 2 ^ 32 →
      (_rgba (_rgba_getr c) (_rgba_getg c) (_rgba_getb c) 255 = c ↔ _rgba_geta c = 255)) ∧
    (∀ c, c < 2 ^ 16 → (_graya (_graya_getv c) 255 = c ↔ _graya_geta c = 255)) := by
  refine ⟨?_, ?_, ?_, ?_, ?_, ?_, ?_, ?_⟩
  · obtain ⟨bytes, hs, hl⟩ := load_save_row_RGB_map width line hlen
    rw [save_row_of_RGB, hs, Option.some_bind, load_row_of_RGB, hl]
  · obtain ⟨bytes, hs, hl⟩ := load_save_row_GRAY_map width line hlen
    rw [save_row_of_GRAY, hs, Option.some_bind, load_row_of_GRAY, hl]
  · intro r g b a hr hg hb ha
    obtain ⟨e1, e2, e3, _⟩ := rgba_get r g b a hr hg hb ha
    rw [e1, e2, e3]
  · intro k a hk ha
    rw [(graya_get k a hk ha).1]
  · intro c
    obtain ⟨l1, l2, l3, _⟩ := rgba_get_lt c
    obtain ⟨e1, e2, e3, _⟩ := rgba_get _ _ _ 255 l1 l2 l3 (by decide)
    rw [e1, e2, e3]
  · intro c
    rw [(graya_get _ 255 (graya_get_lt c).1 (by decide)).1]
  · intro c hc
    obtain ⟨l1, l2, l3, _⟩ := rgba_get_lt c
    constructor
    · intro h
      have := (rgba_get _ _ _ 255 l1 l2 l3 (by decide)).2.2.2
      rw [h] at this
      exact this
    · intro h
      have := rgba_of_get c hc
      rw [h] at this
      exact this
  · intro c hc
    constructor
    · intro h
      have := (graya_get _ 255 (graya_get_lt c).1 (by decide)).2
      rw [h] at this
      exact this
    · intro h
      have := graya_of_get c hc
      rw [h] at this
      exact this

/-- Witness for C18: the translucent pixel (1,2,3,7) comes back opaque, and so
does the Gray pixel (9,0). -/
theorem save_load_without_alpha_witness :
    (save_row PNG_COLOR_TYPE_RGB 1 [_rgba 1 2 3 7]).bind
        (fun bytes => load_row PNG_COLOR_TYPE_RGB [] 1 bytes []) =
      some ([_rgba 1 2 3 7].map (fun c =>
        _rgba (_rgba_getr c) (_rgba_getg c) (_rgba_getb c) 255)) ∧
    _rgba (_rgba_getr (_rgba 1 2 3 7)) (_rgba_getg (_rgba 1 2 3 7))
      (_rgba_getb (_rgba 1 2 3 7)) 255 = _rgba 1 2 3 255 ∧
    _graya (_graya_getv (_graya 9 0)) 255 = _graya 9 255 :=
  have h := save_load_without_alpha [] 1 [_rgba 1 2 3 7] [] rfl
  ⟨h.1, h.2.2.1 1 2 3 7 (by decide) (by decide) (by decide) (by decide),
    h.2.2.2.1 9 0 (by decide) (by decide)⟩

/-! ## Cancellation in a single pass (claim C16) -/

/-- C16: the result of a single-pass decode that is cancelled.  For a
single-pass image of height `h` and a row `r < h`, when the cancellation
signal is first observed set after row `r`, `onLoad` returns `true`; rows
`0..r` of the image hold the transcoded rows of the source, rows
`r+1..h-1` are as `fop_sequence_image` delivered them, exactly `r + 1`
rows were read and `r + 1` progress values reported, the last of them for
row `r`: it is the `float` quotient of `(float)(r + 1)` by `(float)h`,
which for `h ≤ 2^24` is the `float` nearest to `(r + 1) / h`. -/
theorem onLoad_single_pass_stop (png : PngReader) (fop : FileOp)
    (h1 : png.fopen_ok = true) (h2 : png.create_read_struct_ok = true)
    (h3 : png.create_info_struct_ok = true) (h4 : png.read_info_ok = true)
    (hok : png.sequence_image_ok = true)
    (hct : png.color_type ∈ [PNG_COLOR_TYPE_RGB, PNG_COLOR_TYPE_RGB_ALPHA, PNG_COLOR_TYPE_GRAY,
      PNG_COLOR_TYPE_GRAY_ALPHA, PNG_COLOR_TYPE_PALETTE])
    (hrows : ∀ k, ∃ row, png.read_row k = some row ∧
      row.length = png_get_rowbytes png.color_type png.width)
    (hP : png.number_passes = 1) (r : Nat) (hr : r < png.height)
    (hbefore : ∀ t, t < r → png.is_stop (fop.rows_read + t) = false)
    (hat : png.is_stop (fop.rows_read + r) = true) :
    ∃ fop2 imgtype line2, onLoad png fop = some (true, fop2) ∧
      fop2.image = some (Image.mk imgtype png.width png.height line2) ∧
      line2.length = png.height ∧
      (∀ j, j ≤ r → ∃ row, png.read_row (fop.rows_read + j) = some row ∧
        load_row png.color_type (onLoad_palette png fop).1 png.width row [] =
          some (line2.getD j [])) ∧
      (∀ j, r < j → j < png.height →
        line2.getD j [] = (List.range png.width).map (fun x => png.image_fill j x)) ∧
      fop2.rows_read = fop.rows_read + (r + 1) ∧
      fop2.progress = fop.progress ++ (List.range (r + 1)).map (fun y =>
        Progress.mk 0 y png.height 1) ∧
      fop2.progress.getLast? = some (Progress.mk 0 r png.height 1) ∧
      (fop2.progress.map Progress.value).getLast? =
        some (to_float (to_float ((r + 1 : ℕ) : ℚ) / to_float (png.height : ℚ))) ∧
      (png.height ≤ 2 ^ 24 → (fop2.progress.map Progress.value).getLast? =
        some (to_float (((r : ℚ) + 1) / (png.height : ℚ)))) := by
  obtain ⟨fop2, imgtype, line2, hrun, hrr, hpr, _, himg, hlen, hget⟩ :=
    onLoad_uniform png fop h1 h2 h3 h4 hok hct hrows (r + 1) (by omega)
      (fun i hi t ht => by
        have hi0 : i = 0 := by omega
        rw [hi0, Nat.zero_mul, Nat.add_zero]
        exact hbefore t (by omega))
      (Or.inr ⟨by omega, fun i hi => by
        have hi0 : i = 0 := by omega
        rw [hi0, Nat.zero_mul, Nat.add_zero, Nat.add_sub_cancel]
        exact hat⟩)
  have hprog : fop2.progress = fop.progress ++ (List.range (r + 1)).map (fun y =>
      Progress.mk 0 y png.height 1) := by
    rw [hpr, hP, Nat.one_mul]
    congr 1
    apply List.map_congr_left
    intro k hk
    have hk2 : k < r + 1 := List.mem_range.mp hk
    rw [Nat.div_eq_of_lt hk2, Nat.mod_eq_of_lt hk2]
  have hlast : fop2.progress.getLast? = some (Progress.mk 0 r png.height 1) := by
    rw [hprog, List.range_succ, List.map_append, ← List.append_assoc]
    simp
  have hval : (fop2.progress.map Progress.value).getLast? =
      some (to_float (to_float ((r + 1 : ℕ) : ℚ) / to_float (png.height : ℚ))) := by
    rw [List.getLast?_map, hlast, Option.map_some', Progress.value_single_pass]
  refine ⟨fop2, imgtype, line2, hrun, himg, hlen, ?_, ?_, ?_, hprog, hlast, hval, ?_⟩
  · intro j hj
    have hg := hget j (by omega)
    rw [if_pos ⟨by omega, by omega⟩, hP, Nat.sub_self, Nat.zero_mul, Nat.add_zero] at hg
    obtain ⟨row, e1, e2, _⟩ := decoded_row_spec png (onLoad_palette png fresh_fop).1 hct hrows
      (fop.rows_read + j) []
    exact ⟨row, e1, by rw [(onLoad_palette_frame png fop).1, hg]; exact e2⟩
  · intro j hj1 hj2
    have hg := hget j hj2
    rw [if_neg (by omega)] at hg
    exact hg
  · rw [hrr, hP, Nat.one_mul]
  · intro hh24
    rw [hval, to_float_natCast (r + 1) (by omega), to_float_natCast png.height hh24]
    push_cast
    rfl

/-- Witness for C16: cancellation after row 0 of 3 in a single-pass image: one
row transcoded, one progress value, the `float` nearest to 1/3. -/
theorem onLoad_single_pass_stop_witness :
    ∃ fop2 imgtype line2,
      onLoad (sample_reader 1 3 PNG_COLOR_TYPE_GRAY 1 none [] [9] (fun _ => true)) fresh_fop =
        some (true, fop2) ∧
      fop2.image = some (Image.mk imgtype 1 3 line2) ∧
      fop2.rows_read = 0 + (0 + 1) ∧
      fop2.progress = [] ++ (List.range (0 + 1)).map (fun y => Progress.mk 0 y 3 1) ∧
      (fop2.progress.map Progress.value).getLast? =
        some (to_float (to_float ((0 + 1 : ℕ) : ℚ) / to_float ((3 : ℕ) : ℚ))) :=
  match onLoad_single_pass_stop
    (sample_reader 1 3 PNG_COLOR_TYPE_GRAY 1 none [] [9] (fun _ => true)) fresh_fop
    rfl rfl rfl rfl rfl (by decide) (fun _ => ⟨[9], rfl, rfl⟩) rfl 0 (by decide)
    (fun t ht => absurd ht (Nat.not_lt_zero t)) rfl with
  | ⟨fop2, imgtype, line2, e1, e2, _, _, _, e6, e7, _, e9, _⟩ =>
    ⟨fop2, imgtype, line2, e1, e2, e6, e7, e9⟩

/-- Counterexample to C16 as stated: a single-pass image of 3 rows, the stop
signal seen after row 0.  `onLoad` reports one progress value, and it is
the `float` 11184811/33554432 (0.3333333432674407958984375), not 1/3. -/
theorem onLoad_single_pass_stop_counterexample :
    ∃ fop2,
      onLoad (sample_reader 1 3 PNG_COLOR_TYPE_GRAY 1 none [] [9] (fun _ => true)) fresh_fop =
        some (true, fop2) ∧
      fop2.progress.map Progress.value = [11184811 / 33554432] ∧
      (11184811 / 33554432 : ℚ) ≠ ((0 : ℚ) + 1) / 3 := by
  have hrun : (onLoad (sample_reader 1 3 PNG_COLOR_TYPE_GRAY 1 none [] [9] (fun _ => true))
      fresh_fop).map (fun r => (r.1, r.2.progress)) =
      some (true, [Progress.mk 0 0 3 1]) := by decide
  cases hl : onLoad (sample_reader 1 3 PNG_COLOR_TYPE_GRAY 1 none [] [9] (fun _ => true))
      fresh_fop with
  | none =>
    rw [hl] at hrun
    exact absurd hrun (by simp)
  | some res =>
    obtain ⟨b, fop2⟩ := res
    rw [hl] at hrun
    simp only [Option.map_some', Option.some.injEq, Prod.mk.injEq] at hrun
    obtain ⟨hb, hp⟩ := hrun
    subst hb
    refine ⟨fop2, rfl, ?_, by norm_num⟩
    rw [hp]
    have hv := Progress.value_single_pass_3
    simp only [List.map_cons, List.map_nil]
    have h0 : (Progress.mk 0 0 3 1).value = 11184811 / 33554432 := by
      have := congrArg (fun l => l.getD 0 0) hv
      exact this
    rw [h0]

/-! ## Several passes (claims C17, C19) -/

/-- C17: later passes overwrite earlier ones.  For every supported color
type, height and number of passes `P >= 1`, after a decode that nobody
stops, row `y` of the image is the transcoding of the row buffer received
for row `y` in pass `P - 1`; and a decode of any other stream of rows that
delivers the same buffers in pass `P - 1` ends with the same image. -/
theorem onLoad_last_pass_wins (png : PngReader) (fop : FileOp)
    (h1 : png.fopen_ok = true) (h2 : png.create_read_struct_ok = true)
    (h3 : png.create_info_struct_ok = true) (h4 : png.read_info_ok = true)
    (hok : png.sequence_image_ok = true)
    (hct : png.color_type ∈ [PNG_COLOR_TYPE_RGB, PNG_COLOR_TYPE_RGB_ALPHA, PNG_COLOR_TYPE_GRAY,
      PNG_COLOR_TYPE_GRAY_ALPHA, PNG_COLOR_TYPE_PALETTE])
    (hrows : ∀ k, ∃ row, png.read_row k = some row ∧
      row.length = png_get_rowbytes png.color_type png.width)
    (hstop : ∀ k, png.is_stop k = false) (hP : 1 ≤ png.number_passes) :
    ∃ fop2 imgtype line2, onLoad png fop = some (true, fop2) ∧
      fop2.image = some (Image.mk imgtype png.width png.height line2) ∧
      line2.length = png.height ∧
      (∀ y, y < png.height → ∃ row,
        png.read_row (fop.rows_read + (png.number_passes - 1) * png.height + y) = some row ∧
        load_row png.color_type (onLoad_palette png fop).1 png.width row [] =
          some (line2.getD y [])) ∧
      ∀ rr : Nat → Option (List Nat),
        (∀ k, ∃ row, rr k = some row ∧
          row.length = png_get_rowbytes png.color_type png.width) →
        (∀ y, y < png.height →
          rr (fop.rows_read + (png.number_passes - 1) * png.height + y) =
            png.read_row (fop.rows_read + (png.number_passes - 1) * png.height + y)) →
        ∃ fop3, onLoad { png with read_row := rr } fop = some (true, fop3) ∧
          fop3.image = fop2.image := by
  obtain ⟨fop2, imgtype, line2, hrun, _, _, _, himg, hlen, hget⟩ :=
    onLoad_uniform png fop h1 h2 h3 h4 hok hct hrows png.height (Nat.le_refl _)
      (fun i _ t _ => hstop _) (Or.inl rfl)
  refine ⟨fop2, imgtype, line2, hrun, himg, hlen, ?_, ?_⟩
  · intro y hy
    have hg := hget y hy
    rw [if_pos ⟨by omega, hy⟩] at hg
    obtain ⟨row, e1, e2, _⟩ := decoded_row_spec png (onLoad_palette png fresh_fop).1 hct hrows
      (fop.rows_read + (png.number_passes - 1) * png.height + y) []
    exact ⟨row, e1, by rw [(onLoad_palette_frame png fop).1, hg]; exact e2⟩
  · intro rr hrr hsame
    obtain ⟨fop3, imgtype3, line3, hrun3, _, _, _, himg3c, hlen3c, hget3c⟩ :=
      onLoad_uniform { png with read_row := rr } fop h1 h2 h3 h4 hok hct hrr png.height
        (Nat.le_refl _) (fun i _ t _ => hstop _) (Or.inl rfl)
    have himg3 : fop3.image = some (Image.mk imgtype3 png.width png.height line3) := himg3c
    have hlen3 : line3.length = png.height := hlen3c
    have hget3 : ∀ j, j < png.height → line3.getD j [] =
        if 0 < png.number_passes ∧ j < png.height then
          decoded_row { png with read_row := rr } (onLoad_palette png fresh_fop).1
            (fop.rows_read + (png.number_passes - 1) * png.height + j)
        else (List.range png.width).map (fun x => png.image_fill j x) := hget3c
    refine ⟨fop3, hrun3, ?_⟩
    have hty : imgtype3 = imgtype := by
      obtain ⟨_, _, _, _, _, t, f1, e1, _⟩ := onLoad_true_inv png fop fop2 hrun
      obtain ⟨_, _, _, _, _, t3, f3, e3, r3⟩ :=
        onLoad_true_inv { png with read_row := rr } fop fop3 hrun3
      obtain ⟨_, _, _, _, _, t2, f2, e2, r2⟩ := onLoad_true_inv png fop fop2 hrun
      have e3b : onLoad_imgtype png.color_type fop = some (t3, f3) := e3
      rw [e2] at e3b
      simp only [Option.some.injEq, Prod.mk.injEq] at e3b
      have a2 := (onLoad_passes_frame png _ _ _ _ fop2 (Or.inl r2)).2.2.2.2
      have a3 := (onLoad_passes_frame { png with read_row := rr } _ _ _ _ fop3 (Or.inl r3)).2.2.2.2
      rw [himg] at a2
      rw [himg3] at a3
      have b2 : (onLoad_palette png
          (fop_sequence_image png f2 t2 png.width png.height).2).2.image =
          some (Image.mk t2 png.width png.height ((List.range png.height).map (fun y =>
            (List.range png.width).map (fun x => png.image_fill y x)))) := by
        obtain ⟨_, ha, pal, hp⟩ := onLoad_palette_frame png
          (fop_sequence_image png f2 t2 png.width png.height).2
        rw [hp]
        simp only [fop_sequence_image, hok, if_true]
      have b3 : (onLoad_palette { png with read_row := rr }
          (fop_sequence_image { png with read_row := rr } f3 t3 png.width png.height).2).2.image =
          some (Image.mk t3 png.width png.height ((List.range png.height).map (fun y =>
            (List.range png.width).map (fun x => png.image_fill y x)))) := by
        obtain ⟨_, ha, pal, hp⟩ := onLoad_palette_frame { png with read_row := rr }
          (fop_sequence_image { png with read_row := rr } f3 t3 png.width png.height).2
        rw [hp]
        simp only [fop_sequence_image, hok, if_true]
      rw [b2] at a2
      rw [b3] at a3
      simp only [Option.map_some', Option.some.injEq, Prod.mk.injEq] at a2 a3
      rw [a3.1, a2.1]
      exact e3b.1.symm
    rw [himg3, himg, hty]
    congr 2
    apply List.ext_getElem
    · rw [hlen3, hlen]
    · intro j hj1 hj2
      have hj : j < png.height := by rw [← hlen]; exact hj2
      have g2 := hget j hj
      have g3 := hget3 j hj
      rw [if_pos ⟨by omega, hj⟩, List.getD_eq_getElem _ _ hj2] at g2
      rw [if_pos ⟨by omega, hj⟩, List.getD_eq_getElem _ _ hj1] at g3
      rw [g2, g3]
      have hs := hsame j hj
      simp only [decoded_row]
      show ((rr (fop.rows_read + (png.number_passes - 1) * png.height + j)).bind _).getD [] = _
      rw [hs]

/-- Witness for C17: a 1x2 Gray file read in 2 passes, call number `k` of
`png_read_row` delivering the byte `k`. -/
theorem onLoad_last_pass_wins_witness :
    ∃ fop2 imgtype line2,
      onLoad { sample_reader 1 2 PNG_COLOR_TYPE_GRAY 2 none [] [] (fun _ => false) with
          read_row := fun k => some [k] } fresh_fop = some (true, fop2) ∧
      fop2.image = some (Image.mk imgtype 1 2 line2) ∧
      line2.length = 2 :=
  match onLoad_last_pass_wins
    { sample_reader 1 2 PNG_COLOR_TYPE_GRAY 2 none [] [] (fun _ => false) with
      read_row := fun k => some [k] } fresh_fop
    rfl rfl rfl rfl rfl (by decide) (fun k => ⟨[k], rfl, rfl⟩) (fun _ => rfl) (by decide) with
  | ⟨fop2, imgtype, line2, e1, e2, e3, _, _⟩ => ⟨fop2, imgtype, line2, e1, e2, e3⟩

/-- C19: cancellation in a decode of several passes.  For every height of at
least 1 and every number of passes `P`, when the cancellation signal is set
from the start and stays set, `onLoad` returns `true` having read and
transcoded exactly `P` rows, row 0 of each pass, and having reported
exactly `P` progress values, the one of pass `p` for row 0: it is the
`float` evaluation of `(p + 1 / height) / P`, each operand converted to
`float` and each operation rounded to `float` (for `height` and `P` up to
`2^24` the conversions are exact).  The stop check ends the pass, not the
decode. -/
theorem onLoad_stop_from_start (png : PngReader) (fop : FileOp)
    (h1 : png.fopen_ok = true) (h2 : png.create_read_struct_ok = true)
    (h3 : png.create_info_struct_ok = true) (h4 : png.read_info_ok = true)
    (hok : png.sequence_image_ok = true)
    (hct : png.color_type ∈ [PNG_COLOR_TYPE_RGB, PNG_COLOR_TYPE_RGB_ALPHA, PNG_COLOR_TYPE_GRAY,
      PNG_COLOR_TYPE_GRAY_ALPHA, PNG_COLOR_TYPE_PALETTE])
    (hrows : ∀ k, ∃ row, png.read_row k = some row ∧
      row.length = png_get_rowbytes png.color_type png.width)
    (hh : 1 ≤ png.height) (hstop : ∀ k, png.is_stop k = true) :
    ∃ fop2, onLoad png fop = some (true, fop2) ∧
      fop2.rows_read = fop.rows_read + png.number_passes ∧
      fop2.progress = fop.progress ++ (List.range png.number_passes).map (fun p =>
        Progress.mk p 0 png.height png.number_passes) ∧
      fop2.progress.map Progress.value = fop.progress.map Progress.value ++
        (List.range png.number_passes).map (fun (p : ℕ) =>
          to_float (to_float (to_float (p : ℚ) +
              to_float (to_float 1 / to_float (png.height : ℚ))) /
            to_float (png.number_passes : ℚ))) ∧
      (png.height ≤ 2 ^ 24 → png.number_passes ≤ 2 ^ 24 →
        fop2.progress.map Progress.value = fop.progress.map Progress.value ++
          (List.range png.number_passes).map (fun (p : ℕ) =>
            to_float (to_float ((p : ℚ) + to_float (1 / (png.height : ℚ))) /
              (png.number_passes : ℚ)))) ∧
      ∃ imgtype line2, fop2.image = some (Image.mk imgtype png.width png.height line2) ∧
        ∀ j, 1 ≤ j → j < png.height →
          line2.getD j [] = (List.range png.width).map (fun x => png.image_fill j x) := by
  obtain ⟨fop2, imgtype, line2, hrun, hrr, hpr, _, himg, _, hget⟩ :=
    onLoad_uniform png fop h1 h2 h3 h4 hok hct hrows 1 hh
      (fun i _ t ht => absurd ht (by omega))
      (Or.inr ⟨Nat.one_pos, fun i _ => hstop _⟩)
  have hprog : fop2.progress = fop.progress ++ (List.range png.number_passes).map (fun p =>
      Progress.mk p 0 png.height png.number_passes) := by
    rw [hpr, Nat.mul_one]
    congr 1
    apply List.map_congr_left
    intro k _
    rw [Nat.div_one, Nat.mod_one]
  have hval : fop2.progress.map Progress.value = fop.progress.map Progress.value ++
      (List.range png.number_passes).map (fun (p : ℕ) =>
        to_float (to_float (to_float (p : ℚ) +
            to_float (to_float 1 / to_float (png.height : ℚ))) /
          to_float (png.number_passes : ℚ))) := by
    rw [hprog, List.map_append, List.map_map]
    congr 1
  refine ⟨fop2, hrun, by rw [hrr, Nat.mul_one], hprog, hval, ?_,
    imgtype, line2, himg, fun j hj1 hj2 => ?_⟩
  · intro hh24 hP24
    rw [hval]
    congr 1
    apply List.map_congr_left
    intro k hk
    have hk2 : k < png.number_passes := List.mem_range.mp hk
    rw [to_float_natCast k (by omega), to_float_natCast png.height hh24,
      to_float_natCast png.number_passes hP24, to_float_one]
  · have hg := hget j hj2
    rw [if_neg (by omega)] at hg
    exact hg

/-- Witness for C19: an interlaced 1x3 Gray file, 7 passes, with the stop
signal always set. -/
theorem onLoad_stop_from_start_witness :
    ∃ fop2, onLoad (sample_reader 1 3 PNG_COLOR_TYPE_GRAY 7 none [] [9] (fun _ => true))
        fresh_fop = some (true, fop2) ∧
      fop2.rows_read = 0 + 7 ∧
      fop2.progress = [] ++ (List.range 7).map (fun p => Progress.mk p 0 3 7) ∧
      fop2.progress.map Progress.value = [] ++
        (List.range 7).map (fun (p : ℕ) =>
          to_float (to_float (to_float (p : ℚ) +
              to_float (to_float 1 / to_float ((3 : ℕ) : ℚ))) /
            to_float ((7 : ℕ) : ℚ))) :=
  match onLoad_stop_from_start
    (sample_reader 1 3 PNG_COLOR_TYPE_GRAY 7 none [] [9] (fun _ => true)) fresh_fop
    rfl rfl rfl rfl rfl (by decide) (fun _ => ⟨[9], rfl, rfl⟩) (by decide) (fun _ => rfl) with
  | ⟨fop2, e1, e2, e3, e4, _, _⟩ => ⟨fop2, e1, e2, e3, e4⟩

/-- Counterexample to C19 as stated: an interlaced file of 3 rows read in 7
passes with the stop signal always set.  `onLoad` reports seven progress
values, and they are the `float` results, not the fractions
`(p + 1/3) / 7`: the first is 12782641/268435456 (0.0476190485...), not
1/21. -/
theorem onLoad_stop_from_start_counterexample :
    ∃ fop2, onLoad (sample_reader 1 3 PNG_COLOR_TYPE_GRAY 7 none [] [9] (fun _ => true))
        fresh_fop = some (true, fop2) ∧
      fop2.progress.map Progress.value =
        [12782641 / 268435456, 12782641 / 67108864, 5592405 / 16777216, 15978301 / 33554432,
          1298237 / 2097152, 12782641 / 16777216, 7589693 / 8388608] ∧
      (12782641 / 268435456 : ℚ) ≠ ((0 : ℚ) + 1 / 3) / 7 := by
  have hrun : (onLoad (sample_reader 1 3 PNG_COLOR_TYPE_GRAY 7 none [] [9] (fun _ => true))
      fresh_fop).map (fun r => (r.1, r.2.progress)) =
      some (true, (List.range 7).map (fun p => Progress.mk p 0 3 7)) := by decide
  cases hl : onLoad (sample_reader 1 3 PNG_COLOR_TYPE_GRAY 7 none [] [9] (fun _ => true))
      fresh_fop with
  | none =>
    rw [hl] at hrun
    exact absurd hrun (by simp)
  | some res =>
    obtain ⟨b, fop2⟩ := res
    rw [hl] at hrun
    simp only [Option.map_some', Option.some.injEq, Prod.mk.injEq] at hrun
    obtain ⟨hb, hp⟩ := hrun
    subst hb
    refine ⟨fop2, rfl, ?_, by norm_num⟩
    rw [hp, List.map_map]
    exact Progress.value_stop_3_7

/-! ## Round trip of Indexed images (claim C12) -/

theorem save_row_PALETTE_eq (width : Nat) (l : List Nat) (hlen : l.length = width) :
    save_row_PALETTE width l = some l := by
  induction width generalizing l with
  | zero =>
    have : l = [] := List.eq_nil_of_length_eq_zero hlen
    simp [save_row_PALETTE, this]
  | succ w ih =>
    match l, hlen with
    | c :: rest, hlen =>
      simp [save_row_PALETTE, ih rest (by simpa using hlen)]

/-- C12: round trip of Indexed images.  For every well-formed Indexed image
with 8-bit pixels and either value of the transparent-background flag,
`onSave` succeeds, names index 0 as transparent or sets no transparency
chunk at all, and `onLoad` of what was written, transparency chunk
included, succeeds and yields an image with the same pixel format,
dimensions and pixel values. -/
theorem onLoad_onSave_indexed_round_trip (w : PngWriter) (sprite : Sprite) (fop fop0 : FileOp)
    (image : Image) (fill : Nat → Nat → Nat)
    (h1 : w.fopen_ok = true) (h2 : w.create_write_struct_ok = true)
    (h3 : w.create_info_struct_ok = true) (h4 : w.write_info_ok = true)
    (hw : ∀ k, w.write_row_ok k = true)
    (himg : fop.image = some image) (hlines : image.line.length = image.h)
    (hwidth : ∀ l ∈ image.line, l.length = image.w)
    (hty : image.imgtype = ImgType.IMAGE_INDEXED)
    (hpix : ∀ l ∈ image.line, ∀ c ∈ l, c < 256)
    (h0 : fop0.rows_read = 0) :
    ∃ fop1 file, onSave w sprite fop = some (true, fop1, file) ∧
      file.trns = (if sprite.hasBackgroundLayer then none else some [0]) ∧
      ∃ fop2, onLoad (reader_of_file file fill) fop0 = some (true, fop2) ∧
        fop2.image = some image := by
  have hsave := onSave_run w sprite fop image h1 h2 h3 h4 hw himg hlines hwidth
  have hpalfile : onSave_palette image sprite fop
      { ihdr := some (png_IHDR.mk image.w image.h 8
          (onSave_color_type image.imgtype sprite) PNG_INTERLACE_NONE),
        plte := none, trns := none, rows := [] } =
      { ihdr := some (png_IHDR.mk image.w image.h 8 PNG_COLOR_TYPE_PALETTE PNG_INTERLACE_NONE),
        plte := some (write_palette fop PNG_MAX_PALETTE_LENGTH 0),
        trns := if sprite.hasBackgroundLayer then none else some [0], rows := [] } := by
    simp only [onSave_palette, onSave_color_type, hty, if_true]
    cases sprite.hasBackgroundLayer <;> rfl
  have hctS : onSave_color_type image.imgtype sprite = PNG_COLOR_TYPE_PALETTE := by
    rw [hty]; rfl
  rw [hpalfile, hctS] at hsave
  refine ⟨_, _, hsave, rfl, ?_⟩
  generalize hpng : reader_of_file
    { ihdr := some (png_IHDR.mk image.w image.h 8 PNG_COLOR_TYPE_PALETTE PNG_INTERLACE_NONE),
      plte := some (write_palette fop PNG_MAX_PALETTE_LENGTH 0),
      trns := if sprite.hasBackgroundLayer then none else some [0],
      rows := image.line.map (fun l => (save_row PNG_COLOR_TYPE_PALETTE image.w l).getD []) }
    fill = png
  have e1 : png.fopen_ok = true := by rw [← hpng]; rfl
  have e2 : png.create_read_struct_ok = true := by rw [← hpng]; rfl
  have e3 : png.create_info_struct_ok = true := by rw [← hpng]; rfl
  have e4 : png.read_info_ok = true := by rw [← hpng]; rfl
  have e5 : png.width = image.w := by rw [← hpng]; rfl
  have e6 : png.height = image.h := by rw [← hpng]; rfl
  have e7 : png.color_type = PNG_COLOR_TYPE_PALETTE := by rw [← hpng]; rfl
  have e8 : png.number_passes = 1 := by rw [← hpng]; rfl
  have e9 : png.sequence_image_ok = true := by rw [← hpng]; rfl
  have e10 : ∀ k, png.is_stop k = false := by intro k; rw [← hpng]; rfl
  have e11 : ∀ k, png.read_row k = (image.line.map (fun l =>
      (save_row PNG_COLOR_TYPE_PALETTE image.w l).getD [])).get? k := by
    intro k; rw [← hpng]; rfl
  have e12 : png.plte = some (write_palette fop PNG_MAX_PALETTE_LENGTH 0) := by
    rw [← hpng]; rfl
  have e13 : png.trns = [] ∨ png.trns = [0] := by
    rw [← hpng]
    cases hb : sprite.hasBackgroundLayer
    · exact Or.inr (by simp [reader_of_file, hb])
    · exact Or.inl (by simp [reader_of_file, hb])
  have hneg : onLoad_imgtype PNG_COLOR_TYPE_PALETTE fop0 =
      some (ImgType.IMAGE_INDEXED, fop0) := rfl
  rw [onLoad_eq_of_setup png fop0 e1 e2 e3 e4, e7, hneg]
  simp only [fop_sequence_image, e9, if_true, e8, onLoad_passes_one, e5, e6]
  generalize hfA : FileOp.mk fop0.has_alpha
      (some (Image.mk ImgType.IMAGE_INDEXED image.w image.h
        ((List.range image.h).map (fun y => (List.range image.w).map (fun x =>
          png.image_fill y x)))))
      fop0.palette fop0.errors fop0.progress (fop0.image_requests + 1) fop0.rows_read = fA
  obtain ⟨_, ha, pal, hp⟩ := onLoad_palette_frame png fA
  have hte : (onLoad_palette png fA).1 =
      (read_trans png.trns (List.replicate 256 false, fA)).1 := by
    rw [onLoad_palette_of_plte png fA _ e7 e12]
  have hFimg : (onLoad_palette png fA).2.image =
      some (Image.mk ImgType.IMAGE_INDEXED image.w image.h
        ((List.range image.h).map (fun y => (List.range image.w).map (fun x =>
          png.image_fill y x)))) := by
    rw [hp, ← hfA]
  have hFrows : (onLoad_palette png fA).2.rows_read = 0 := by
    rw [hp, ← hfA]
    exact h0
  obtain ⟨line2, hrun, hlen2, hget2⟩ := onLoad_rows_run png (onLoad_palette png fA).1 0 e10
    (fun j => image.line.getD j []) image.h 0 (onLoad_palette png fA).2
    (Image.mk ImgType.IMAGE_INDEXED image.w image.h
        ((List.range image.h).map (fun y => (List.range image.w).map (fun x =>
          png.image_fill y x))))
    hFimg (by simp)
    (by
      intro i hi
      have hil : i < image.line.length := by omega
      refine ⟨image.line[i], ?_, ?_⟩
      · rw [hFrows, Nat.zero_add, e11, List.get?_eq_getElem?, List.getElem?_map,
          List.getElem?_eq_getElem hil]
        simp only [Option.map_some', save_row_of_PALETTE,
          save_row_PALETTE_eq image.w image.line[i] (hwidth _ (List.getElem_mem hil)),
          Option.getD_some]
      · rw [e7, e5, Nat.zero_add, hte]
        beta_reduce
        rw [List.getD_eq_getElem image.line [] hil,
          load_row_PALETTE_collapse png.trns fA image.w image.line[i] _
            (hwidth _ (List.getElem_mem hil)) (hpix _ (List.getElem_mem hil))]
        congr 1
        have hmap : ∀ c ∈ image.line[i], (if c ∈ png.trns then 0 else c) = c := by
          intro c _
          rcases e13 with ht | ht
          · rw [ht]
            simp
          · rw [ht]
            by_cases hc : c = 0
            · simp [hc]
            · simp [hc]
        calc image.line[i].map (fun c => if c ∈ png.trns then 0 else c)
            = image.line[i].map (fun c => c) := List.map_congr_left hmap
          _ = image.line[i] := List.map_id _)
  have hline : line2 = image.line := by
    apply List.ext_getElem
    · rw [hlen2]
      simp [hlines]
    · intro j hj1 hj2
      have := hget2 j
      rw [if_pos (by omega), List.getD_eq_getElem _ _ hj1, List.getD_eq_getElem _ _ hj2] at this
      exact this
  rw [hrun, hline]
  refine ⟨_, rfl, ?_⟩
  show some (Image.mk ImgType.IMAGE_INDEXED image.w image.h image.line) = some image
  rw [← hty]

/-- Witness for C12: a 2x2 Indexed image that uses the indices 0, 3 and 255,
saved for a sprite without a background layer, so that index 0 is named
transparent. -/
theorem onLoad_onSave_indexed_round_trip_witness :
    ∃ fop1 file,
      onSave sample_writer { needAlpha := false, hasBackgroundLayer := false }
        (fop_with_image
          { imgtype := ImgType.IMAGE_INDEXED, w := 2, h := 2, line := [[0, 3], [255, 0]] }
          (fun _ => (0, 0, 0))) = some (true, fop1, file) ∧
      file.trns = some [0] ∧
      ∃ fop2, onLoad (reader_of_file file (fun _ _ => 7)) fresh_fop = some (true, fop2) ∧
        fop2.image = some
          { imgtype := ImgType.IMAGE_INDEXED, w := 2, h := 2, line := [[0, 3], [255, 0]] } :=
  onLoad_onSave_indexed_round_trip sample_writer
    { needAlpha := false, hasBackgroundLayer := false }
    (fop_with_image
      { imgtype := ImgType.IMAGE_INDEXED, w := 2, h := 2, line := [[0, 3], [255, 0]] }
      (fun _ => (0, 0, 0)))
    fresh_fop
    { imgtype := ImgType.IMAGE_INDEXED, w := 2, h := 2, line := [[0, 3], [255, 0]] }
    (fun _ _ => 7) rfl rfl rfl rfl (fun _ => rfl) rfl rfl (by decide) rfl (by decide) rfl

end PngFormat
